import Mathlib

/-!
ClangExpressionDeclMap: struct layout and (de)materialization

A shallow embedding of `lldb/source/Expression/ClangExpressionDeclMap.cpp`.

Conventions of the embedding

* `size_t`, `off_t` and `lldb::addr_t` values are natural numbers, the 64-bit words of the
  source.  The layout loop of `DoStructLayout` computes as the source does: the remainder
  is taken of signed 64-bit numbers and every sum is reduced modulo `2 ^ 64`.  The address
  arithmetic of `DoMaterialize` (the size of the allocation, the rounding of the allocated
  area, the address of a member) is written with unbounded sums; they are the numbers the
  source computes as long as they stay below `2 ^ 64`.
* A function of the source that can run into undefined behaviour (a remainder by zero, a
  null `auto_ptr` or shared pointer being dereferenced) returns `Option`; `none` stands for
  such a run.  A `bool` result of the source is the `Bool` component of the value.
* Shared pointers to expression variables are indices into a heap of variable objects, so
  that the three variable lists alias the same objects as they do in the source.
* `Error` objects are `Option String`: `none` is success, `some msg` a failure with its
  message.
* The debuggee (`Process`) and the symbol layer (`ExecutionContext`) are external
  collaborators; they are described by the data their interface returns.
-/

namespace lldb_private

/-! ## Basic types -/

/-- Modelled from the spec: the constant `LLDB_INVALID_ADDRESS` is declared in
`lldb-defines.h`, which is not among the sources; it is the all-ones 64-bit address. -/
def LLDB_INVALID_ADDRESS : Nat := 2 ^ 64 - 1

/-- An `Error` object: `none` is success, `some msg` is a failure carrying its message. -/
abbrev Error := Option String

/-- Text of `Error::AsCString ()`; a successful error has no text. -/
def Error.AsCString : Error → String
  | none => ""
  | some msg => msg

/-- Truth of `Error::Success ()`. -/
def Error.Success (e : Error) : Bool := e.isNone

/-- Truth of `Error::Fail ()`. -/
def Error.Fail (e : Error) : Bool := e.isSome

/-- Byte orders of `lldb::ByteOrder`. -/
inductive ByteOrder where
  | eByteOrderInvalid
  | eByteOrderBig
  | eByteOrderPDP
  | eByteOrderLittle
  deriving DecidableEq, Repr

/-- Modelled from the spec: the storage flags of `ClangExpressionVariable` are declared in
`ClangExpressionVariable.h`, which is not among the sources.  The spec lists them as
independently settable flags, so `m_flags` is a record of independent bits; `f |= X` sets
one field and `f &= ~X` clears it. -/
structure Flags where
  EVIsLLDBAllocated : Bool := false
  EVIsProgramReference : Bool := false
  EVNeedsAllocation : Bool := false
  EVIsFreezeDried : Bool := false
  EVNeedsFreezeDry : Bool := false
  EVKeepInTarget : Bool := false
  EVUnknownType : Bool := false
  deriving DecidableEq, Repr

/-- A `TypeFromUser` / `TypeFromParser`: an AST context handle and an opaque type handle. -/
structure TaggedASTType where
  ast : Nat := 0
  type : Nat := 0
  deriving DecidableEq, Repr

/-- The part of `lldb_private::RegisterInfo` the decl map reads. -/
structure RegisterInfo where
  name : String := ""
  byte_size : Nat := 0
  regnum : Nat := 0
  deriving DecidableEq, Repr

/-- Value types of `lldb_private::Value`. -/
inductive ValueType where
  | eValueTypeScalar
  | eValueTypeFileAddress
  | eValueTypeLoadAddress
  | eValueTypeHostAddress
  deriving DecidableEq, Repr

/-- Context types of `lldb_private::Value`. -/
inductive ContextType where
  | eContextTypeInvalid
  | eContextTypeClangType
  | eContextTypeRegisterInfo
  | eContextTypeLLDBType
  | eContextTypeVariable
  deriving DecidableEq, Repr

/-- The part of `lldb_private::Value` the decl map reads: value type, context type, the
scalar and the register the context points to (when the context is a register). -/
structure Value where
  valueType : ValueType := ValueType.eValueTypeScalar
  contextType : ContextType := ContextType.eContextTypeInvalid
  scalar : Nat := 0
  registerInfo : Option RegisterInfo := none
  deriving DecidableEq, Repr

/-- Parser-side data of a variable (`ClangExpressionVariable::ParserVars`). -/
structure ParserVars where
  m_named_decl : Nat := 0
  m_llvm_value : Nat := 0
  m_lldb_value : Option Value := none
  m_parser_type : TaggedASTType := {}
  deriving DecidableEq, Repr

/-- JIT-side data of a variable (`ClangExpressionVariable::JITVars`): the alignment and
size handed to `AddValueToStruct` and the offset computed by `DoStructLayout`. -/
structure JITVars where
  m_alignment : Nat := 0
  m_size : Nat := 0
  m_offset : Nat := 0
  deriving DecidableEq, Repr

/-- The live value object of a variable (`m_live_sp`): the address of its storage in the
debuggee and whether that address is a load address (`eAddressTypeLoad`). -/
structure LiveObject where
  address : Nat := 0
  isLoadAddress : Bool := true
  deriving DecidableEq, Repr

/-- An expression variable.  `m_byte_size` is `GetByteSize ()`; `m_value_bytes` is the
host-side byte buffer behind `GetValueBytes ()`, `none` when that call returns `NULL`. -/
structure ClangExpressionVariable where
  m_name : String := ""
  m_user_type : TaggedASTType := {}
  m_flags : Flags := {}
  m_parser_vars : Option ParserVars := none
  m_jit_vars : Option JITVars := none
  m_live_sp : Option LiveObject := none
  m_register_info : Option RegisterInfo := none
  m_byte_size : Nat := 0
  m_value_bytes : Option (List Nat) := none
  deriving DecidableEq, Repr

/-- The layout record of the decl map (`StructVars`). -/
structure StructVars where
  m_struct_alignment : Nat := 0
  m_struct_size : Nat := 0
  m_struct_laid_out : Bool := false
  m_result_name : String := ""
  deriving DecidableEq, Repr

/-- The materialization record of the decl map (`MaterialVars`). -/
structure MaterialVars where
  m_allocated_area : Nat := 0
  m_materialized_location : Nat := 0
  deriving DecidableEq, Repr

/-! ## The debuggee -/

/-- A call made on the debuggee's allocator. -/
inductive Call where
  | allocate (size : Nat) (result : Nat)
  | deallocate (addr : Nat)
  deriving DecidableEq, Repr

/-- The debuggee process as seen through the process-control interface.  `memory a` is the
byte at address `a`, `none` when the address cannot be accessed.  `allocations` and
`deallocations` are what the next calls of `AllocateMemory` and `DeallocateMemory` will
answer; `trace` records the allocator calls made so far, oldest first. -/
structure Process where
  memory : Nat → Option Nat := fun _ => none
  registers : Nat → Option (List Nat) := fun _ => none
  registerWritable : Nat → Bool := fun _ => false
  byteOrder : ByteOrder := ByteOrder.eByteOrderLittle
  addressByteSize : Nat := 8
  allocations : List (Nat × Error) := []
  deallocations : List Error := []
  trace : List Call := []

/-- Reads `n` bytes starting at `addr`; `none` when one of them cannot be accessed. -/
def readBytes (m : Nat → Option Nat) (addr : Nat) : Nat → Option (List Nat)
  | 0 => some []
  | n + 1 =>
    match m addr, readBytes m (addr + 1) n with
    | some b, some bs => some (b :: bs)
    | _, _ => none

/-- Writes the bytes starting at `addr`; `none` when one of the addresses cannot be accessed. -/
def writeBytes (m : Nat → Option Nat) (addr : Nat) : List Nat → Option (Nat → Option Nat)
  | [] => some m
  | b :: bs =>
    match m addr with
    | none => none
    | some _ => writeBytes (Function.update m addr (some b)) (addr + 1) bs

/-- Little-endian value of a byte string. -/
def decodeLE : List Nat → Nat
  | [] => 0
  | b :: bs => b + 256 * decodeLE bs

/-- The `n` low bytes of `v`, least significant first. -/
def encodeLE (v : Nat) : Nat → List Nat
  | 0 => []
  | n + 1 => v % 256 :: encodeLE (v / 256) n

/-- Modelled from the spec: `Process::ReadMemory` (process-control layer,
`read(address, length) -> bytes|failure`). -/
def Process.ReadMemory (p : Process) (addr size : Nat) : Option (List Nat) :=
  readBytes p.memory addr size

/-- Modelled from the spec: `Process::WriteMemory` (process-control layer,
`write(address, bytes) -> failure?`): whether the bytes were written, and the debuggee
afterwards (unchanged on failure). -/
def Process.WriteMemory (p : Process) (addr : Nat) (bytes : List Nat) : Bool × Process :=
  match writeBytes p.memory addr bytes with
  | none => (false, p)
  | some m => (true, { p with memory := m })

/-- Modelled from the spec: `Process::ReadPointerFromMemory`; an address-sized unsigned
integer read in the target byte order, `LLDB_INVALID_ADDRESS` when the read fails. -/
def Process.ReadPointerFromMemory (p : Process) (addr : Nat) : Nat :=
  match p.ReadMemory addr p.addressByteSize, p.byteOrder with
  | some bytes, ByteOrder.eByteOrderLittle => decodeLE bytes
  | some bytes, ByteOrder.eByteOrderBig => decodeLE bytes.reverse
  | _, _ => LLDB_INVALID_ADDRESS

/-- Modelled from the spec: `Process::WriteScalarToMemory`; the `size` low bytes of the
scalar written in the target byte order: whether they were written, and the debuggee
afterwards. -/
def Process.WriteScalarToMemory (p : Process) (addr scalar size : Nat) : Bool × Process :=
  match p.byteOrder with
  | ByteOrder.eByteOrderLittle => p.WriteMemory addr (encodeLE scalar size)
  | ByteOrder.eByteOrderBig => p.WriteMemory addr (encodeLE scalar size).reverse
  | _ => (false, p)

/-- Modelled from the spec: `Process::AllocateMemory`
(`allocate(size, permissions) -> address|failure`).  The answer is the next entry of
`allocations`; with none left the allocation fails.  The call is recorded in `trace`. -/
def Process.AllocateMemory (p : Process) (size : Nat) : Nat × Error × Process :=
  match p.allocations with
  | [] =>
    (LLDB_INVALID_ADDRESS, some "allocation failed",
      { p with trace := p.trace ++ [Call.allocate size LLDB_INVALID_ADDRESS] })
  | (a, e) :: rest =>
    (a, e, { p with allocations := rest, trace := p.trace ++ [Call.allocate size a] })

/-- Modelled from the spec: `Process::DeallocateMemory` (`deallocate(address) -> failure?`).
The answer is the next entry of `deallocations`, success with none left.  The call is
recorded in `trace`. -/
def Process.DeallocateMemory (p : Process) (addr : Nat) : Error × Process :=
  match p.deallocations with
  | [] => (none, { p with trace := p.trace ++ [Call.deallocate addr] })
  | e :: rest =>
    (e, { p with deallocations := rest, trace := p.trace ++ [Call.deallocate addr] })

/-- Modelled from the spec: `RegisterContext::ReadRegister` (read-register by logical id). -/
def Process.ReadRegister (p : Process) (reg : RegisterInfo) : Option (List Nat) :=
  p.registers reg.regnum

/-- Modelled from the spec: `RegisterContext::WriteRegister` (write-register by logical
id): whether the register was written, and the debuggee afterwards. -/
def Process.WriteRegister (p : Process) (reg : RegisterInfo) (value : List Nat) :
    Bool × Process :=
  if p.registerWritable reg.regnum then
    (true, { p with registers := Function.update p.registers reg.regnum (some value) })
  else (false, p)

/-- Modelled from the spec: `RegisterContext::ReadRegisterValueFromMemory`; `len` bytes of
debuggee memory become the register value, an error when they do not fit the register or
cannot be read. -/
def Process.ReadRegisterValueFromMemory (p : Process) (reg : RegisterInfo) (addr len : Nat) :
    Error × List Nat :=
  if reg.byte_size < len then (some "too big to store in register", [])
  else
    match p.ReadMemory addr len with
    | none => (some "failed to read memory", [])
    | some bytes => (none, bytes)

/-- Modelled from the spec: `RegisterContext::WriteRegisterValueToMemory`; the first `len`
bytes of the register value are written to debuggee memory. -/
def Process.WriteRegisterValueToMemory (p : Process) (_reg : RegisterInfo) (addr len : Nat)
    (value : List Nat) : Error × Process :=
  let written := p.WriteMemory addr (value.take len)
  if written.1 then (none, written.2) else (some "failed to write memory", written.2)

/-! ## The symbol layer -/

/-- A debug-information variable (`lldb::VariableSP`) as the decl map sees it: scope and
location validity for the current frame, its type, the outcome of evaluating its location
expression (`none` when the evaluation fails) and, for a file address, the load address it
resolves to (`none` when the module or its object file is missing). -/
structure Variable where
  isInScope : Bool := true
  locationIsValidForFrame : Bool := true
  hasType : Bool := true
  type : TaggedASTType := {}
  hasClangType : Bool := true
  hasASTContext : Bool := true
  location : Option Value := none
  fileLoadAddress : Option Nat := none
  deriving DecidableEq, Repr

/-- A symbol of the symbol table as the decl map sees it. -/
structure Symbol where
  addressIsValid : Bool := true
  isCode : Bool := false
  isExternal : Bool := false
  loadAddress : Nat := 0
  callableLoadAddress : Nat := 0
  deriving DecidableEq, Repr

/-- The execution context handed to the decl map.  `frame` tells whether `exe_ctx.frame`
is non-null and `hasRegisterContext` whether `GetRegisterContext ()` is; the target and the
process are present.  The other fields are the answers of the frame and of the symbol
layer: the variable found for an expression path (with the error of the lookup), the data
symbols and all symbols of a name, the bit width of a type, whether two types of one AST
context are the same, the copy of a type into another AST context (`0` for `NULL`), and
whether the expression log is enabled.  `thread` tells whether `exe_ctx.thread` is non-null,
`threadFrame` whether that thread has a stack frame at index 0, and `scratchASTContext`
whether the target has a scratch AST context. -/
structure ExecutionContext where
  frame : Bool := true
  hasRegisterContext : Bool := true
  GetValueForVariableExpressionPath : String → Error × Option Variable := fun _ => (none, none)
  dataSymbols : String → List Symbol := fun _ => []
  anySymbols : String → List Symbol := fun _ => []
  GetClangTypeBitWidth : TaggedASTType → Nat := fun _ => 0
  AreTypesSame : TaggedASTType → TaggedASTType → Bool := fun a b => decide (a = b)
  CopyType : Nat → TaggedASTType → Nat := fun _ t => t.type
  logging : Bool := false
  thread : Bool := true
  threadFrame : Bool := true
  scratchASTContext : Bool := true

/-! ## The decl map and its surroundings -/

/-- The decl map together with what it shares with the rest of the debugger: the heap of
expression variables its lists point into, the target's persistent variables and the
debuggee process.  `m_struct_members` may hold null entries, the other lists hold
variables only; `m_parser_vars` tells whether the parser record of the decl map is enabled. -/
structure World where
  heap : Nat → ClangExpressionVariable := fun _ => {}
  persistent_vars : List Nat := []
  process : Process := {}
  m_found_entities : List Nat := []
  m_struct_members : List (Option Nat) := []
  m_keep_result_in_memory : Bool := false
  m_parser_vars : Bool := false
  m_struct_vars : Option StructVars := none
  m_material_vars : Option MaterialVars := none

/-- The constructor `ClangExpressionDeclMap (keep_result_in_memory)`: empty lists and
`EnableStructVars ()`. -/
def World.create (keep_result_in_memory : Bool) : World :=
  { m_keep_result_in_memory := keep_result_in_memory, m_struct_vars := some {} }

/-- Modelled from the spec: `ClangExpressionVariableList::GetVariable (decl)`, declared in
`ClangExpressionVariable.h`; the first variable of the list whose parser data names the
declaration. -/
def GetVariableByDecl (heap : Nat → ClangExpressionVariable) (decl : Nat) :
    List Nat → Option Nat
  | [] => none
  | v :: vs =>
    match (heap v).m_parser_vars with
    | some pv => if pv.m_named_decl = decl then some v else GetVariableByDecl heap decl vs
    | none => GetVariableByDecl heap decl vs

/-- Modelled from the spec: `ClangExpressionVariableList::ContainsVariable`, declared in
`ClangExpressionVariable.h`; membership of the shared pointer in the list. -/
def ContainsVariable (vars : List Nat) (var_sp : Nat) : Bool :=
  decide (var_sp ∈ vars)

/-- Updates the variable object a shared pointer refers to. -/
def World.setVar (w : World) (id : Nat) (v : ClangExpressionVariable) : World :=
  { w with heap := Function.update w.heap id v }

/-- The call `DisableParserVars ()` on every variable of a list, in order. -/
def disableParserVars (heap : Nat → ClangExpressionVariable) :
    List Nat → Nat → ClangExpressionVariable
  | [] => heap
  | v :: vs =>
    disableParserVars (Function.update heap v { heap v with m_parser_vars := none }) vs

/-- The function `ClangExpressionDeclMap::WillParse`: `EnableParserVars ()`, then the parser
record is given the execution context, the symbol context of the frame (of the first frame
of the thread when there is no frame, which is undefined for a thread without frames) and
the persistent variables of the target; the result tells whether the target has a scratch
AST context.  What is stored in the parser record are pointers to the collaborators, which
this embedding passes to the functions that use them. -/
def WillParse (exe_ctx : ExecutionContext) (w : World) : Option (Bool × World) :=
  let w1 := { w with m_parser_vars := true }
  if !exe_ctx.frame && exe_ctx.thread && !exe_ctx.threadFrame then none
  else if !exe_ctx.scratchASTContext then some (false, w1)
  else some (true, w1)

/-- The function `ClangExpressionDeclMap::DidParse`: when the parser record of the decl map
is enabled, the parser data of every found entity and of every persistent variable is
discarded, and then the parser record itself. -/
def DidParse (w : World) : World :=
  if w.m_parser_vars then
    { w with
      heap := disableParserVars (disableParserVars w.heap w.m_found_entities) w.persistent_vars,
      m_parser_vars := false }
  else w

/-- The function `ClangExpressionDeclMap::AddValueToStruct`.  Its two assertions make the
call undefined when the struct record or the parser record of the decl map is missing. -/
def AddValueToStruct (w : World) (decl : Nat) (value : Nat) (size : Nat) (alignment : Nat) :
    Option (Bool × World) :=
  match w.m_struct_vars with
  | none => none
  | some sv =>
    if !w.m_parser_vars then none
    else
      let w1 := { w with m_struct_vars := some { sv with m_struct_laid_out := false } }
      if (GetVariableByDecl w1.heap decl (w1.m_struct_members.filterMap id)).isSome then
        some (true, w1)
      else
        let var_sp :=
          match GetVariableByDecl w1.heap decl w1.m_found_entities with
          | some v => some v
          | none => GetVariableByDecl w1.heap decl w1.persistent_vars
        match var_sp with
        | none => some (false, w1)
        | some v =>
          let var := w1.heap v
          match var.m_parser_vars with
          | none => none
          | some pv =>
            let jit : JITVars :=
              match var.m_jit_vars with
              | some j => { j with m_alignment := alignment, m_size := size }
              | none => { m_alignment := alignment, m_size := size }
            let var1 := { var with
              m_parser_vars := some { pv with m_llvm_value := value },
              m_jit_vars := some jit }
            let w2 := w1.setVar v var1
            some (true, { w2 with m_struct_members := w2.m_struct_members ++ [some v] })

/-- The value of a 64-bit word read as a signed `off_t` (two's complement). -/
def asOffT (x : Nat) : Int :=
  if x % 2 ^ 64 < 2 ^ 63 then ((x % 2 ^ 64 : Nat) : Int) else ((x % 2 ^ 64 : Nat) : Int) - 2 ^ 64

/-- The 64-bit word of an integer: what is kept of the result of an `off_t` or `size_t`
computation. -/
def toWord (i : Int) : Nat :=
  (i % 2 ^ 64).toNat

/-- The member loop of `DoStructLayout`: `members` are the entries from `member_index` on,
`cursor` the running offset.  A null entry or one without JIT data ends the layout with
`false`; a zero alignment makes the remainder undefined.  `cursor`, `m_alignment` and
`m_offset` are `off_t` in the source and `m_size` is `size_t`; they are stored as natural
numbers below `2 ^ 64`, the bit patterns of the 64-bit numbers.  `cursor % m_alignment` is
the remainder of signed 64-bit numbers (it has the sign of `cursor`), and the additions to
`cursor` keep the low 64 bits of the sum: 64-bit arithmetic wraps around, for signed numbers
as well (two's complement), and the remainder of the least `off_t` by -1 is taken as 0. -/
def layOutMembers (w : World) (sv : StructVars) :
    List (Option Nat) → Nat → Nat → Option (Bool × World × StructVars × Nat)
  | [], _, cursor => some (true, w, sv, cursor)
  | none :: _, _, cursor => some (false, w, sv, cursor)
  | some v :: rest, member_index, cursor =>
    match (w.heap v).m_jit_vars with
    | none => some (false, w, sv, cursor)
    | some j =>
      let sv1 := if member_index = 0 then { sv with m_struct_alignment := j.m_alignment } else sv
      if j.m_alignment = 0 then none
      else
        let remainder := (asOffT cursor).tmod (asOffT j.m_alignment)
        let cursor1 :=
          if remainder ≠ 0 then toWord (asOffT cursor + (asOffT j.m_alignment - remainder))
          else cursor
        let w1 := w.setVar v { w.heap v with m_jit_vars := some { j with m_offset := cursor1 } }
        layOutMembers w1 sv1 rest (member_index + 1) ((cursor1 + j.m_size) % 2 ^ 64)

/-- The function `ClangExpressionDeclMap::DoStructLayout`. -/
def DoStructLayout (w : World) : Option (Bool × World) :=
  match w.m_struct_vars with
  | none => none
  | some sv =>
    if sv.m_struct_laid_out then some (true, w)
    else
      let sv0 := { sv with m_struct_alignment := 0, m_struct_size := 0 }
      match layOutMembers w sv0 w.m_struct_members 0 0 with
      | none => none
      | some (false, w1, sv1, _) => some (false, { w1 with m_struct_vars := some sv1 })
      | some (true, w1, sv1, cursor) =>
        some (true, { w1 with
          m_struct_vars := some { sv1 with m_struct_size := cursor, m_struct_laid_out := true } })

/-- The function `ClangExpressionDeclMap::GetStructInfo`: on success the number of
elements, the size and the alignment. -/
def GetStructInfo (w : World) : Option (Option (Nat × Nat × Nat)) :=
  match w.m_struct_vars with
  | none => none
  | some sv =>
    if !sv.m_struct_laid_out then some none
    else some (some (w.m_struct_members.length, sv.m_struct_size, sv.m_struct_alignment))

/-- The function `ClangExpressionDeclMap::GetStructElement`: on success the declaration,
the LLVM value, the offset and the name of the member at `index`. -/
def GetStructElement (w : World) (index : Nat) : Option (Option (Nat × Nat × Nat × String)) :=
  match w.m_struct_vars with
  | none => none
  | some sv =>
    if !sv.m_struct_laid_out then some none
    else if index ≥ w.m_struct_members.length then some none
    else
      match w.m_struct_members.get? index with
      | some (some v) =>
        match (w.heap v).m_parser_vars, (w.heap v).m_jit_vars with
        | some pv, some j => some (some (pv.m_named_decl, pv.m_llvm_value, j.m_offset, (w.heap v).m_name))
        | _, _ => some none
      | _ => some none

/-! ## Locating a found entity -/

/-- The function `ClangExpressionDeclMap::FindVariableInScope`. -/
def FindVariableInScope (exe_ctx : ExecutionContext) (name : String)
    (type : Option TaggedASTType) : Option (Option Variable) :=
  match exe_ctx.GetValueForVariableExpressionPath name with
  | (_, none) => some none
  | (err, some var_sp) =>
    if !err.Success || !var_sp.isInScope || !var_sp.locationIsValidForFrame then some none
    else
      match type with
      | none => some (some var_sp)
      | some t =>
        if !var_sp.hasType then none
        else if t.ast = var_sp.type.ast then
          if !exe_ctx.AreTypesSame t var_sp.type then some none else some (some var_sp)
        else some none

/-- The function `ClangExpressionDeclMap::FindGlobalDataSymbol`. -/
def FindGlobalDataSymbol (exe_ctx : ExecutionContext) (name : String) : Option Symbol :=
  (exe_ctx.dataSymbols name).head?

/-- The symbol loop of `GetSymbolAddress (target, name)`. -/
def symbolLoadAddress : List Symbol → Nat
  | [] => LLDB_INVALID_ADDRESS
  | sym :: rest =>
    if !sym.addressIsValid then LLDB_INVALID_ADDRESS
    else
      let symbol_load_addr := if sym.isCode then sym.callableLoadAddress else sym.loadAddress
      if symbol_load_addr = LLDB_INVALID_ADDRESS then symbolLoadAddress rest
      else symbol_load_addr

/-- The function `ClangExpressionDeclMap::GetSymbolAddress (target, name)`. -/
def GetSymbolAddress (exe_ctx : ExecutionContext) (name : String) : Nat :=
  symbolLoadAddress (exe_ctx.anySymbols name)

/-- The function `ClangExpressionDeclMap::GetVariableValue`: the location of the variable,
with its user type and its parser type (the latter only when a parser AST context is
given); `none` is the `NULL` result. -/
def GetVariableValue (exe_ctx : ExecutionContext) (var : Variable)
    (parser_ast_context : Option Nat) : Option (Value × TaggedASTType × Option TaggedASTType) :=
  if !var.hasType then none
  else if !var.hasClangType then none
  else if !var.hasASTContext then none
  else
    match var.location with
    | none => none
    | some var_location =>
      let copied : Option (Option TaggedASTType) :=
        match parser_ast_context with
        | some ctx =>
          let type_to_use := exe_ctx.CopyType ctx var.type
          if type_to_use = 0 then none else some (some { ast := ctx, type := type_to_use })
        | none => some none
      match copied with
      | none => none
      | some parser_type =>
        let loc1 : Value :=
          if var_location.contextType = ContextType.eContextTypeInvalid then
            { var_location with contextType := ContextType.eContextTypeClangType }
          else var_location
        if loc1.valueType = ValueType.eValueTypeFileAddress then
          match var.fileLoadAddress with
          | none => none
          | some load_addr =>
            some ({ loc1 with scalar := load_addr, valueType := ValueType.eValueTypeLoadAddress },
              var.type, parser_type)
        else some (loc1, var.type, parser_type)

/-! ## Materializing one member -/

/-- The function `ClangExpressionDeclMap::DoMaterializeOneRegister`. -/
def DoMaterializeOneRegister (dematerialize : Bool) (w : World) (reg_info : RegisterInfo)
    (addr : Nat) (err : Error) : Bool × World × Error :=
  let register_byte_size := reg_info.byte_size
  if dematerialize then
    let read := w.process.ReadRegisterValueFromMemory reg_info addr register_byte_size
    match read.1 with
    | some msg =>
      (false, w, some ("Couldn't read " ++ reg_info.name ++ " from the target: " ++ msg))
    | none =>
      let written := w.process.WriteRegister reg_info read.2
      if !written.1 then
        (false, w, some ("Couldn't write register " ++ reg_info.name ++ " (dematerialize)"))
      else (true, { w with process := written.2 }, err)
  else
    match w.process.ReadRegister reg_info with
    | none => (false, w, some ("Couldn't read " ++ reg_info.name ++ " (materialize)"))
    | some reg_value =>
      let written :=
        w.process.WriteRegisterValueToMemory reg_info addr register_byte_size reg_value
      match written.1 with
      | some msg =>
        (false, { w with process := written.2 },
          some ("Couldn't write " ++ msg ++ " to the target: "))
      | none => (true, { w with process := written.2 }, err)

/-- The dematerialize half of the register case of `DoMaterializeOneVariable`: the register
is loaded from its spare memory area, the area is deallocated and the live object reset. -/
def dematerializeRegisterValue (w : World) (expr_var : Nat) (reg_info : RegisterInfo)
    (value_byte_size : Nat) : Bool × World × Error :=
  let name := (w.heap expr_var).m_name
  match (w.heap expr_var).m_live_sp with
  | none => (false, w, some ("Couldn't find the memory area used to store " ++ name))
  | some live =>
    if !live.isLoadAddress then
      (false, w, some ("The address of the memory area for " ++ name ++ " is in an incorrect format"))
    else
      let reg_addr := live.address
      let read := w.process.ReadRegisterValueFromMemory reg_info reg_addr value_byte_size
      match read.1 with
      | some msg => (false, w, some msg)
      | none =>
        let written := w.process.WriteRegister reg_info read.2
        if !written.1 then
          (false, w, some ("Couldn't write " ++ name ++ " to register " ++ reg_info.name))
        else
          let freed := written.2.DeallocateMemory reg_addr
          let w1 := { w with process := freed.2 }
          match freed.1 with
          | some msg =>
            (false, w1, some ("Couldn't deallocate spare memory area for " ++ name ++ ": " ++ msg))
          | none => (true, w1.setVar expr_var { w1.heap expr_var with m_live_sp := none }, none)

/-- The materialize half of the register case of `DoMaterializeOneVariable`: a spare memory
area is allocated, its address written into the struct slot and the register stored in it. -/
def materializeRegisterValue (w : World) (expr_var : Nat) (addr : Nat) (reg_info : RegisterInfo)
    (value_byte_size : Nat) : Bool × World × Error :=
  let name := (w.heap expr_var).m_name
  let register_byte_size := reg_info.byte_size
  let allocated := w.process.AllocateMemory value_byte_size
  let reg_addr := allocated.1
  let w1 := { w with process := allocated.2.2 }
  if reg_addr = LLDB_INVALID_ADDRESS then
    (false, w1, some ("Couldn't allocate a memory area to store " ++ name ++ ": "
      ++ Error.AsCString allocated.2.1))
  else
    let w2 := w1.setVar expr_var { w1.heap expr_var with
      m_live_sp := some { address := reg_addr, isLoadAddress := true } }
    let slot := w2.process.WriteScalarToMemory addr reg_addr w2.process.addressByteSize
    let w3 := { w2 with process := slot.2 }
    if !slot.1 then (false, w3, some ("Couldn't write " ++ name ++ " to the target: "))
    else if value_byte_size > register_byte_size then
      (false, w3, some (name ++ " is too big to store in " ++ reg_info.name))
    else
      match w3.process.ReadRegister reg_info with
      | none => (false, w3, some ("Couldn't read " ++ name ++ " from " ++ reg_info.name))
      | some reg_value =>
        let stored :=
          w3.process.WriteRegisterValueToMemory reg_info reg_addr value_byte_size reg_value
        match stored.1 with
        | some msg => (false, { w3 with process := stored.2 }, some msg)
        | none => (true, { w3 with process := stored.2 }, none)

/-- The register case (`Value::eValueTypeScalar`) of `DoMaterializeOneVariable`.  Every path
through it assigns `err`, so the incoming error is not an argument. -/
def materializeScalarValue (dematerialize : Bool) (exe_ctx : ExecutionContext) (w : World)
    (expr_var : Nat) (addr : Nat) (location_value : Value)
    (value_byte_size : Nat) : Bool × World × Error :=
  let name := (w.heap expr_var).m_name
  if location_value.contextType ≠ ContextType.eContextTypeRegisterInfo then
    (false, w, some (name ++ " is a scalar of unhandled type"))
  else
    match location_value.registerInfo with
    | none => (false, w, some ("Couldn't get the register information for " ++ name))
    | some reg_info =>
      if !exe_ctx.hasRegisterContext then
        (false, w, some ("Couldn't read register context to read " ++ name ++ " from " ++ reg_info.name))
      else if dematerialize then dematerializeRegisterValue w expr_var reg_info value_byte_size
      else materializeRegisterValue w expr_var addr reg_info value_byte_size

/-- The function `ClangExpressionDeclMap::DoMaterializeOneVariable`. -/
def DoMaterializeOneVariable (dematerialize : Bool) (exe_ctx : ExecutionContext) (w : World)
    (expr_var : Nat) (addr : Nat) (err : Error) : Option (Bool × World × Error) :=
  if !exe_ctx.frame then some (false, w, err)
  else
    let name := (w.heap expr_var).m_name
    let type := (w.heap expr_var).m_user_type
    match FindVariableInScope exe_ctx name (some type) with
    | none => none
    | some var =>
      let sym := FindGlobalDataSymbol exe_ctx name
      let located : Option (Option Value × Error) :=
        match var, sym with
        | some v, _ => some ((GetVariableValue exe_ctx v none).map (fun r => r.1), err)
        | none, some _ =>
          let location_load_addr := GetSymbolAddress exe_ctx name
          let err1 :=
            if location_load_addr = LLDB_INVALID_ADDRESS && exe_ctx.logging then
              some ("Couldn't find value for global symbol " ++ name)
            else err
          some (some { valueType := ValueType.eValueTypeLoadAddress, scalar := location_load_addr },
            err1)
        | none, none => none
      match located with
      | none => some (false, w, some ("Couldn't find " ++ name ++ " with appropriate type"))
      | some (none, _) => some (false, w, some ("Couldn't get value for " ++ name))
      | some (some location_value, err1) =>
        let value_bit_size := exe_ctx.GetClangTypeBitWidth type
        let value_byte_size :=
          if value_bit_size % 8 ≠ 0 then (value_bit_size + 8) / 8 else value_bit_size / 8
        match location_value.valueType with
        | ValueType.eValueTypeLoadAddress =>
          if !dematerialize then
            let slot :=
              w.process.WriteScalarToMemory addr location_value.scalar w.process.addressByteSize
            if !slot.1 then
              some (false, { w with process := slot.2 },
                some ("Couldn't write " ++ name ++ " to the target: "))
            else some (true, { w with process := slot.2 }, err1)
          else some (true, w, err1)
        | ValueType.eValueTypeScalar =>
          some (materializeScalarValue dematerialize exe_ctx w expr_var addr location_value
            value_byte_size)
        | _ => some (false, w, some (name ++ " has a value of unhandled type"))

/-- The first half of the dematerialize branch of `DoMaterializeOnePersistentVariable`
(from the flag test to the address-type test): the address read from the struct slot, with
the live object set up for a program reference.  `Sum.inl` is an early `return false` with
its error. -/
def dematerializeLocate (w : World) (v : Nat) (addr : Nat) : Sum Error (World × Nat) :=
  let var := w.heap v
  if var.m_flags.EVIsLLDBAllocated || var.m_flags.EVIsProgramReference then
    let mem := w.process.ReadPointerFromMemory addr
    if mem = LLDB_INVALID_ADDRESS then
      Sum.inl (some ("Couldn't read address of " ++ var.m_name ++ " from struct: "))
    else
      let var1 :=
        if var.m_flags.EVIsProgramReference && var.m_live_sp.isNone then
          { var with m_live_sp := some { address := mem, isLoadAddress := true } }
        else var
      let w1 := w.setVar v var1
      match var1.m_live_sp with
      | none => Sum.inl (some ("Couldn't find the memory area used to store " ++ var.m_name))
      | some live =>
        if !live.isLoadAddress then
          Sum.inl (some ("The address of the memory area for " ++ var.m_name
            ++ " is in an incorrect format"))
        else Sum.inr (w1, mem)
  else
    Sum.inl (some "Persistent variables without separate allocations are not currently supported.")

/-- The freeze-dry step of the dematerialize branch of `DoMaterializeOnePersistentVariable`
(the block guarded by `EVNeedsFreezeDry` or `EVKeepInTarget`): the host-side bytes are read
from the live address, a variable inside the expression's stack frame is marked as needing
reallocation, and `EVNeedsFreezeDry` is cleared.  The result carries the value of `mem`
after the step; `Sum.inl` is an early `return false` with its error. -/
def dematerializeFreezeDry (w : World) (v : Nat) (mem : Nat) (pvar_data : List Nat)
    (stack_frame_top stack_frame_bottom : Nat) : Option (Sum Error (World × Nat)) :=
  let var := w.heap v
  if var.m_flags.EVNeedsFreezeDry || var.m_flags.EVKeepInTarget then
    match var.m_live_sp with
    | none => none
    | some live =>
      let mem1 := live.address
      match w.process.ReadMemory mem1 var.m_byte_size with
      | none => some (Sum.inl (some "Couldn't read a composite type from the target: "))
      | some bytes =>
        let var1 := { var with m_value_bytes := some (bytes ++ pvar_data.drop var.m_byte_size) }
        let flags1 : Flags :=
          if stack_frame_top ≠ LLDB_INVALID_ADDRESS ∧ stack_frame_bottom ≠ LLDB_INVALID_ADDRESS ∧
              mem1 ≥ stack_frame_bottom ∧ mem1 ≤ stack_frame_top then
            { var1.m_flags with
              EVIsLLDBAllocated := true, EVNeedsAllocation := true, EVIsProgramReference := false }
          else var1.m_flags
        let var2 := { var1 with m_flags := { flags1 with EVNeedsFreezeDry := false } }
        some (Sum.inr (w.setVar v var2, mem1))
  else some (Sum.inr (w, mem))

/-- The release step of the dematerialize branch of `DoMaterializeOnePersistentVariable`
(the block guarded by `EVNeedsAllocation` without `EVKeepInTarget`): the variable is kept in
the target or the memory at `mem` is deallocated.  After the deallocation the source tests
`err`, the error of the caller, not the error of the deallocation. -/
def dematerializeRelease (w : World) (v : Nat) (mem : Nat) (err : Error) : Bool × World × Error :=
  let var := w.heap v
  if var.m_flags.EVNeedsAllocation && !var.m_flags.EVKeepInTarget then
    if w.m_keep_result_in_memory then
      (true, w.setVar v { var with m_flags := { var.m_flags with EVKeepInTarget := true } }, err)
    else
      let freed := w.process.DeallocateMemory mem
      let w1 := { w with process := freed.2 }
      if !err.Success then
        (false, w1, some ("Couldn't deallocate memory for " ++ var.m_name ++ ": "
          ++ Error.AsCString freed.1))
      else (true, w1, err)
  else (true, w, err)

/-- The allocation block of the materialize branch of `DoMaterializeOnePersistentVariable`
(guarded by `EVNeedsAllocation`): a spare memory area is allocated, recorded as the live
object and filled with the host-side bytes.  `Sum.inl` is an early `return false`. -/
def materializeAllocate (w : World) (v : Nat) (pvar_data : List Nat) :
    Sum (World × Error) World :=
  let var := w.heap v
  let pvar_byte_size := var.m_byte_size
  if var.m_flags.EVNeedsAllocation then
    let allocated := w.process.AllocateMemory pvar_byte_size
    let mem := allocated.1
    let w1 := { w with process := allocated.2.2 }
    if mem = LLDB_INVALID_ADDRESS then
      Sum.inl (w1, some ("Couldn't allocate a memory area to store " ++ var.m_name ++ ": "
        ++ Error.AsCString allocated.2.1))
    else
      let flags1 : Flags :=
        if var.m_flags.EVKeepInTarget then { var.m_flags with EVNeedsAllocation := false }
        else var.m_flags
      let w2 := w1.setVar v { var with
        m_live_sp := some { address := mem, isLoadAddress := true }, m_flags := flags1 }
      if (pvar_data.take pvar_byte_size).length ≠ pvar_byte_size then
        Sum.inl (w2, some "Couldn't write a composite type to the target: ")
      else
        let written := w2.process.WriteMemory mem (pvar_data.take pvar_byte_size)
        let w3 := { w2 with process := written.2 }
        if !written.1 then Sum.inl (w3, some "Couldn't write a composite type to the target: ")
        else Sum.inr w3
  else Sum.inr w

/-- The materialize branch of `DoMaterializeOnePersistentVariable`. -/
def materializePersistent (w : World) (v : Nat) (addr : Nat) (pvar_data : List Nat)
    (err : Error) : Option (Bool × World × Error) :=
  match materializeAllocate w v pvar_data with
  | Sum.inl (w1, e) => some (false, w1, e)
  | Sum.inr w1 =>
    let var1 := w1.heap v
    if (var1.m_flags.EVIsProgramReference && var1.m_live_sp.isSome)
        || var1.m_flags.EVIsLLDBAllocated then
      match var1.m_live_sp with
      | none => none
      | some live =>
        let slot := w1.process.WriteScalarToMemory addr live.address w1.process.addressByteSize
        let w2 := { w1 with process := slot.2 }
        if !slot.1 then some (false, w2, some ("Couldn't write " ++ var1.m_name ++ " to the target: "))
        else some (true, w2, err)
    else if !var1.m_flags.EVIsProgramReference then
      some (false, w1,
        some "Persistent variables without separate allocations are not currently supported.")
    else some (true, w1, err)

/-- The function `ClangExpressionDeclMap::DoMaterializeOnePersistentVariable`.  A null
`var_sp` makes the source `return LLDB_INVALID_ADDRESS`, which as a `bool` is `true`. -/
def DoMaterializeOnePersistentVariable (dematerialize : Bool) (w : World) (var_sp : Option Nat)
    (addr : Nat) (stack_frame_top stack_frame_bottom : Nat) (err : Error) :
    Option (Bool × World × Error) :=
  match var_sp with
  | none => some (decide (LLDB_INVALID_ADDRESS ≠ 0), w, some "Invalid persistent variable")
  | some v =>
    match (w.heap v).m_value_bytes with
    | none => some (false, w, err)
    | some pvar_data =>
      if dematerialize then
        match dematerializeLocate w v addr with
        | Sum.inl e => some (false, w, e)
        | Sum.inr (w1, mem) =>
          match dematerializeFreezeDry w1 v mem pvar_data stack_frame_top stack_frame_bottom with
          | none => none
          | some (Sum.inl e) => some (false, w1, e)
          | some (Sum.inr (w2, mem1)) => some (dematerializeRelease w2 v mem1 err)
      else materializePersistent w v addr pvar_data err

/-! ## Materializing the struct -/

/-- The member loop of `DoMaterialize`.  `location` is `m_materialized_location`,
`result_name` is `m_result_name`, `result_sp_ptr` tells whether the caller passed a result
pointer, and `result_sp` is what that pointer holds. -/
def materializeMembers (dematerialize : Bool) (exe_ctx : ExecutionContext) (location : Nat)
    (result_name : String) (stack_frame_top stack_frame_bottom : Nat) (result_sp_ptr : Bool) :
    List (Option Nat) → World → Error → Option Nat → Option (Bool × World × Error × Option Nat)
  | [], w, err, result_sp => some (true, w, err, result_sp)
  | none :: _, _, _, _ => none
  | some member_sp :: rest, w, err, result_sp =>
    let member := w.heap member_sp
    if ContainsVariable w.m_found_entities member_sp then
      match member.m_register_info with
      | some reg_info =>
        if !exe_ctx.hasRegisterContext then some (false, w, err, result_sp)
        else
          match member.m_jit_vars with
          | none => none
          | some j =>
            match DoMaterializeOneRegister dematerialize w reg_info (location + j.m_offset) err with
            | (false, w1, err1) => some (false, w1, err1, result_sp)
            | (true, w1, err1) =>
              materializeMembers dematerialize exe_ctx location result_name stack_frame_top
                stack_frame_bottom result_sp_ptr rest w1 err1 result_sp
      | none =>
        match member.m_jit_vars with
        | none => some (false, w, err, result_sp)
        | some j =>
          match DoMaterializeOneVariable dematerialize exe_ctx w member_sp
              (location + j.m_offset) err with
          | none => none
          | some (false, w1, err1) => some (false, w1, err1, result_sp)
          | some (true, w1, err1) =>
            materializeMembers dematerialize exe_ctx location result_name stack_frame_top
              stack_frame_bottom result_sp_ptr rest w1 err1 result_sp
    else if member.m_name.data.head? = some '$' && ContainsVariable w.persistent_vars member_sp then
      let result_sp1 :=
        if member.m_name = result_name ∧ result_sp_ptr then some member_sp else result_sp
      match member.m_jit_vars with
      | none => none
      | some j =>
        match DoMaterializeOnePersistentVariable dematerialize w (some member_sp)
            (location + j.m_offset) stack_frame_top stack_frame_bottom err with
        | none => none
        | some (false, w1, err1) => some (false, w1, err1, result_sp1)
        | some (true, w1, err1) =>
          materializeMembers dematerialize exe_ctx location result_name stack_frame_top
            stack_frame_bottom result_sp_ptr rest w1 err1 result_sp1
    else some (false, w, some ("Unexpected variable " ++ member.m_name), result_sp)

/-- The allocation block of `DoMaterialize` (guarded by `!dematerialize`): a transfer
buffer still held is deallocated, and `m_struct_alignment + m_struct_size` bytes are
allocated.  `Sum.inl` is the early `return false` of a failed allocation. -/
def allocateStruct (w : World) (sv : StructVars) (mv : MaterialVars) :
    Sum (World × Error) (World × MaterialVars × Error) :=
  let p1 :=
    if mv.m_materialized_location ≠ 0 then
      (w.process.DeallocateMemory mv.m_materialized_location).2
    else w.process
  let mv1 : MaterialVars :=
    if mv.m_materialized_location ≠ 0 then { mv with m_materialized_location := 0 } else mv
  let allocated := p1.AllocateMemory (sv.m_struct_alignment + sv.m_struct_size)
  let mem := allocated.1
  if mem = LLDB_INVALID_ADDRESS then
    Sum.inl ({ w with process := allocated.2.2, m_material_vars := some mv1 }, allocated.2.1)
  else
    Sum.inr ({ w with process := allocated.2.2 }, { mv1 with m_allocated_area := mem },
      allocated.2.1)

/-- The address of the struct inside the allocated area: the area rounded up to the
alignment of the struct, as `DoMaterialize` computes `m_materialized_location`. -/
def alignLocation (allocated_area alignment : Nat) : Nat :=
  if allocated_area % alignment ≠ 0 then
    allocated_area + (alignment - allocated_area % alignment)
  else allocated_area

/-- The function `ClangExpressionDeclMap::DoMaterialize`.  `result_sp_ptr` is `none` for a
null result pointer and `some r` for a pointer to a shared pointer holding `r`; the last
component of the result is what that shared pointer holds afterwards.  The two early exits
of the source `return LLDB_INVALID_ADDRESS`, which as a `bool` is `true`. -/
def DoMaterialize (dematerialize : Bool) (exe_ctx : ExecutionContext) (w : World)
    (stack_frame_top stack_frame_bottom : Nat) (result_sp_ptr : Option (Option Nat))
    (err : Error) : Option (Bool × World × Error × Option Nat) :=
  let result_sp : Option Nat := none
  match w.m_struct_vars with
  | none => none
  | some sv =>
    if !sv.m_struct_laid_out then
      some (decide (LLDB_INVALID_ADDRESS ≠ 0), w, some "Structure hasn't been laid out yet",
        result_sp)
    else if !exe_ctx.frame then
      some (decide (LLDB_INVALID_ADDRESS ≠ 0), w, some "Received null execution frame", result_sp)
    else
      match w.m_material_vars with
      | none => none
      | some mv =>
        if sv.m_struct_size = 0 then
          some (true, { w with m_material_vars := some { mv with m_allocated_area := 0 } }, err,
            result_sp)
        else
          let allocated : Sum (World × Error) (World × MaterialVars × Error) :=
            if !dematerialize then allocateStruct w sv mv else Sum.inr (w, mv, err)
          match allocated with
          | Sum.inl (w1, err1) => some (false, w1, err1, result_sp)
          | Sum.inr (w1, mv1, err1) =>
            if sv.m_struct_alignment = 0 then none
            else
              let location := alignLocation mv1.m_allocated_area sv.m_struct_alignment
              let w2 := { w1 with
                m_material_vars := some { mv1 with m_materialized_location := location } }
              materializeMembers dematerialize exe_ctx location sv.m_result_name stack_frame_top
                stack_frame_bottom result_sp_ptr.isSome w2.m_struct_members w2 err1 result_sp

/-- The function `ClangExpressionDeclMap::Materialize`: `EnableMaterialVars ()`, then
`DoMaterialize` with no stack frame bounds and no result pointer.  The last component is
`struct_address`, written only when the result is `true`. -/
def Materialize (exe_ctx : ExecutionContext) (w : World) (struct_address : Nat) (err : Error) :
    Option (Bool × World × Error × Nat) :=
  let w0 :=
    match w.m_material_vars with
    | some _ => w
    | none => { w with m_material_vars := some {} }
  match DoMaterialize false exe_ctx w0 LLDB_INVALID_ADDRESS LLDB_INVALID_ADDRESS none err with
  | none => none
  | some (result, w1, err1, _) =>
    if result then
      match w1.m_material_vars with
      | none => none
      | some mv => some (true, w1, err1, mv.m_materialized_location)
    else some (false, w1, err1, struct_address)

/-- The function `ClangExpressionDeclMap::Dematerialize`: it returns the result of
`DoMaterialize`; the call of `DidDematerialize` after the `return` is never reached.  The
last component is `result_sp`. -/
def Dematerialize (exe_ctx : ExecutionContext) (w : World) (result_sp : Option Nat)
    (stack_frame_top stack_frame_bottom : Nat) (err : Error) :
    Option (Bool × World × Error × Option Nat) :=
  DoMaterialize true exe_ctx w stack_frame_top stack_frame_bottom (some result_sp) err

/-- The function `ClangExpressionDeclMap::DidDematerialize`. -/
def DidDematerialize (w : World) : World :=
  match w.m_material_vars with
  | none => w
  | some mv =>
    let p1 :=
      if mv.m_materialized_location ≠ 0 then
        (w.process.DeallocateMemory mv.m_materialized_location).2
      else w.process
    { w with process := p1, m_material_vars := none }

/-- The destructor `ClangExpressionDeclMap::~ClangExpressionDeclMap`: `DidDematerialize ()`
followed by `DisableStructVars ()`. -/
def destroy (w : World) : World :=
  { DidDematerialize w with m_struct_vars := none }


/-! ## Name lookup -/

/-- A declaration handed to the parser through a `NameSearchContext`: the result of
`AddVarDecl (type)`, `AddFunDecl (type)`, `AddGenericFunDecl ()`, `AddTypeDecl (type)` (with
a mark telling whether the method `$__lldb_expr` was added to the type first) or
`AddNamedDecl (decl)`. -/
inductive Decl where
  | var (type : Nat)
  | function (type : Nat)
  | genericFunction
  | type (type : Nat) (method : Bool)
  | named (decl : Nat)
  deriving DecidableEq, Repr

/-- The kinds of declaration context `GetDecls` tells apart. -/
inductive DeclContextKind where
  | translationUnit
  | namespaceDecl
  | other
  deriving DecidableEq, Repr

/-- Modelled from the spec: `NameSearchContext`, declared in `ClangASTSource.h`, which is
not among the sources: the AST context of the parser, the declaration context and the name
being looked up, and the declarations added so far.  An added declaration is identified by
its position in `m_decls`, counted from 1. -/
structure NameSearchContext where
  ast : Nat := 0
  m_decl_context : DeclContextKind := DeclContextKind.translationUnit
  m_decl_name : String := ""
  m_decls : List Decl := []
  deriving DecidableEq, Repr

/-- Adds a declaration to the context and returns its handle. -/
def NameSearchContext.add (c : NameSearchContext) (d : Decl) : Nat × NameSearchContext :=
  (c.m_decls.length + 1, { c with m_decls := c.m_decls ++ [d] })

/-- What the AST importer answers for the declaration of a namespace context
(`ResolveDeclOrigin`): whether the original declaration is a tag declaration, whether its
AST context has an external source, whether it is a declaration context, and its
declarations (after completion), each with its name when it is a named declaration. -/
structure DeclOrigin where
  isTagDecl : Bool := false
  hasExternalSource : Bool := true
  isDeclContext : Bool := true
  decls : List (Option String × Nat) := []
  deriving DecidableEq, Repr

/-- A `lldb_private::Function` as `AddOneFunction` sees it. -/
structure FunctionInfo where
  hasType : Bool := true
  hasClangType : Bool := true
  type : TaggedASTType := {}
  callableLoadAddress : Nat := 0
  deriving DecidableEq, Repr

/-- An entry of a `SymbolContextList`: its function and its symbol, when it has them. -/
structure SymbolContext where
  function : Option FunctionInfo := none
  symbol : Option Symbol := none
  deriving DecidableEq, Repr

/-- The parser record of the decl map (`ClangExpressionDeclMap::ParserVars`) together with
the answers of the collaborators `GetDecls` reaches through it: the symbol context of the
frame (functions, namespace and type of a name), the AST importer (origin of the context
declaration, the copy of a declaration as a named declaration), the variable list of the
frame, the register context, and the type system (`0` is a `NULL` type). -/
structure DeclMapParserVars where
  m_ignore_lookups : Bool := false
  FindFunctionsByName : String → List SymbolContext := fun _ => []
  FindNamespace : String → Option Nat := fun _ => none
  FindTypeByName : String → Option TaggedASTType := fun _ => none
  ResolveDeclOrigin : Option DeclOrigin := none
  CopyDecl : Nat → Option Nat := fun d => some d
  hasVariableList : Bool := true
  FindVariable : String → Option Variable := fun _ => none
  GetRegisterInfoByName : String → Option RegisterInfo := fun _ => none
  scratch_ast : Nat := 0
  CreateLValueReferenceType : TaggedASTType → Nat := fun t => t.type
  GetVoidPtrType : Nat → Bool → Nat := fun _ _ => 0
  IsPointerType : TaggedASTType → Option Nat := fun _ => none
  removeLocalConst : Nat → Nat := fun t => t
  IsAggregateType : Nat → Bool := fun _ => false
  GetBuiltinTypeForEncodingAndBitSize : Nat → RegisterInfo → Nat := fun _ _ => 0

/-- The state `GetDecls` works on: the decl map with its surroundings, the search context,
and the value assigned to `m_struct_vars->m_object_pointer_type`, if any. -/
structure LookupState where
  world : World
  context : NameSearchContext
  object_pointer_type : Option TaggedASTType := none

/-- An identifier no variable of the three lists has. -/
def World.fresh (w : World) : Nat :=
  (w.m_found_entities ++ w.persistent_vars ++ w.m_struct_members.filterMap id).foldr max 0 + 1

/-- Modelled from the spec: `ClangExpressionVariableList::CreateVariable` on the found
entities, declared in `ClangExpressionVariable.h`: a new variable with the given name and
user type is appended to the list. -/
def CreateVariable (w : World) (name : String) (user_type : TaggedASTType) : Nat × World :=
  (w.fresh,
    { w with
      heap := Function.update w.heap w.fresh { m_name := name, m_user_type := user_type },
      m_found_entities := w.m_found_entities ++ [w.fresh] })

/-- Modelled from the spec: `ClangExpressionVariableList::GetVariable (name)`, declared in
`ClangExpressionVariable.h`; the first variable of the list with that name. -/
def GetVariableByName (heap : Nat → ClangExpressionVariable) (name : String)
    (vars : List Nat) : Option Nat :=
  vars.find? (fun v => decide ((heap v).m_name = name))

/-- The function `ClangExpressionDeclMap::GuardedCopyType`: the type copied into the
destination AST context (`m_ignore_lookups` is set for the duration of the copy). -/
def GuardedCopyType (exe_ctx : ExecutionContext) (dest_context : Nat) (type : TaggedASTType) :
    Nat :=
  exe_ctx.CopyType dest_context type

/-- The function `ClangExpressionDeclMap::AddOneVariable (context, var)` for a variable of
the frame. -/
def AddOneVariable (exe_ctx : ExecutionContext) (pv : DeclMapParserVars) (s : LookupState)
    (var : Variable) : LookupState :=
  match GetVariableValue exe_ctx var (some s.context.ast) with
  | none => s
  | some (var_location, ut, pt) =>
    let parser_type := pt.getD {}
    let added := s.context.add (Decl.var (pv.CreateLValueReferenceType parser_type))
    let created := CreateVariable s.world s.context.m_decl_name ut
    let entity := created.2.heap created.1
    { s with
      context := added.2,
      world := created.2.setVar created.1 { entity with
        m_parser_vars := some { m_parser_type := parser_type, m_named_decl := added.1,
                                m_llvm_value := 0, m_lldb_value := some var_location } } }

/-- The function `ClangExpressionDeclMap::AddOneVariable (context, pvar_sp)` for a
persistent variable. -/
def AddOnePersistentVariable (exe_ctx : ExecutionContext) (pv : DeclMapParserVars)
    (s : LookupState) (pvar_sp : Nat) : LookupState :=
  let pvar := s.world.heap pvar_sp
  let parser_type : TaggedASTType :=
    { ast := s.context.ast, type := GuardedCopyType exe_ctx s.context.ast pvar.m_user_type }
  let added := s.context.add (Decl.var (pv.CreateLValueReferenceType parser_type))
  { s with
    context := added.2,
    world := s.world.setVar pvar_sp { pvar with
      m_parser_vars := some { m_parser_type := parser_type, m_named_decl := added.1,
                              m_llvm_value := 0, m_lldb_value := none } } }

/-- The function `ClangExpressionDeclMap::AddOneGenericVariable`. -/
def AddOneGenericVariable (pv : DeclMapParserVars) (s : LookupState) (symbol : Symbol) :
    LookupState :=
  let user_type : TaggedASTType :=
    { ast := pv.scratch_ast,
      type := pv.CreateLValueReferenceType
        { ast := pv.scratch_ast, type := pv.GetVoidPtrType pv.scratch_ast true } }
  let parser_type : TaggedASTType :=
    { ast := s.context.ast,
      type := pv.CreateLValueReferenceType
        { ast := pv.scratch_ast, type := pv.GetVoidPtrType s.context.ast true } }
  let added := s.context.add (Decl.var parser_type.type)
  let created := CreateVariable s.world s.context.m_decl_name user_type
  let entity := created.2.heap created.1
  let symbol_location : Value :=
    { valueType := ValueType.eValueTypeLoadAddress,
      contextType := ContextType.eContextTypeClangType, scalar := symbol.loadAddress }
  { s with
    context := added.2,
    world := created.2.setVar created.1 { entity with
      m_parser_vars := some { m_parser_type := parser_type, m_named_decl := added.1,
                              m_llvm_value := 0, m_lldb_value := some symbol_location } } }

/-- The function `ClangExpressionDeclMap::AddOneRegister`. -/
def AddOneRegister (pv : DeclMapParserVars) (s : LookupState) (reg_info : RegisterInfo) :
    LookupState :=
  let ast_type := pv.GetBuiltinTypeForEncodingAndBitSize s.context.ast reg_info
  if ast_type = 0 then s
  else
    let parser_type : TaggedASTType := { ast := s.context.ast, type := ast_type }
    let added := s.context.add (Decl.var parser_type.type)
    let created := CreateVariable s.world s.context.m_decl_name {}
    let entity := created.2.heap created.1
    { s with
      context := added.2,
      world := created.2.setVar created.1 { entity with
        m_register_info := some reg_info,
        m_parser_vars := some { m_parser_type := parser_type, m_named_decl := added.1,
                                m_llvm_value := 0, m_lldb_value := none } } }

/-- The function `ClangExpressionDeclMap::AddOneFunction`. -/
def AddOneFunction (exe_ctx : ExecutionContext) (s : LookupState) (fn : Option FunctionInfo)
    (symbol : Option Symbol) : LookupState :=
  let declared : Option (Decl × TaggedASTType × Nat) :=
    match fn, symbol with
    | some f, _ =>
      if !f.hasType then none
      else if !f.hasClangType then none
      else some (Decl.function (GuardedCopyType exe_ctx s.context.ast f.type), f.type,
        f.callableLoadAddress)
    | none, some sym => some (Decl.genericFunction, {}, sym.callableLoadAddress)
    | none, none => none
  match declared with
  | none => s
  | some (decl, fun_type, load_addr) =>
    let added := s.context.add decl
    let created := CreateVariable s.world s.context.m_decl_name fun_type
    let entity := created.2.heap created.1
    let fun_location : Value :=
      { valueType := ValueType.eValueTypeLoadAddress, scalar := load_addr }
    { s with
      context := added.2,
      world := created.2.setVar created.1 { entity with
        m_parser_vars := some { m_named_decl := added.1, m_llvm_value := 0,
                                m_lldb_value := some fun_location } } }

/-- The function `ClangExpressionDeclMap::AddOneType`. -/
def AddOneType (exe_ctx : ExecutionContext) (pv : DeclMapParserVars) (s : LookupState)
    (ut : TaggedASTType) (add_method : Bool) : LookupState :=
  let copied_type := GuardedCopyType exe_ctx s.context.ast ut
  let added := s.context.add (Decl.type copied_type (add_method && pv.IsAggregateType copied_type))
  { s with context := added.2 }

/-- The loop of `GetDecls` over the declarations of the original context of a namespace:
every named declaration with the name looked up is copied and, when the copy is a named
declaration, added to the context. -/
def importNamedDecls (pv : DeclMapParserVars) (name : String) :
    List (Option String × Nat) → NameSearchContext → NameSearchContext
  | [], context => context
  | (some n, d) :: rest, context =>
    if n = name then
      match pv.CopyDecl d with
      | none => importNamedDecls pv name rest context
      | some copied => importNamedDecls pv name rest (context.add (Decl.named copied)).2
    else importNamedDecls pv name rest context
  | (none, _) :: rest, context => importNamedDecls pv name rest context

/-- The loop of `GetDecls` over the symbol contexts found by `FindFunctionsByName`: the
first function is added, the last external and the last non-external symbol are kept. -/
def addFunctions (exe_ctx : ExecutionContext) :
    List SymbolContext → LookupState → Bool → Option Symbol → Option Symbol →
      LookupState × Bool × Option Symbol × Option Symbol
  | [], s, found_specific, generic_symbol, non_extern_symbol =>
    (s, found_specific, generic_symbol, non_extern_symbol)
  | sym_ctx :: rest, s, found_specific, generic_symbol, non_extern_symbol =>
    match sym_ctx.function, sym_ctx.symbol with
    | some f, _ =>
      addFunctions exe_ctx rest
        (if !found_specific then AddOneFunction exe_ctx s (some f) none else s)
        true generic_symbol non_extern_symbol
    | none, some sym =>
      if sym.isExternal then
        addFunctions exe_ctx rest s found_specific (some sym) non_extern_symbol
      else addFunctions exe_ctx rest s found_specific generic_symbol (some sym)
    | none, none => addFunctions exe_ctx rest s found_specific generic_symbol non_extern_symbol

/-- The lookup of `$__lldb_class` and of `$__lldb_objc_class` in `GetDecls`: the type the
object pointer `this` or `self` of the frame points to is added as a type.  For `this` a
`const` qualifier of the pointee is removed and the method `$__lldb_expr` is added to an
aggregate; for `self` a null pointee adds nothing. -/
def addObjectType (exe_ctx : ExecutionContext) (pv : DeclMapParserVars) (s : LookupState)
    (object_name : String) (is_this : Bool) : LookupState :=
  if !pv.hasVariableList then s
  else
    match pv.FindVariable object_name with
    | none => s
    | some object_var =>
      if !object_var.isInScope || !object_var.locationIsValidForFrame then s
      else if !object_var.hasType then s
      else
        let s1 := { s with object_pointer_type := some object_var.type }
        match pv.IsPointerType object_var.type with
        | none => s1
        | some pointee =>
          if is_this then
            AddOneType exe_ctx pv s1
              { ast := object_var.type.ast, type := pv.removeLocalConst pointee } true
          else if pointee = 0 then s1
          else AddOneType exe_ctx pv s1 { ast := object_var.type.ast, type := pointee } false

/-- The search of `GetDecls` for the functions of a name, taken when the frame has no
variable of that name: the first function found is added, or else the last external symbol,
or else the last non-external symbol; with no function or symbol at all, a data symbol of
that name is added as a variable. -/
def lookupFunctions (exe_ctx : ExecutionContext) (pv : DeclMapParserVars) (s : LookupState)
    (name : String) : LookupState :=
  let sc_list := pv.FindFunctionsByName name
  if sc_list.length ≠ 0 then
    let looped := addFunctions exe_ctx sc_list s false none none
    if !looped.2.1 then
      match looped.2.2.1, looped.2.2.2 with
      | some generic_symbol, _ => AddOneFunction exe_ctx looped.1 none (some generic_symbol)
      | none, some non_extern_symbol =>
        AddOneFunction exe_ctx looped.1 none (some non_extern_symbol)
      | none, none => looped.1
    else looped.1
  else
    match FindGlobalDataSymbol exe_ctx name with
    | some data_symbol => AddOneGenericVariable pv s data_symbol
    | none => s

/-- The search of `GetDecls` for a name without the `$` prefix: a variable of the frame, or
else the functions of that name.  The namespace of that name, which the source copies next,
is not added to the context and leaves no trace in this state. -/
def lookupProgramName (exe_ctx : ExecutionContext) (pv : DeclMapParserVars) (s : LookupState)
    (name : String) : LookupState :=
  match exe_ctx.GetValueForVariableExpressionPath name with
  | (err, some var) =>
    if err.Success then AddOneVariable exe_ctx pv s var
    else lookupFunctions exe_ctx pv s name
  | (_, none) => lookupFunctions exe_ctx pv s name

/-- The type lookup at the end of `GetDecls`. -/
def lookupType (exe_ctx : ExecutionContext) (pv : DeclMapParserVars) (s : LookupState)
    (name : String) : LookupState :=
  match pv.FindTypeByName name with
  | some user_type => AddOneType exe_ctx pv s user_type false
  | none => s

/-- The part of `GetDecls` after the `do … while (0)` block. -/
def lookupName (exe_ctx : ExecutionContext) (pv : DeclMapParserVars) (s : LookupState)
    (name : Option String) : LookupState :=
  match name with
  | none => s
  | some n =>
    if n.data.head? ≠ some '$' then
      lookupType exe_ctx pv (lookupProgramName exe_ctx pv s n) n
    else if n = "$__lldb_class" then addObjectType exe_ctx pv s "this" true
    else if n = "$__lldb_objc_class" then addObjectType exe_ctx pv s "self" false
    else
      match GetVariableByName s.world.heap n s.world.persistent_vars with
      | some pvar_sp => AddOnePersistentVariable exe_ctx pv s pvar_sp
      | none =>
        let s1 :=
          if exe_ctx.hasRegisterContext then
            match pv.GetRegisterInfoByName (String.mk (n.data.drop 1)) with
            | some reg_info => AddOneRegister pv s reg_info
            | none => s
          else s
        lookupType exe_ctx pv s1 n

/-- The function `ClangExpressionDeclMap::GetDecls`.  `name` is `none` for a name without a
C string.  The result is `none` when an assertion of the source fails or a null name is
compared with the name of a declaration. -/
def GetDecls (exe_ctx : ExecutionContext) (pv : DeclMapParserVars) (w : World)
    (context : NameSearchContext) (name : Option String) : Option LookupState :=
  let s : LookupState := { world := w, context := context }
  if w.m_struct_vars.isNone || !w.m_parser_vars then none
  else if !exe_ctx.frame then some s
  else if pv.m_ignore_lookups then some s
  else
    match context.m_decl_context with
    | DeclContextKind.translationUnit => some (lookupName exe_ctx pv s name)
    | DeclContextKind.other => some s
    | DeclContextKind.namespaceDecl =>
      match pv.ResolveDeclOrigin with
      | none => some (lookupName exe_ctx pv s name)
      | some origin =>
        if origin.isTagDecl && !origin.hasExternalSource then
          some (lookupName exe_ctx pv s name)
        else if !origin.isDeclContext then some (lookupName exe_ctx pv s name)
        else
          match name with
          | some n => some { s with context := importNamedDecls pv n origin.decls context }
          | none =>
            if origin.decls.any (fun d => d.1.isSome) then none else some s

/-! ## Persistent variables made by the parser -/

/-- Modelled from the spec: the byte size of a variable of a type (`GetByteSize ()` of a new
`ClangExpressionVariable`, declared in `ClangExpressionVariable.h`, which is not among the
sources): the bit width of the type, in whole bytes. -/
def typeByteSize (exe_ctx : ExecutionContext) (type : TaggedASTType) : Nat :=
  (exe_ctx.GetClangTypeBitWidth type + 7) / 8

/-- Modelled from the spec: `ClangPersistentVariables::CreatePersistentVariable (scope, name,
type, byte order, address size)`, declared in `ClangPersistentVariables.h`, which is not
among the sources.  A name is unique within the table: the variable of that name is
returned when there is one, and otherwise a new variable with that name and user type,
without flags, is appended to the persistent variables; its host-side buffer has the byte
size of the type (a variable of size 0 has no buffer). -/
def CreatePersistentVariable (exe_ctx : ExecutionContext) (w : World) (name : String)
    (user_type : TaggedASTType) : Option Nat × World :=
  match GetVariableByName w.heap name w.persistent_vars with
  | some var_sp => (some var_sp, w)
  | none =>
    let byte_size := typeByteSize exe_ctx user_type
    (some w.fresh,
      { w with
        heap := Function.update w.heap w.fresh
          { m_name := name, m_user_type := user_type, m_byte_size := byte_size,
            m_value_bytes := if byte_size = 0 then none else some (List.replicate byte_size 0) },
        persistent_vars := w.persistent_vars ++ [w.fresh] })

/-- The byte loop of `BuildIntegerVariable`, with `count` iterations left from `byte_idx`
on: byte `byte_idx` of `value64` is stored at the position its significance has in the byte
order.  The outer `none` is a store outside the buffer; the inner `none` is the
`return` of a null variable for a byte order that is neither big nor little. -/
def storeIntegerBytes (byte_order : ByteOrder) (value64 num_data_bytes : Nat) :
    Nat → Nat → List Nat → Option (Option (List Nat))
  | 0, _, pvar_data => some (some pvar_data)
  | count + 1, byte_idx, pvar_data =>
    let shift := byte_idx * 8
    let mask := 0xff <<< shift
    let cur_byte := ((value64 &&& mask) >>> shift) % 256
    match byte_order with
    | ByteOrder.eByteOrderBig =>
      if num_data_bytes - (1 + byte_idx) < pvar_data.length then
        storeIntegerBytes byte_order value64 num_data_bytes count (byte_idx + 1)
          (pvar_data.set (num_data_bytes - (1 + byte_idx)) cur_byte)
      else none
    | ByteOrder.eByteOrderLittle =>
      if byte_idx < pvar_data.length then
        storeIntegerBytes byte_order value64 num_data_bytes count (byte_idx + 1)
          (pvar_data.set byte_idx cur_byte)
      else none
    | _ => some none

/-- The function `ClangExpressionDeclMap::BuildIntegerVariable`.  `value` is the `APInt` as
an unsigned number; `getLimitedValue ()` caps it at the largest 64-bit value.  The result
is the variable returned (`none` for a null shared pointer) and the world afterwards. -/
def BuildIntegerVariable (exe_ctx : ExecutionContext) (pv : DeclMapParserVars) (w : World)
    (name : String) (type : TaggedASTType) (value : Nat) : Option (Option Nat × World) :=
  if !w.m_parser_vars then none
  else if !exe_ctx.scratchASTContext then none
  else
    let user_type : TaggedASTType :=
      { ast := pv.scratch_ast, type := exe_ctx.CopyType pv.scratch_ast type }
    let created := CreatePersistentVariable exe_ctx w name user_type
    let w1 := created.2
    match created.1 with
    | none => some (none, w1)
    | some _ =>
      match GetVariableByName w1.heap name w1.persistent_vars with
      | none => some (none, w1)
      | some pvar_sp =>
        match (w1.heap pvar_sp).m_value_bytes with
        | none => some (none, w1)
        | some pvar_data =>
          let value64 := min value (2 ^ 64 - 1)
          let byte_order := w1.process.byteOrder
          let num_val_bytes := 8
          let num_data_bytes := (w1.heap pvar_sp).m_byte_size
          let num_bytes := if num_val_bytes > num_data_bytes then num_data_bytes else num_val_bytes
          match storeIntegerBytes byte_order value64 num_data_bytes num_bytes 0 pvar_data with
          | none => none
          | some none => some (none, w1)
          | some (some data) =>
            let pvar := w1.heap pvar_sp
            some (some pvar_sp, w1.setVar pvar_sp { pvar with
              m_value_bytes := some data,
              m_flags := { pvar.m_flags with
                EVIsFreezeDried := true, EVIsLLDBAllocated := true, EVNeedsAllocation := true } })

/-- The function `ClangExpressionDeclMap::AddPersistentVariable`. -/
def AddPersistentVariable (exe_ctx : ExecutionContext) (pv : DeclMapParserVars) (w : World)
    (decl : Nat) (name : String) (parser_type : TaggedASTType) (is_result is_lvalue : Bool) :
    Option (Bool × World) :=
  if !w.m_parser_vars then none
  else if !exe_ctx.scratchASTContext then none
  else
    let user_type : TaggedASTType :=
      { ast := pv.scratch_ast, type := exe_ctx.CopyType pv.scratch_ast parser_type }
    let created := CreatePersistentVariable exe_ctx w name user_type
    let w1 := created.2
    match created.1 with
    | none => some (false, w1)
    | some _ =>
      match GetVariableByName w1.heap name w1.persistent_vars with
      | none => some (false, w1)
      | some var_sp =>
        let var := w1.heap var_sp
        let flags1 : Flags :=
          if is_result then { var.m_flags with EVNeedsFreezeDry := true }
          else { var.m_flags with EVKeepInTarget := true }
        let flags2 : Flags :=
          if is_lvalue then { flags1 with EVIsProgramReference := true }
          else { flags1 with EVIsLLDBAllocated := true, EVNeedsAllocation := true }
        let parser_vars : ParserVars :=
          match var.m_parser_vars with
          | some p => p
          | none => {}
        some (true, w1.setVar var_sp { var with
          m_flags := flags2,
          m_parser_vars :=
            some { parser_vars with m_named_decl := decl, m_parser_type := parser_type } })

/-! ## Definitions used in the statements -/

/-- Offset plus size of a struct member, `0` for an entry without JIT data. -/
def memberEnd (w : World) (m : Option Nat) : Nat :=
  match m with
  | some id =>
    match (w.heap id).m_jit_vars with
    | some j => j.m_offset + j.m_size
    | none => 0
  | none => 0

/-- The end of the member before position `i` of a member list laid out from `start`. -/
def endBefore (w : World) (ms : List (Option Nat)) (start : Nat) : Nat → Nat
  | 0 => start
  | i + 1 =>
    match ms.get? i with
    | some m => memberEnd w m
    | none => 0

/-- The end of the struct member before member `i`: `0` for the first member. -/
def previousEnd (w : World) (i : Nat) : Nat :=
  endBefore w w.m_struct_members 0 i

/-- The alignment plus the size of a struct member, `0` for an entry without JIT data. -/
def memberExtent (w : World) (m : Option Nat) : Nat :=
  match m with
  | some id =>
    match (w.heap id).m_jit_vars with
    | some j => j.m_alignment + j.m_size
    | none => 0
  | none => 0

/-- The sum of the alignments and sizes of the members: a bound for every number the layout
of these members computes from offset 0. -/
def layoutExtent (w : World) (ms : List (Option Nat)) : Nat :=
  (ms.map (memberExtent w)).sum

/-- Every member of the list has the least offset that is a multiple of its alignment and
not below the end of the member before it, the first one starting from `prev`. -/
def LaidOutFrom (w : World) : Nat → List (Option Nat) → Prop
  | _, [] => True
  | prev, m :: rest =>
    (∃ id j, m = some id ∧ (w.heap id).m_jit_vars = some j ∧
      IsLeast {n | prev ≤ n ∧ j.m_alignment ∣ n} j.m_offset) ∧
    LaidOutFrom w (memberEnd w m) rest

/-- Alignment and size of a variable, the data `AddValueToStruct` stores. -/
def jitShape (v : ClangExpressionVariable) : Option (Nat × Nat) :=
  v.m_jit_vars.map (fun j => (j.m_alignment, j.m_size))

/-- The world `DoStructLayout` leaves behind, the world itself when the call is undefined. -/
def afterLayout (w : World) : World :=
  match DoStructLayout w with
  | some (_, w') => w'
  | none => w

/-- Two found entities, of size and alignment 4 and of size and alignment 8. -/
def twoMemberHeap : Nat → ClangExpressionVariable
  | 0 => { m_name := "a", m_parser_vars := some { m_named_decl := 1 },
           m_jit_vars := some { m_alignment := 4, m_size := 4 } }
  | 1 => { m_name := "b", m_parser_vars := some { m_named_decl := 2 },
           m_jit_vars := some { m_alignment := 8, m_size := 8 } }
  | _ => {}

/-- A decl map whose struct holds the two variables of `twoMemberHeap`, in that order. -/
def twoMembers : World :=
  { World.create false with
    heap := twoMemberHeap, m_found_entities := [0, 1], m_struct_members := [some 0, some 1] }

/-- The part of a variable that materialization never changes: everything but the flags,
the live object and the host-side bytes. -/
def staticPart (v : ClangExpressionVariable) : ClangExpressionVariable :=
  { v with m_flags := {}, m_live_sp := none, m_value_bytes := none }

/-- What the materialization of struct members may change: `w'` differs from `w` in the
debuggee and in the flags, live objects and host-side bytes of the variables only, and the
allocator calls of `w` are a prefix of those of `w'`. -/
def Extends (w w' : World) : Prop :=
  w'.persistent_vars = w.persistent_vars ∧ w'.m_found_entities = w.m_found_entities ∧
  w'.m_struct_members = w.m_struct_members ∧
  w'.m_keep_result_in_memory = w.m_keep_result_in_memory ∧
  w'.m_parser_vars = w.m_parser_vars ∧ w'.m_struct_vars = w.m_struct_vars ∧
  w'.m_material_vars = w.m_material_vars ∧
  (∀ id, staticPart (w'.heap id) = staticPart (w.heap id)) ∧
  w.process.trace <+: w'.process.trace

/-- The deallocate call `DoMaterialize` makes for a transfer buffer that is still held when
`Materialize` is called again: none when no buffer is held. -/
def releasedBuffer (w : World) : List Call :=
  match w.m_material_vars with
  | some mv => if mv.m_materialized_location ≠ 0 then [Call.deallocate mv.m_materialized_location] else []
  | none => []

/-- The expression result as a persistent variable of four bytes, to be allocated in the
debuggee and freeze-dried afterwards; its struct slot has size and alignment 8. -/
def resultHeap : Nat → ClangExpressionVariable
  | 0 => { m_name := "$result",
           m_flags := { EVIsLLDBAllocated := true, EVNeedsAllocation := true,
                        EVNeedsFreezeDry := true },
           m_parser_vars := some { m_named_decl := 1 },
           m_jit_vars := some { m_alignment := 8, m_size := 8 },
           m_byte_size := 4, m_value_bytes := some [1, 2, 3, 4] }
  | _ => {}

/-- A debuggee whose first 4096 bytes are accessible and whose allocator will answer 1004
and then 2048. -/
def resultProcess : Process :=
  { memory := fun a => if a < 4096 then some 0 else none,
    allocations := [(1004, none), (2048, none)] }

/-- A decl map whose struct holds the result variable of `resultHeap`, not laid out yet. -/
def resultWorld : World :=
  { World.create false with
    heap := resultHeap, persistent_vars := [0], process := resultProcess,
    m_struct_members := [some 0],
    m_struct_vars := some { m_result_name := "$result" } }

/-- The world `Materialize` leaves behind, the world itself when the call is undefined. -/
def afterMaterialize (exe_ctx : ExecutionContext) (w : World) : World :=
  match Materialize exe_ctx w 0 none with
  | some (_, w', _, _) => w'
  | none => w

/-- The address of the spare allocation of a persistent variable whose struct slot is at
`addr`: the address of its live object, and for a variable that has none yet (a program
reference seen for the first time) the address held in the slot. -/
def spareAddress (w : World) (v : Nat) (addr : Nat) : Nat :=
  match (w.heap v).m_live_sp with
  | some live => live.address
  | none => w.process.ReadPointerFromMemory addr

/-- The test of the freeze-dry step: both stack frame bounds are valid and the address lies
between them, bounds included. -/
def inStackFrame (mem stack_frame_top stack_frame_bottom : Nat) : Prop :=
  stack_frame_top ≠ LLDB_INVALID_ADDRESS ∧ stack_frame_bottom ≠ LLDB_INVALID_ADDRESS ∧
  mem ≥ stack_frame_bottom ∧ mem ≤ stack_frame_top

instance (mem top bottom : Nat) : Decidable (inStackFrame mem top bottom) := by
  unfold inStackFrame; infer_instance

/-- The world of `resultWorld` after layout and `Materialize`, once the expression has
stored the bytes 9, 8, 7, 6 in the spare allocation of the result variable at 2048. -/
def resultComputed : World :=
  let w := afterMaterialize {} (afterLayout resultWorld)
  { w with process := (w.process.WriteMemory 2048 [9, 8, 7, 6]).2 }

/-- The world `DoMaterializeOnePersistentVariable` leaves behind, the world itself when
the call is undefined. -/
def afterPersistentVariable (dematerialize : Bool) (w : World) (v addr top bottom : Nat)
    (err : Error) : World :=
  match DoMaterializeOnePersistentVariable dematerialize w (some v) addr top bottom err with
  | some (_, w', _) => w'
  | none => w

/-- A persistent variable `$0` that refers to program memory at 3000, with the given
flags; its struct slot has size and alignment 8. -/
def referenceHeap (flags : Flags) : Nat → ClangExpressionVariable
  | 0 => { m_name := "$0", m_flags := flags,
           m_parser_vars := some { m_named_decl := 1 },
           m_jit_vars := some { m_alignment := 8, m_size := 8 },
           m_live_sp := some { address := 3000 },
           m_byte_size := 4, m_value_bytes := some [1, 2, 3, 4] }
  | _ => {}

/-- A decl map whose struct holds the variable of `referenceHeap`, laid out and
materialized at 1008. -/
def referenceWorld (flags : Flags) : World :=
  afterMaterialize {} (afterLayout
    { World.create false with
      heap := referenceHeap flags, persistent_vars := [0],
      process := { memory := fun a => if a < 4096 then some 0 else none,
                   allocations := [(1008, none)] },
      m_struct_members := [some 0] })

/-- The world `Dematerialize` leaves behind, the world itself when the call is undefined. -/
def afterDematerialize (exe_ctx : ExecutionContext) (w : World) (top bottom : Nat) : World :=
  match Dematerialize exe_ctx w none top bottom none with
  | some (_, w', _, _) => w'
  | none => w

/-- The test `DoMaterialize` applies before it records a member as the result: the member
is not a found entity, its name starts with `$`, it is one of the persistent variables, and
its name is the result name. -/
def isResultMember (w : World) (result_name : String) (m : Nat) : Bool :=
  !ContainsVariable w.m_found_entities m && decide ((w.heap m).m_name.data.head? = some '$')
    && ContainsVariable w.persistent_vars m && decide ((w.heap m).m_name = result_name)

/-- The last struct member that passes `isResultMember`, `none` when there is none. -/
def lastResultMember (w : World) (result_name : String) (ms : List (Option Nat)) : Option Nat :=
  ((ms.filterMap id).filter (isResultMember w result_name)).getLast?

/-- The decl map of `resultWorld` with a struct slot of size 0 for the result variable, laid
out and materialized: the struct has one member and size 0. -/
def emptySlotWorld : World :=
  afterMaterialize {} (afterLayout
    { resultWorld with
      heap := fun id =>
        { resultHeap id with m_jit_vars := some { m_alignment := 1, m_size := 0 } } })

/-- What the dematerialization of the struct member `u` leaves alone: the contents, the
byte order and the address size of debuggee memory, and every variable but `u`. -/
def DematerializesOnly (u : Nat) (w w' : World) : Prop :=
  w'.process.memory = w.process.memory ∧ w'.process.byteOrder = w.process.byteOrder ∧
  w'.process.addressByteSize = w.process.addressByteSize ∧
  ∀ id, id ≠ u → w'.heap id = w.heap id

/-- The struct member lacks what the layout needs: it is a null entry, or its variable has
no JIT data (the size and alignment that `AddValueToStruct` records). -/
def lacksLayoutData (w : World) (m : Option Nat) : Prop :=
  match m with
  | none => True
  | some v => (w.heap v).m_jit_vars = none

/-- The struct of `twoMembers` with the second member replaced by variable 2, which was
never given a size and an alignment. -/
def missingMetadata : World :=
  { twoMembers with m_struct_members := [some 0, some 2] }

/-- The decl map of `twoMembers` during a parse: its parser record is enabled. -/
def twoMembersParsing : World :=
  { twoMembers with m_parser_vars := true }

/-- The decl map of `twoMembers` during a parse, laid out, after `DidParse`. -/
def twoMembersParsed : World :=
  DidParse (afterLayout twoMembersParsing)

/-- One iteration of the member loop of `DoMaterialize`, for the struct member `member_sp`.
The `Bool` of the result is `false` when the iteration ends the loop with `return false`. -/
def materializeMember (dematerialize : Bool) (exe_ctx : ExecutionContext) (location : Nat)
    (result_name : String) (stack_frame_top stack_frame_bottom : Nat) (result_sp_ptr : Bool)
    (member_sp : Nat) (w : World) (err : Error) (result_sp : Option Nat) :
    Option (Bool × World × Error × Option Nat) :=
  let member := w.heap member_sp
  if ContainsVariable w.m_found_entities member_sp then
    match member.m_register_info with
    | some reg_info =>
      if !exe_ctx.hasRegisterContext then some (false, w, err, result_sp)
      else
        match member.m_jit_vars with
        | none => none
        | some j =>
          let r := DoMaterializeOneRegister dematerialize w reg_info (location + j.m_offset) err
          some (r.1, r.2.1, r.2.2, result_sp)
    | none =>
      match member.m_jit_vars with
      | none => some (false, w, err, result_sp)
      | some j =>
        match DoMaterializeOneVariable dematerialize exe_ctx w member_sp
            (location + j.m_offset) err with
        | none => none
        | some r => some (r.1, r.2.1, r.2.2, result_sp)
  else if member.m_name.data.head? = some '$' && ContainsVariable w.persistent_vars member_sp then
    let result_sp1 :=
      if member.m_name = result_name ∧ result_sp_ptr then some member_sp else result_sp
    match member.m_jit_vars with
    | none => none
    | some j =>
      match DoMaterializeOnePersistentVariable dematerialize w (some member_sp)
          (location + j.m_offset) stack_frame_top stack_frame_bottom err with
      | none => none
      | some r => some (r.1, r.2.1, r.2.2, result_sp1)
  else some (false, w, some ("Unexpected variable " ++ member.m_name), result_sp)

/-- The member is neither a found entity nor a `$`-named persistent variable: the test of
the last branch of the member loop of `DoMaterialize`. -/
def isUnexpectedMember (w : World) (m : Nat) : Bool :=
  !ContainsVariable w.m_found_entities m &&
    !(decide ((w.heap m).m_name.data.head? = some '$') && ContainsVariable w.persistent_vars m)

/-- A variable `x` that is neither a found entity nor a persistent variable; its struct slot
has size and alignment 8. -/
def strayHeap : Nat → ClangExpressionVariable
  | 0 => { m_name := "x", m_parser_vars := some { m_named_decl := 1 },
           m_jit_vars := some { m_alignment := 8, m_size := 8 } }
  | _ => {}

/-- A decl map whose struct holds the variable of `strayHeap`, laid out; the debuggee is
`resultProcess`. -/
def strayWorld : World :=
  afterLayout { World.create false with
    heap := strayHeap, process := resultProcess, m_struct_members := [some 0] }

/-- The world of `resultComputed` after one `Dematerialize` without stack frame bounds. -/
def dematerializedOnce : World :=
  afterDematerialize {} resultComputed LLDB_INVALID_ADDRESS LLDB_INVALID_ADDRESS

/-- The world of `resultComputed` after two calls of `Dematerialize` in a row. -/
def dematerializedTwice : World :=
  afterDematerialize {} dematerializedOnce LLDB_INVALID_ADDRESS LLDB_INVALID_ADDRESS

/-- The addresses deallocated by the calls of a trace, oldest first. -/
def deallocated : List Call → List Nat
  | [] => []
  | Call.deallocate a :: t => a :: deallocated t
  | Call.allocate _ _ :: t => deallocated t

/-- The part of a variable that materialization (as opposed to dematerialization) never
changes: the host-side bytes and the flags `EVNeedsFreezeDry`, `EVKeepInTarget` and
`EVIsProgramReference`. -/
def hostPart (v : ClangExpressionVariable) : Option (List Nat) × Bool × Bool × Bool :=
  (v.m_value_bytes, v.m_flags.EVNeedsFreezeDry, v.m_flags.EVKeepInTarget,
    v.m_flags.EVIsProgramReference)

/-- What the materialization of struct members leaves alone: the registers of the debuggee
and whether they can be written, the deallocations made so far (no deallocate call is made),
and the `hostPart` of every variable. -/
def MaterializesOnly (w w' : World) : Prop :=
  w'.process.registers = w.process.registers ∧
  w'.process.registerWritable = w.process.registerWritable ∧
  deallocated w'.process.trace = deallocated w.process.trace ∧
  ∀ id, hostPart (w'.heap id) = hostPart (w.heap id)

/-- The result variable of `resultHeap` followed by a variable `x` that is in neither table;
both struct slots have size and alignment 8. -/
def resultThenStrayHeap : Nat → ClangExpressionVariable
  | 0 => resultHeap 0
  | 1 => { m_name := "x", m_parser_vars := some { m_named_decl := 2 },
           m_jit_vars := some { m_alignment := 8, m_size := 8 } }
  | _ => {}

/-- A decl map whose struct holds the two variables of `resultThenStrayHeap`, laid out. -/
def resultThenStray : World :=
  afterLayout { resultWorld with
    heap := resultThenStrayHeap, m_struct_members := [some 0, some 1] }

/-- The decl map of `referenceWorld` before `Materialize`: its struct holds the variable of
`referenceHeap` and is laid out. -/
def referenceLaidOut (flags : Flags) : World :=
  afterLayout
    { World.create false with
      heap := referenceHeap flags, persistent_vars := [0],
      process := { memory := fun a => if a < 4096 then some 0 else none,
                   allocations := [(1008, none)] },
      m_struct_members := [some 0] }

/-- The declaration is a function declaration: the result of `AddFunDecl` or of
`AddGenericFunDecl`. -/
def Decl.isFunction : Decl → Bool
  | Decl.function _ => true
  | Decl.genericFunction => true
  | _ => false

/-- A frame in which `x` is a local variable at the load address 3000, of type 7. -/
def localFrame (var : Variable) : ExecutionContext :=
  { GetValueForVariableExpressionPath := fun n => if n = "x" then (none, some var) else (none, none) }

/-- A symbol context in which `x` is also a global function. -/
def functionNamedX : DeclMapParserVars :=
  { FindFunctionsByName := fun n => if n = "x" then [{ function := some { type := ⟨1, 9⟩ } }] else [] }

/-- A local variable with a type and a location in memory. -/
def localX : Variable :=
  { type := ⟨1, 7⟩,
    location := some { valueType := ValueType.eValueTypeLoadAddress, scalar := 3000 } }

/-- The decl map during a parse, with no entities yet. -/
def parsing : World :=
  { World.create false with m_parser_vars := true }

/-- Every struct member is one of the found entities or one of the persistent variables. -/
def MembersAreKnown (w : World) : Prop :=
  ∀ v, some v ∈ w.m_struct_members → v ∈ w.m_found_entities ∨ v ∈ w.persistent_vars

/-- The decl map of `twoMembers` during a parse, with the struct still empty. -/
def noMembersParsing : World :=
  { twoMembers with m_parser_vars := true, m_struct_members := [] }

/-- The message for a persistent variable without a separate allocation. -/
def unsupportedMessage : String :=
  "Persistent variables without separate allocations are not currently supported."

/-- A persistent variable `$1` of four bytes with the given flags and no live object. -/
def flaggedHeap (flags : Flags) : Nat → ClangExpressionVariable
  | 0 => { m_name := "$1", m_flags := flags, m_byte_size := 4, m_value_bytes := some [1, 2, 3, 4] }
  | _ => {}

/-- A decl map with the persistent variable of `flaggedHeap`; the first 4096 bytes of the
debuggee are accessible and its allocator answers as given. -/
def flaggedWorld (flags : Flags) (allocations : List (Nat × Error)) : World :=
  { World.create false with
    heap := flaggedHeap flags, persistent_vars := [0],
    process := { memory := fun a => if a < 4096 then some 0 else none,
                 allocations := allocations } }

/-- The world `WillParse` leaves behind, the world itself when the call is undefined. -/
def afterWillParse (exe_ctx : ExecutionContext) (w : World) : World :=
  match WillParse exe_ctx w with
  | some (_, w') => w'
  | none => w

/-- The world of `resultComputed` with a debuggee whose next deallocation fails with the
reason `process exited`. -/
def failingRelease : World :=
  { resultComputed with
    process := { resultComputed.process with deallocations := [some "process exited"] } }

/-- The result variable of `resultHeap`, whose struct slot has size and alignment 8, followed
by a persistent variable `$1` whose struct slot has size 8 and alignment 4. -/
def alignedPairHeap : Nat → ClangExpressionVariable
  | 0 => resultHeap 0
  | 1 => { m_name := "$1",
           m_flags := { EVIsLLDBAllocated := true, EVNeedsAllocation := true },
           m_parser_vars := some { m_named_decl := 2 },
           m_jit_vars := some { m_alignment := 4, m_size := 8 },
           m_byte_size := 4, m_value_bytes := some [5, 6, 7, 8] }
  | _ => {}

/-- A decl map whose struct holds the two variables of `alignedPairHeap`, not laid out yet;
the allocator of the debuggee will answer 1004, 2048 and 2052. -/
def alignedPair : World :=
  { resultWorld with
    heap := alignedPairHeap, persistent_vars := [0, 1],
    process := { resultProcess with allocations := [(1004, none), (2048, none), (2052, none)] },
    m_struct_members := [some 0, some 1] }

/-- The offset of the variable is a multiple of its alignment. -/
def OffsetAligned (w : World) (v : Nat) : Prop :=
  ∃ j, (w.heap v).m_jit_vars = some j ∧ j.m_alignment ∣ j.m_offset

/-- The world after the call of `CreatePersistentVariable` that `BuildIntegerVariable` and
`AddPersistentVariable` make for a name and a parser type. -/
def persistentWorld (exe_ctx : ExecutionContext) (pv : DeclMapParserVars) (w : World)
    (name : String) (type : TaggedASTType) : World :=
  (CreatePersistentVariable exe_ctx w name
    { ast := pv.scratch_ast, type := exe_ctx.CopyType pv.scratch_ast type }).2

/-- A frame in which every type is 32 bits wide. -/
def wordTypes : ExecutionContext :=
  { GetClangTypeBitWidth := fun _ => 32 }

/-- The decl map of `parsing` with a debuggee of the given byte order. -/
def parsingFor (byte_order : ByteOrder) : World :=
  { parsing with process := { byteOrder := byte_order } }

/-- The storage-flag predicate: a variable that needs an allocation is allocated by the
debugger, and every variable is allocated by the debugger or a reference into the program. -/
def storageFlagsOk (f : Flags) : Prop :=
  (f.EVNeedsAllocation = true → f.EVIsLLDBAllocated = true) ∧
  (f.EVIsLLDBAllocated = true ∨ f.EVIsProgramReference = true)

instance (f : Flags) : Decidable (storageFlagsOk f) := by
  unfold storageFlagsOk; infer_instance

/-- Two found entities: `a` of size `2 ^ 64 - 4` and alignment 4, then `b` of size and
alignment 8. -/
def wrappedOffsetHeap : Nat → ClangExpressionVariable
  | 0 => { m_name := "a", m_parser_vars := some { m_named_decl := 1 },
           m_jit_vars := some { m_alignment := 4, m_size := 2 ^ 64 - 4 } }
  | 1 => { m_name := "b", m_parser_vars := some { m_named_decl := 2 },
           m_jit_vars := some { m_alignment := 8, m_size := 8 } }
  | _ => {}

/-- A decl map whose struct holds the two variables of `wrappedOffsetHeap`, not laid out
yet. -/
def wrappedOffset : World :=
  { World.create false with
    heap := wrappedOffsetHeap, m_found_entities := [0, 1], m_struct_members := [some 0, some 1] }

/-- Two found entities: `a` of size 8 and alignment 4, then `b` of size `2 ^ 64 - 4` and
alignment 4. -/
def wrappedSizeHeap : Nat → ClangExpressionVariable
  | 0 => { m_name := "a", m_parser_vars := some { m_named_decl := 1 },
           m_jit_vars := some { m_alignment := 4, m_size := 8 } }
  | 1 => { m_name := "b", m_parser_vars := some { m_named_decl := 2 },
           m_jit_vars := some { m_alignment := 4, m_size := 2 ^ 64 - 4 } }
  | _ => {}

/-- A decl map whose struct holds the two variables of `wrappedSizeHeap`, not laid out
yet. -/
def wrappedSize : World :=
  { World.create false with
    heap := wrappedSizeHeap, m_found_entities := [0, 1], m_struct_members := [some 0, some 1] }

/-- Two persistent variables whose struct slots have alignment 3: `$result` with a slot of
size `2 ^ 63 + 1`, then `$1` with a slot of size 8. -/
def overflowingPairHeap : Nat → ClangExpressionVariable
  | 0 => { m_name := "$result",
           m_flags := { EVIsLLDBAllocated := true, EVNeedsAllocation := true,
                        EVNeedsFreezeDry := true },
           m_parser_vars := some { m_named_decl := 1 },
           m_jit_vars := some { m_alignment := 3, m_size := 2 ^ 63 + 1 },
           m_byte_size := 4, m_value_bytes := some [1, 2, 3, 4] }
  | 1 => { m_name := "$1",
           m_flags := { EVIsLLDBAllocated := true, EVNeedsAllocation := true },
           m_parser_vars := some { m_named_decl := 2 },
           m_jit_vars := some { m_alignment := 3, m_size := 8 },
           m_byte_size := 4, m_value_bytes := some [5, 6, 7, 8] }
  | _ => {}

/-- A decl map whose struct holds the two variables of `overflowingPairHeap`, not laid out
yet; every address of the debuggee is accessible and its allocator will answer 1005, 2048
and 2052. -/
def overflowingPair : World :=
  { World.create false with
    heap := overflowingPairHeap, persistent_vars := [0, 1],
    process := { memory := fun _ => some 0,
                 allocations := [(1005, none), (2048, none), (2052, none)] },
    m_struct_members := [some 0, some 1],
    m_struct_vars := some { m_result_name := "$result" } }

/-- The world of `alignedPair` after layout and `Materialize`, once the expression has stored
the number 4660 in the struct slot of `$1` at 1016, which held the address 2052 of the spare
allocation of `$1`. -/
def overwrittenSlot : World :=
  let w := afterMaterialize {} (afterLayout alignedPair)
  { w with process := (w.process.WriteScalarToMemory 1016 4660 8).2 }

/-- The decl map of `resultThenStray` with a debuggee whose allocator answers 1004 once and
fails afterwards: the transfer buffer can be allocated, the spare area of the result variable
cannot. -/
def shortOfMemory : World :=
  { resultThenStray with
    process := { resultThenStray.process with allocations := [(1004, none)] } }

/-- A persistent variable `$1` without flags whose `GetValueBytes ()` is null. -/
def noBytesHeap : Nat → ClangExpressionVariable
  | 0 => { m_name := "$1" }
  | _ => {}

/-- A decl map with the persistent variable of `noBytesHeap`; the first 4096 bytes of the
debuggee are accessible. -/
def noBytesWorld : World :=
  { World.create false with
    heap := noBytesHeap, persistent_vars := [0],
    process := { memory := fun a => if a < 4096 then some 0 else none } }

/-! ## Lemmas and theorems -/

theorem roundUp_isLeast (c a : Nat) (ha : a ≠ 0) :
    IsLeast {n | c ≤ n ∧ a ∣ n} (if c % a ≠ 0 then c + (a - c % a) else c) := by
  have hpos : 0 < a := Nat.pos_of_ne_zero ha
  have hlt : c % a < a := Nat.mod_lt _ hpos
  have hdecomp : a * (c / a) + c % a = c := Nat.div_add_mod c a
  constructor
  · show c ≤ _ ∧ a ∣ _
    split
    · refine ⟨by omega, ?_⟩
      have : c + (a - c % a) = a * (c / a + 1) := by
        rw [Nat.mul_add, Nat.mul_one]; omega
      rw [this]; exact Dvd.intro _ rfl
    · rename_i h
      have h0 : c % a = 0 := by simpa using h
      exact ⟨le_refl _, Nat.dvd_of_mod_eq_zero h0⟩
  · rintro n ⟨hcn, k, rfl⟩
    split
    · rename_i h
      -- a * (c / a) < c ≤ a * k, hence c / a < k
      have hk : c / a < k := by
        by_contra hk
        have hk' : k ≤ c / a := Nat.le_of_not_lt hk
        have : a * k ≤ a * (c / a) := Nat.mul_le_mul_left a hk'
        omega
      have : a * (c / a + 1) ≤ a * k := Nat.mul_le_mul_left a hk
      rw [Nat.mul_add, Nat.mul_one] at this
      omega
    · exact hcn

theorem setVar_heap_ne (w : World) (v id : Nat) (x : ClangExpressionVariable) (h : id ≠ v) :
    (w.setVar v x).heap id = w.heap id := by
  simp [World.setVar, Function.update, h]

theorem setVar_heap_self (w : World) (v : Nat) (x : ClangExpressionVariable) :
    (w.setVar v x).heap v = x := by
  simp [World.setVar]

theorem layOutMembers_frame (ms : List (Option Nat)) :
    ∀ (w : World) (sv : StructVars) (idx c : Nat) (b : Bool) (w' : World) (sv' : StructVars)
      (c' : Nat), layOutMembers w sv ms idx c = some (b, w', sv', c') →
      (∃ heap', w' = { w with heap := heap' }) ∧
      (∀ id, some id ∉ ms → w'.heap id = w.heap id) ∧
      (∀ id, jitShape (w'.heap id) = jitShape (w.heap id)) := by
  induction ms with
  | nil =>
    intro w sv idx c b w' sv' c' h
    simp only [layOutMembers, Option.some.injEq, Prod.mk.injEq] at h
    obtain ⟨-, rfl, -, -⟩ := h
    exact ⟨⟨_, rfl⟩, fun _ _ => rfl, fun _ => rfl⟩
  | cons m rest ih =>
    intro w sv idx c b w' sv' c' h
    cases m with
    | none =>
      simp only [layOutMembers, Option.some.injEq, Prod.mk.injEq] at h
      obtain ⟨-, rfl, -, -⟩ := h
      exact ⟨⟨_, rfl⟩, fun _ _ => rfl, fun _ => rfl⟩
    | some v =>
      simp only [layOutMembers] at h
      split at h
      · simp only [Option.some.injEq, Prod.mk.injEq] at h
        obtain ⟨-, rfl, -, -⟩ := h
        exact ⟨⟨_, rfl⟩, fun _ _ => rfl, fun _ => rfl⟩
      · rename_i j hj
        split at h
        · exact absurd h (by simp)
        · obtain ⟨h1, h2, h3⟩ := ih _ _ _ _ _ _ _ _ h
          refine ⟨?_, ?_, ?_⟩
          · obtain ⟨heap', rfl⟩ := h1
            exact ⟨heap', rfl⟩
          · intro id hid
            have hne : id ≠ v := by
              rintro rfl; exact hid (List.mem_cons_self _ _)
            have hrest : some id ∉ rest := fun hmem => hid (List.mem_cons_of_mem _ hmem)
            rw [h2 id hrest, setVar_heap_ne _ _ _ _ hne]
          · intro id
            rw [h3 id]
            by_cases hid : id = v
            · subst hid
              rw [setVar_heap_self]
              simp [jitShape, hj]
            · rw [setVar_heap_ne _ _ _ _ hid]

theorem asOffT_small (x : Nat) (h : x < 2 ^ 63) : asOffT x = (x : Int) := by
  have h1 : x % 2 ^ 64 = x := Nat.mod_eq_of_lt (by omega)
  simp only [asOffT, h1, h, if_true]

theorem toWord_small (x : Nat) (h : x < 2 ^ 64) : toWord (x : Int) = x := by
  unfold toWord
  have : ((x : Int) % 2 ^ 64) = (x : Int) := Int.emod_eq_of_lt (by omega) (by omega)
  rw [this]
  exact Int.toNat_natCast x

theorem roundUp_word (c a : Nat) (hc : c < 2 ^ 63) (ha : a < 2 ^ 63) (ha0 : a ≠ 0) :
    (if (asOffT c).tmod (asOffT a) ≠ 0 then
        toWord (asOffT c + (asOffT a - (asOffT c).tmod (asOffT a)))
      else c)
    = (if c % a ≠ 0 then c + (a - c % a) else c) := by
  rw [asOffT_small c hc, asOffT_small a ha]
  have hmod : (c : Int).tmod (a : Int) = ((c % a : Nat) : Int) := by
    rw [Int.tmod_eq_emod (by omega) (by omega)]
    exact (Int.natCast_mod c a).symm
  rw [hmod]
  by_cases h0 : c % a = 0
  · simp [h0]
  · have hne : ((c % a : Nat) : Int) ≠ 0 := by exact_mod_cast h0
    rw [if_pos hne, if_pos h0]
    have hle : c % a ≤ a := Nat.le_of_lt (Nat.mod_lt _ (Nat.pos_of_ne_zero ha0))
    have : (c : Int) + ((a : Int) - ((c % a : Nat) : Int)) = ((c + (a - c % a) : Nat) : Int) := by
      push_cast [Nat.cast_sub hle]; ring
    rw [this]
    apply toWord_small
    omega

theorem roundUp_le (c a : Nat) : (if c % a ≠ 0 then c + (a - c % a) else c) ≤ c + a := by
  split <;> omega

theorem memberExtent_setVar (w : World) (v : Nat) (j : JITVars) (off : Nat)
    (hj : (w.heap v).m_jit_vars = some j) (m : Option Nat) :
    memberExtent (w.setVar v { w.heap v with m_jit_vars := some { j with m_offset := off } }) m
      = memberExtent w m := by
  cases m with
  | none => rfl
  | some id =>
    by_cases hid : id = v
    · subst hid; simp [memberExtent, setVar_heap_self, hj]
    · simp [memberExtent, setVar_heap_ne _ _ _ _ hid]

theorem layoutExtent_setVar (w : World) (v : Nat) (j : JITVars) (off : Nat)
    (hj : (w.heap v).m_jit_vars = some j) (ms : List (Option Nat)) :
    layoutExtent (w.setVar v { w.heap v with m_jit_vars := some { j with m_offset := off } }) ms
      = layoutExtent w ms := by
  unfold layoutExtent
  congr 1
  exact List.map_congr_left (fun m _ => memberExtent_setVar w v j off hj m)

theorem layoutExtent_cons (w : World) (v : Nat) (j : JITVars) (rest : List (Option Nat))
    (hj : (w.heap v).m_jit_vars = some j) :
    layoutExtent w (some v :: rest) = (j.m_alignment + j.m_size) + layoutExtent w rest := by
  simp [layoutExtent, memberExtent, hj]

/-- One iteration of the layout loop within the bound: the offset is the cursor rounded up
and the cursor advances by the size, both without overflow. -/
theorem layOutMembers_step (w : World) (sv : StructVars) (v : Nat) (j : JITVars)
    (rest : List (Option Nat)) (idx c : Nat) (hj : (w.heap v).m_jit_vars = some j)
    (ha : j.m_alignment ≠ 0) (hbound : c + layoutExtent w (some v :: rest) < 2 ^ 63) :
    layOutMembers w sv (some v :: rest) idx c
      = layOutMembers
          (w.setVar v { w.heap v with m_jit_vars := some { j with m_offset :=
            if c % j.m_alignment ≠ 0 then c + (j.m_alignment - c % j.m_alignment) else c } })
          (if idx = 0 then { sv with m_struct_alignment := j.m_alignment } else sv)
          rest (idx + 1)
          ((if c % j.m_alignment ≠ 0 then c + (j.m_alignment - c % j.m_alignment) else c)
            + j.m_size) := by
  rw [layoutExtent_cons w v j rest hj] at hbound
  have hle := roundUp_le c j.m_alignment
  simp only [layOutMembers, hj, ha, if_false]
  have hlt : (if c % j.m_alignment ≠ 0 then c + (j.m_alignment - c % j.m_alignment) else c)
      + j.m_size < 2 ^ 64 := by omega
  rw [roundUp_word c j.m_alignment (by omega) (by omega) ha, Nat.mod_eq_of_lt hlt]

theorem layOutMembers_spec (ms : List (Option Nat)) :
    ∀ (w : World) (sv : StructVars) (idx c : Nat) (w' : World) (sv' : StructVars) (c' : Nat),
      ms.Nodup → c + layoutExtent w ms < 2 ^ 63 →
      layOutMembers w sv ms idx c = some (true, w', sv', c') →
      LaidOutFrom w' c ms := by
  induction ms with
  | nil => intro _ _ _ _ _ _ _ _ _ _; trivial
  | cons m rest ih =>
    intro w sv idx c w' sv' c' hnodup hbound h
    have hnotin : m ∉ rest := (List.nodup_cons.mp hnodup).1
    have hnodup' : rest.Nodup := (List.nodup_cons.mp hnodup).2
    cases m with
    | none => simp [layOutMembers] at h
    | some v =>
      cases hj : (w.heap v).m_jit_vars with
      | none => simp [layOutMembers, hj] at h
      | some j =>
        by_cases ha : j.m_alignment = 0
        · simp [layOutMembers, hj, ha] at h
        · rw [layOutMembers_step w sv v j rest idx c hj ha hbound] at h
          have hframe := (layOutMembers_frame rest _ _ _ _ _ _ _ _ h).2.1 v hnotin
          rw [setVar_heap_self] at hframe
          have hle := roundUp_le c j.m_alignment
          rw [layoutExtent_cons w v j rest hj] at hbound
          have hrec := ih _ _ _ _ _ _ _ hnodup'
            (by rw [layoutExtent_setVar w v j _ hj]; omega) h
          refine ⟨⟨v, _, rfl, by rw [hframe], ?_⟩, ?_⟩
          · exact roundUp_isLeast c j.m_alignment ha
          · have hend : memberEnd w' (some v)
                = (if c % j.m_alignment ≠ 0 then c + (j.m_alignment - c % j.m_alignment) else c)
                  + j.m_size := by
              simp [memberEnd, hframe]
            rw [hend]
            exact hrec

theorem layOutMembers_cursor (ms : List (Option Nat)) :
    ∀ (w : World) (sv : StructVars) (idx c : Nat) (w' : World) (sv' : StructVars) (c' : Nat),
      layOutMembers w sv ms idx c = some (true, w', sv', c') →
      c' = (match ms.getLast? with
            | none => c
            | some m => memberEnd w' m % 2 ^ 64) := by
  induction ms with
  | nil =>
    intro w sv idx c w' sv' c' h
    simp only [layOutMembers, Option.some.injEq, Prod.mk.injEq] at h
    simp [h.2.2.2]
  | cons m rest ih =>
    intro w sv idx c w' sv' c' h
    cases m with
    | none => simp [layOutMembers] at h
    | some v =>
      simp only [layOutMembers] at h
      split at h
      · simp at h
      · rename_i j hj
        split at h
        · exact absurd h (by simp)
        · have hrec := ih _ _ _ _ _ _ _ h
          cases rest with
          | nil =>
            simp only [layOutMembers, Option.some.injEq, Prod.mk.injEq] at h
            obtain ⟨-, rfl, -, rfl⟩ := h
            simp [memberEnd, setVar_heap_self]
          | cons m2 rest2 =>
            have hne : (m2 :: rest2) ≠ [] := by simp
            rw [hrec, List.getLast?_cons_cons, List.getLast?_eq_getLast _ hne]

theorem layOutMembers_alignment (ms : List (Option Nat)) :
    ∀ (w : World) (sv : StructVars) (idx c : Nat) (b : Bool) (w' : World) (sv' : StructVars)
      (c' : Nat), layOutMembers w sv ms idx c = some (b, w', sv', c') → 0 < idx → sv' = sv := by
  induction ms with
  | nil =>
    intro w sv idx c b w' sv' c' h _
    simp only [layOutMembers, Option.some.injEq, Prod.mk.injEq] at h
    exact h.2.2.1.symm
  | cons m rest ih =>
    intro w sv idx c b w' sv' c' h hidx
    cases m with
    | none =>
      simp only [layOutMembers, Option.some.injEq, Prod.mk.injEq] at h
      exact h.2.2.1.symm
    | some v =>
      simp only [layOutMembers] at h
      split at h
      · simp only [Option.some.injEq, Prod.mk.injEq] at h
        exact h.2.2.1.symm
      · split at h
        · exact absurd h (by simp)
        · have hrec := ih _ _ _ _ _ _ _ _ h (Nat.succ_pos _)
          rw [hrec]
          simp [Nat.ne_of_gt hidx]

theorem LaidOutFrom_get (w : World) (ms : List (Option Nat)) :
    ∀ (prev i : Nat), LaidOutFrom w prev ms → i < ms.length →
      ∃ id j, ms.get? i = some (some id) ∧ (w.heap id).m_jit_vars = some j ∧
        IsLeast {n | endBefore w ms prev i ≤ n ∧ j.m_alignment ∣ n} j.m_offset := by
  induction ms with
  | nil => intro _ i _ hi; simp at hi
  | cons m rest ih =>
    intro prev i h hi
    obtain ⟨⟨id, j, rfl, hj, hleast⟩, hrest⟩ := h
    cases i with
    | zero => exact ⟨id, j, rfl, hj, hleast⟩
    | succ k =>
      have hk : k < rest.length := by simpa using hi
      obtain ⟨id', j', hget, hj', hleast'⟩ := ih _ k hrest hk
      refine ⟨id', j', by simpa using hget, hj', ?_⟩
      have hend : endBefore w (some id :: rest) prev (k + 1)
          = endBefore w rest (memberEnd w (some id)) k := by
        cases k with
        | zero => simp [endBefore]
        | succ k' => simp [endBefore]
      rw [hend]
      exact hleast'

theorem DoStructLayout_run (w w' : World) (sv : StructVars) (hsv : w.m_struct_vars = some sv)
    (hfresh : sv.m_struct_laid_out = false) (hrun : DoStructLayout w = some (true, w')) :
    ∃ w1 sv1 cursor,
      layOutMembers w { sv with m_struct_alignment := 0, m_struct_size := 0 }
        w.m_struct_members 0 0 = some (true, w1, sv1, cursor) ∧
      w' = { w1 with
        m_struct_vars := some { sv1 with m_struct_size := cursor, m_struct_laid_out := true } } := by
  simp only [DoStructLayout, hsv, hfresh, Bool.false_eq_true, ↓reduceIte] at hrun
  split at hrun
  · simp at hrun
  · simp at hrun
  · rename_i w1 sv1 cursor heq
    simp only [Option.some.injEq, Prod.mk.injEq, true_and] at hrun
    refine ⟨w1, sv1, cursor, ?_, hrun.symm⟩
    rw [hfresh]
    exact heq

/-- Counterexample to C1 as stated: member `a` has size `2 ^ 64 - 4` and alignment 4, member
`b` alignment 8.  The layout succeeds; the cursor after `a` is the `off_t` -4, its remainder
by 8 is -4, and `b` gets the offset 8, which is below the end `2 ^ 64 - 4` of `a` and so is
not the least multiple of 8 at or after that end. -/
theorem DoStructLayout_offset_is_least_counterexample :
    DoStructLayout wrappedOffset = some (true, afterLayout wrappedOffset) ∧
    ((afterLayout wrappedOffset).heap 0).m_jit_vars
      = some { m_alignment := 4, m_size := 2 ^ 64 - 4, m_offset := 0 } ∧
    ((afterLayout wrappedOffset).heap 1).m_jit_vars
      = some { m_alignment := 8, m_size := 8, m_offset := 8 } ∧
    previousEnd (afterLayout wrappedOffset) 1 = 2 ^ 64 - 4 ∧
    ¬ IsLeast {n | previousEnd (afterLayout wrappedOffset) 1 ≤ n ∧ 8 ∣ n} 8 := by
  have hprev : previousEnd (afterLayout wrappedOffset) 1 = 2 ^ 64 - 4 := by decide
  refine ⟨rfl, by decide, by decide, hprev, ?_⟩
  intro h
  have h1 : previousEnd (afterLayout wrappedOffset) 1 ≤ 8 := h.1.1
  rw [hprev] at h1
  omega

/-- C1 as amended: when `DoStructLayout` lays out a struct of distinct members whose alignments and
sizes sum to less than `2 ^ 63` and succeeds, the offset of member `i` is the least value
that is a multiple of the member's alignment and is not below the end (offset plus size) of
member `i - 1`, `0` for the first member; the members, their sizes and their alignments are
the ones given. -/
theorem DoStructLayout_offset_is_least (w w' : World) (sv : StructVars)
    (hsv : w.m_struct_vars = some sv) (hfresh : sv.m_struct_laid_out = false)
    (hnodup : w.m_struct_members.Nodup)
    (hbound : layoutExtent w w.m_struct_members < 2 ^ 63)
    (hrun : DoStructLayout w = some (true, w'))
    (i : Nat) (hi : i < w.m_struct_members.length) :
    w'.m_struct_members = w.m_struct_members ∧
    ∃ id j, w.m_struct_members.get? i = some (some id) ∧
      (w'.heap id).m_jit_vars = some j ∧ jitShape (w'.heap id) = jitShape (w.heap id) ∧
      IsLeast {n | previousEnd w' i ≤ n ∧ j.m_alignment ∣ n} j.m_offset := by
  obtain ⟨w1, sv1, cursor, hloop, rfl⟩ := DoStructLayout_run w w' sv hsv hfresh hrun
  obtain ⟨⟨heap', rfl⟩, -, hshape⟩ := layOutMembers_frame _ _ _ _ _ _ _ _ _ hloop
  have hspec := layOutMembers_spec _ _ _ _ _ _ _ _ hnodup (by omega) hloop
  obtain ⟨id, j, hget, hj, hleast⟩ := LaidOutFrom_get _ _ 0 i hspec hi
  exact ⟨rfl, id, j, hget, hj, hshape id, hleast⟩

/-- Witness of C1: members of size and alignment 4 and then 8 get the offsets 0 and 8. -/
theorem DoStructLayout_offset_is_least_witness :
    ((afterLayout twoMembers).heap 0).m_jit_vars = some { m_alignment := 4, m_size := 4, m_offset := 0 } ∧
    ((afterLayout twoMembers).heap 1).m_jit_vars = some { m_alignment := 8, m_size := 8, m_offset := 8 } ∧
    ((afterLayout twoMembers).m_struct_members = twoMembers.m_struct_members ∧
      ∃ id j, twoMembers.m_struct_members.get? 1 = some (some id) ∧
        ((afterLayout twoMembers).heap id).m_jit_vars = some j ∧
        jitShape ((afterLayout twoMembers).heap id) = jitShape (twoMembers.heap id) ∧
        IsLeast {n | previousEnd (afterLayout twoMembers) 1 ≤ n ∧ j.m_alignment ∣ n} j.m_offset) :=
  ⟨by decide, by decide,
    DoStructLayout_offset_is_least twoMembers (afterLayout twoMembers) {} rfl rfl (by decide)
      (by decide) rfl 1 (by decide)⟩

/-- Counterexample to C2 as stated: member `a` has size 8 and alignment 4, member `b` size
`2 ^ 64 - 4` and alignment 4.  The layout succeeds and puts `b` at offset 8; the offset of
`b` plus its size is `2 ^ 64 + 4`, and the size that `GetStructInfo` reports is 4. -/
theorem GetStructInfo_size_is_end_of_last_counterexample :
    DoStructLayout wrappedSize = some (true, afterLayout wrappedSize) ∧
    ((afterLayout wrappedSize).heap 1).m_jit_vars
      = some { m_alignment := 4, m_size := 2 ^ 64 - 4, m_offset := 8 } ∧
    memberEnd (afterLayout wrappedSize) (some 1) = 2 ^ 64 + 4 ∧
    GetStructInfo (afterLayout wrappedSize) = some (some (2, 4, 4)) :=
  ⟨rfl, by decide, by decide, by decide⟩

/-- C2 as amended: when `DoStructLayout` lays out the struct and succeeds, the size reported
by `GetStructInfo` is the offset of the last member plus the size of that member, reduced
modulo `2 ^ 64` (the 64-bit cursor), and `0` for a struct without members; it is the offset
plus the size itself whenever that sum is below `2 ^ 64`.  The element count is the number
of members. -/
theorem GetStructInfo_size_is_end_of_last (w w' : World) (sv : StructVars)
    (hsv : w.m_struct_vars = some sv) (hfresh : sv.m_struct_laid_out = false)
    (hrun : DoStructLayout w = some (true, w')) :
    ∃ alignment,
      GetStructInfo w' = some (some (w.m_struct_members.length,
        (match w.m_struct_members.getLast? with
         | none => 0
         | some m => memberEnd w' m % 2 ^ 64), alignment)) ∧
      ∀ m, w.m_struct_members.getLast? = some m → memberEnd w' m < 2 ^ 64 →
        GetStructInfo w' = some (some (w.m_struct_members.length, memberEnd w' m, alignment)) := by
  obtain ⟨w1, sv1, cursor, hloop, rfl⟩ := DoStructLayout_run w w' sv hsv hfresh hrun
  obtain ⟨⟨heap', rfl⟩, -, -⟩ := layOutMembers_frame _ _ _ _ _ _ _ _ _ hloop
  have hcursor := layOutMembers_cursor _ _ _ _ _ _ _ _ hloop
  refine ⟨sv1.m_struct_alignment, ?_, ?_⟩
  · simp only [GetStructInfo, Bool.not_true, Bool.false_eq_true, ↓reduceIte]
    rw [hcursor]
    cases w.m_struct_members.getLast? <;> rfl
  · intro m hm hlt
    simp only [GetStructInfo, Bool.not_true, Bool.false_eq_true, ↓reduceIte]
    rw [hcursor, hm]
    have hfit : memberEnd ({ w with heap := heap' } : World) m % 2 ^ 64
        = memberEnd ({ w with heap := heap' } : World) m := Nat.mod_eq_of_lt hlt
    simp only [hfit]
    rfl

/-- Witness of C2: members of size and alignment 4 and then 8 give the total size 16. -/
theorem GetStructInfo_size_is_end_of_last_witness :
    GetStructInfo (afterLayout twoMembers) = some (some (2, 16, 4)) ∧
    ∃ alignment,
      GetStructInfo (afterLayout twoMembers) =
        some (some (twoMembers.m_struct_members.length,
          (match twoMembers.m_struct_members.getLast? with
           | none => 0
           | some m => memberEnd (afterLayout twoMembers) m % 2 ^ 64), alignment)) ∧
      ∀ m, twoMembers.m_struct_members.getLast? = some m →
        memberEnd (afterLayout twoMembers) m < 2 ^ 64 →
        GetStructInfo (afterLayout twoMembers)
          = some (some (twoMembers.m_struct_members.length,
              memberEnd (afterLayout twoMembers) m, alignment)) :=
  ⟨by decide, GetStructInfo_size_is_end_of_last twoMembers (afterLayout twoMembers) {} rfl rfl rfl⟩

/-- C3: when `DoStructLayout` lays out a struct with at least one member and succeeds, the
alignment reported by `GetStructInfo` is the alignment of the first member, whatever the
later members are. -/
theorem GetStructInfo_alignment_is_first (w w' : World) (sv : StructVars)
    (hsv : w.m_struct_vars = some sv) (hfresh : sv.m_struct_laid_out = false)
    (hrun : DoStructLayout w = some (true, w')) (m : Option Nat) (rest : List (Option Nat))
    (hmembers : w.m_struct_members = m :: rest) :
    ∃ v j size, m = some v ∧ (w.heap v).m_jit_vars = some j ∧
      GetStructInfo w' = some (some (w.m_struct_members.length, size, j.m_alignment)) := by
  obtain ⟨w1, sv1, cursor, hloop, rfl⟩ := DoStructLayout_run w w' sv hsv hfresh hrun
  obtain ⟨⟨heap', rfl⟩, -, -⟩ := layOutMembers_frame _ _ _ _ _ _ _ _ _ hloop
  rw [hmembers] at hloop
  cases m with
  | none => simp [layOutMembers] at hloop
  | some v =>
    simp only [layOutMembers] at hloop
    split at hloop
    · simp at hloop
    · rename_i j hj
      split at hloop
      · exact absurd hloop (by simp)
      · have hsv1 := layOutMembers_alignment _ _ _ _ _ _ _ _ _ hloop (Nat.succ_pos _)
        refine ⟨v, j, cursor, rfl, hj, ?_⟩
        simp [GetStructInfo, hsv1]

/-- Witness of C3: members of alignment 4 and then 8 give the aggregate alignment 4. -/
theorem GetStructInfo_alignment_is_first_witness :
    ∃ v j size, some 0 = some v ∧ (twoMembers.heap v).m_jit_vars = some j ∧
      GetStructInfo (afterLayout twoMembers) =
        some (some (twoMembers.m_struct_members.length, size, j.m_alignment)) :=
  GetStructInfo_alignment_is_first twoMembers (afterLayout twoMembers) {} rfl rfl rfl (some 0)
    [some 1] rfl

/-- C4: a struct without members is laid out with size 0, and `Materialize` on the laid-out
struct returns `true` without any call on the debuggee (no allocation in particular); with a
non-null frame it leaves the error untouched. -/
theorem Materialize_no_members (w : World) (sv : StructVars)
    (hsv : w.m_struct_vars = some sv) (hfresh : sv.m_struct_laid_out = false)
    (hempty : w.m_struct_members = []) :
    ∃ w1, DoStructLayout w = some (true, w1) ∧ GetStructInfo w1 = some (some (0, 0, 0)) ∧
      ∀ (exe_ctx : ExecutionContext) (struct_address : Nat) (err : Error),
        ∃ w2 err2 address,
          Materialize exe_ctx w1 struct_address err = some (true, w2, err2, address) ∧
          w2.process = w1.process ∧ (exe_ctx.frame = true → err2 = err) := by
  refine ⟨{ w with m_struct_vars := some { sv with
    m_struct_alignment := 0, m_struct_size := 0, m_struct_laid_out := true } }, ?_, ?_, ?_⟩
  · simp [DoStructLayout, hsv, hfresh, hempty, layOutMembers]
  · simp [GetStructInfo, hempty]
  · intro exe_ctx struct_address err
    cases hframe : exe_ctx.frame <;> cases hmv : w.m_material_vars <;>
      simp [Materialize, DoMaterialize, hmv, hframe, LLDB_INVALID_ADDRESS]

/-- Witness of C4: the freshly constructed decl map. -/
theorem Materialize_no_members_witness :
    ∃ w1, DoStructLayout (World.create false) = some (true, w1) ∧
      GetStructInfo w1 = some (some (0, 0, 0)) ∧
      ∀ (exe_ctx : ExecutionContext) (struct_address : Nat) (err : Error),
        ∃ w2 err2 address,
          Materialize exe_ctx w1 struct_address err = some (true, w2, err2, address) ∧
          w2.process = w1.process ∧ (exe_ctx.frame = true → err2 = err) :=
  Materialize_no_members (World.create false) {} rfl rfl rfl

@[simp] theorem WriteMemory_trace (p : Process) (addr : Nat) (bytes : List Nat) :
    (p.WriteMemory addr bytes).2.trace = p.trace := by
  unfold Process.WriteMemory; split <;> rfl

@[simp] theorem WriteScalarToMemory_trace (p : Process) (addr scalar size : Nat) :
    (p.WriteScalarToMemory addr scalar size).2.trace = p.trace := by
  unfold Process.WriteScalarToMemory; split <;> simp

@[simp] theorem WriteRegister_trace (p : Process) (reg : RegisterInfo) (value : List Nat) :
    (p.WriteRegister reg value).2.trace = p.trace := by
  unfold Process.WriteRegister; split <;> rfl

@[simp] theorem WriteRegisterValueToMemory_trace (p : Process) (reg : RegisterInfo)
    (addr len : Nat) (value : List Nat) :
    (p.WriteRegisterValueToMemory reg addr len value).2.trace = p.trace := by
  unfold Process.WriteRegisterValueToMemory; simp only []; split <;> simp

@[simp] theorem AllocateMemory_trace (p : Process) (size : Nat) :
    (p.AllocateMemory size).2.2.trace
      = p.trace ++ [Call.allocate size (p.AllocateMemory size).1] := by
  unfold Process.AllocateMemory; split <;> rfl

@[simp] theorem DeallocateMemory_trace (p : Process) (addr : Nat) :
    (p.DeallocateMemory addr).2.trace = p.trace ++ [Call.deallocate addr] := by
  unfold Process.DeallocateMemory; split <;> rfl

theorem extends_refl (w : World) : Extends w w :=
  ⟨rfl, rfl, rfl, rfl, rfl, rfl, rfl, fun _ => rfl, List.prefix_refl _⟩

theorem extends_trans {w1 w2 w3 : World} (h12 : Extends w1 w2) (h23 : Extends w2 w3) :
    Extends w1 w3 := by
  obtain ⟨a1, a2, a3, a4, a5, a6, a7, a8, hc1⟩ := h12
  obtain ⟨b1, b2, b3, b4, b5, b6, b7, b8, hc2⟩ := h23
  exact ⟨b1.trans a1, b2.trans a2, b3.trans a3, b4.trans a4, b5.trans a5, b6.trans a6,
    b7.trans a7, fun id => (b8 id).trans (a8 id), hc1.trans hc2⟩

theorem staticPart_update (heap : Nat → ClangExpressionVariable) (v id : Nat)
    (x : ClangExpressionVariable) (h : staticPart x = staticPart (heap v)) :
    staticPart (Function.update heap v x id) = staticPart (heap id) := by
  by_cases hid : id = v
  · subst hid; simpa using h
  · simp [Function.update, hid]

theorem extends_mk (w : World) (heap' : Nat → ClangExpressionVariable) (p : Process)
    (hheap : ∀ id, staticPart (heap' id) = staticPart (w.heap id))
    (htrace : w.process.trace <+: p.trace) :
    Extends w { w with heap := heap', process := p } :=
  ⟨rfl, rfl, rfl, rfl, rfl, rfl, rfl, hheap, htrace⟩

theorem DoMaterializeOneRegister_extends (d : Bool) (w : World) (reg : RegisterInfo)
    (addr : Nat) (err : Error) : Extends w (DoMaterializeOneRegister d w reg addr err).2.1 := by
  simp only [DoMaterializeOneRegister]
  repeat' split
  all_goals
    refine extends_mk w _ _ (fun id => ?_) ?_
    · rfl
    · simp

theorem dematerializeRegisterValue_extends (w : World) (v : Nat) (reg : RegisterInfo)
    (n : Nat) : Extends w (dematerializeRegisterValue w v reg n).2.1 := by
  simp only [dematerializeRegisterValue]
  repeat' split
  all_goals
    refine extends_mk w _ _ (fun id => ?_) ?_
    · first | rfl | exact staticPart_update _ _ _ _ rfl
    · simp

theorem materializeRegisterValue_extends (w : World) (v addr : Nat) (reg : RegisterInfo)
    (n : Nat) : Extends w (materializeRegisterValue w v addr reg n).2.1 := by
  simp only [materializeRegisterValue]
  repeat' split
  all_goals
    refine extends_mk w _ _ (fun id => ?_) ?_
    · first | rfl | exact staticPart_update _ _ _ _ rfl
    · simp [World.setVar]

theorem materializeScalarValue_extends (d : Bool) (exe_ctx : ExecutionContext) (w : World)
    (v addr : Nat) (loc : Value) (n : Nat) :
    Extends w (materializeScalarValue d exe_ctx w v addr loc n).2.1 := by
  simp only [materializeScalarValue]
  repeat' split
  all_goals first
    | exact extends_refl w
    | exact dematerializeRegisterValue_extends _ _ _ _
    | exact materializeRegisterValue_extends _ _ _ _ _

theorem materializeScalarValue_extends_of_eq (d : Bool) (exe_ctx : ExecutionContext)
    (w : World) (v addr : Nat) (loc : Value) (n : Nat) (r : Bool × World × Error)
    (h : materializeScalarValue d exe_ctx w v addr loc n = r) : Extends w r.2.1 :=
  h ▸ materializeScalarValue_extends d exe_ctx w v addr loc n

theorem DoMaterializeOneVariable_extends (d : Bool) (exe_ctx : ExecutionContext) (w : World)
    (v addr : Nat) (err : Error) (b : Bool) (w' : World) (err' : Error)
    (h : DoMaterializeOneVariable d exe_ctx w v addr err = some (b, w', err')) :
    Extends w w' := by
  simp only [DoMaterializeOneVariable] at h
  repeat' split at h
  all_goals first
    | (simp only [Option.some.injEq] at h
       first
         | exact materializeScalarValue_extends_of_eq _ _ _ _ _ _ _ _ h
         | (cases h
            refine extends_mk w _ _ (fun id => ?_) ?_
            · rfl
            · simp))
    | cases h

theorem dematerializeLocate_extends (w : World) (v addr : Nat) (w' : World) (mem : Nat)
    (h : dematerializeLocate w v addr = Sum.inr (w', mem)) : Extends w w' := by
  simp only [dematerializeLocate] at h
  repeat' split at h
  all_goals
    cases h <;>
      (refine extends_mk w _ _ (fun id => ?_) ?_
       · first | rfl | exact staticPart_update _ _ _ _ rfl
       · simp [World.setVar])

theorem dematerializeFreezeDry_extends (w : World) (v mem : Nat) (data : List Nat)
    (top bottom : Nat) (w' : World) (mem' : Nat)
    (h : dematerializeFreezeDry w v mem data top bottom = some (Sum.inr (w', mem'))) :
    Extends w w' := by
  simp only [dematerializeFreezeDry] at h
  repeat' split at h
  all_goals
    cases h <;>
      (refine extends_mk w _ _ (fun id => ?_) ?_
       · first | rfl | exact staticPart_update _ _ _ _ rfl
       · simp [World.setVar])

theorem dematerializeRelease_extends (w : World) (v mem : Nat) (err : Error) :
    Extends w (dematerializeRelease w v mem err).2.1 := by
  simp only [dematerializeRelease]
  repeat' split
  all_goals
    refine extends_mk w _ _ (fun id => ?_) ?_
    · first | rfl | exact staticPart_update _ _ _ _ rfl
    · simp [World.setVar]

theorem dematerializeRelease_extends_of_eq (w : World) (v mem : Nat) (err : Error)
    (r : Bool × World × Error) (h : dematerializeRelease w v mem err = r) : Extends w r.2.1 :=
  h ▸ dematerializeRelease_extends w v mem err

theorem materializeAllocate_extends_inl (w : World) (v : Nat) (data : List Nat) (w1 : World)
    (e : Error) (h : materializeAllocate w v data = Sum.inl (w1, e)) : Extends w w1 := by
  simp only [materializeAllocate] at h
  repeat' split at h
  all_goals
    cases h <;>
      (refine extends_mk w _ _ (fun id => ?_) ?_
       · first | rfl | exact staticPart_update _ _ _ _ rfl
       · simp [World.setVar])

theorem materializeAllocate_extends_inr (w : World) (v : Nat) (data : List Nat) (w1 : World)
    (h : materializeAllocate w v data = Sum.inr w1) : Extends w w1 := by
  simp only [materializeAllocate] at h
  repeat' split at h
  all_goals
    cases h <;>
      (refine extends_mk w _ _ (fun id => ?_) ?_
       · first | rfl | exact staticPart_update _ _ _ _ rfl
       · simp [World.setVar])

theorem materializePersistent_extends (w : World) (v addr : Nat) (data : List Nat)
    (err : Error) (b : Bool) (w' : World) (err' : Error)
    (h : materializePersistent w v addr data err = some (b, w', err')) : Extends w w' := by
  simp only [materializePersistent] at h
  split at h
  · rename_i w1 e hA
    cases h
    exact materializeAllocate_extends_inl _ _ _ _ _ hA
  · rename_i w1 hA
    have h1 := materializeAllocate_extends_inr _ _ _ _ hA
    repeat' split at h
    all_goals
      cases h <;> exact extends_trans h1 (extends_mk _ _ _ (fun id => rfl) (by simp))

theorem DoMaterializeOnePersistentVariable_extends (d : Bool) (w : World)
    (var_sp : Option Nat) (addr top bottom : Nat) (err : Error) (b : Bool) (w' : World)
    (err' : Error)
    (h : DoMaterializeOnePersistentVariable d w var_sp addr top bottom err = some (b, w', err')) :
    Extends w w' := by
  simp only [DoMaterializeOnePersistentVariable] at h
  split at h
  · cases h; exact extends_refl w
  · split at h
    · cases h; exact extends_refl w
    · split at h
      · split at h
        · cases h; exact extends_refl w
        · rename_i w1 mem hL
          have h1 := dematerializeLocate_extends _ _ _ _ _ hL
          split at h
          · cases h
          · cases h; exact h1
          · rename_i w2 mem1 hF
            have h2 := dematerializeFreezeDry_extends _ _ _ _ _ _ _ _ hF
            simp only [Option.some.injEq] at h
            exact extends_trans (extends_trans h1 h2) (dematerializeRelease_extends_of_eq _ _ _ _ _ h)
      · exact materializePersistent_extends _ _ _ _ _ _ _ _ h

theorem materializeMembers_extends (d : Bool) (exe_ctx : ExecutionContext) (location : Nat)
    (result_name : String) (top bottom : Nat) (ptr : Bool) (ms : List (Option Nat)) :
    ∀ (w : World) (err : Error) (result_sp : Option Nat) (b : Bool) (w' : World) (err' : Error)
      (result_sp' : Option Nat),
      materializeMembers d exe_ctx location result_name top bottom ptr ms w err result_sp
        = some (b, w', err', result_sp') → Extends w w' := by
  induction ms with
  | nil =>
    intro w err result_sp b w' err' result_sp' h
    simp only [materializeMembers] at h
    cases h
    exact extends_refl w
  | cons m rest ih =>
    intro w err result_sp b w' err' result_sp' h
    cases m with
    | none => simp [materializeMembers] at h
    | some member_sp =>
      simp only [materializeMembers] at h
      split at h
      · split at h
        · split at h
          · cases h; exact extends_refl w
          · split at h
            · cases h
            · rename_i j hj
              have h1 := DoMaterializeOneRegister_extends d w (by assumption)
                (location + j.m_offset) err
              split at h
              · rename_i w1 err1 hR
                rw [hR] at h1
                cases h
                exact h1
              · rename_i w1 err1 hR
                rw [hR] at h1
                exact extends_trans h1 (ih _ _ _ _ _ _ _ h)
        · split at h
          · cases h; exact extends_refl w
          · split at h
            · cases h
            · rename_i w1 err1 hV
              cases h
              exact DoMaterializeOneVariable_extends _ _ _ _ _ _ _ _ _ hV
            · rename_i w1 err1 hV
              exact extends_trans (DoMaterializeOneVariable_extends _ _ _ _ _ _ _ _ _ hV)
                (ih _ _ _ _ _ _ _ h)
      · split at h
        · split at h
          · cases h
          · split at h
            · cases h
            · rename_i w1 err1 hP
              cases h
              exact DoMaterializeOnePersistentVariable_extends _ _ _ _ _ _ _ _ _ _ hP
            · rename_i w1 err1 hP
              exact extends_trans (DoMaterializeOnePersistentVariable_extends _ _ _ _ _ _ _ _ _ _ hP)
                (ih _ _ _ _ _ _ _ h)
        · cases h; exact extends_refl w

theorem allocateStruct_inr (w : World) (sv : StructVars) (mv : MaterialVars) (w1 : World)
    (mv1 : MaterialVars) (e : Error) (hmv : w.m_material_vars = some mv)
    (h : allocateStruct w sv mv = Sum.inr (w1, mv1, e)) :
    w1.process.trace = w.process.trace ++ releasedBuffer w
      ++ [Call.allocate (sv.m_struct_alignment + sv.m_struct_size) mv1.m_allocated_area] ∧
    w1.m_struct_members = w.m_struct_members ∧ w1.m_struct_vars = w.m_struct_vars ∧
    w1.m_material_vars = w.m_material_vars ∧ mv1.m_allocated_area ≠ LLDB_INVALID_ADDRESS := by
  by_cases hloc : mv.m_materialized_location = 0
  · simp only [allocateStruct, hloc, ne_eq, not_true_eq_false, ↓reduceIte] at h
    split at h
    · cases h
    · rename_i hinv
      cases h
      exact ⟨by simp [releasedBuffer, hmv, hloc], rfl, rfl, rfl, hinv⟩
  · simp only [allocateStruct, hloc, ne_eq, not_false_eq_true, ↓reduceIte] at h
    split at h
    · cases h
    · rename_i hinv
      cases h
      exact ⟨by simp [releasedBuffer, hmv, hloc], rfl, rfl, rfl, hinv⟩

theorem allocateStruct_inl (w : World) (sv : StructVars) (mv : MaterialVars) (w1 : World)
    (e : Error) (hmv : w.m_material_vars = some mv)
    (h : allocateStruct w sv mv = Sum.inl (w1, e)) :
    w1.process.trace = w.process.trace ++ releasedBuffer w
      ++ [Call.allocate (sv.m_struct_alignment + sv.m_struct_size) LLDB_INVALID_ADDRESS] := by
  by_cases hloc : mv.m_materialized_location = 0
  · simp only [allocateStruct, hloc, ne_eq, not_true_eq_false, ↓reduceIte] at h
    split at h
    · rename_i hinv
      cases h
      simp [releasedBuffer, hmv, hloc, hinv]
    · cases h
  · simp only [allocateStruct, hloc, ne_eq, not_false_eq_true, ↓reduceIte] at h
    split at h
    · rename_i hinv
      cases h
      simp [releasedBuffer, hmv, hloc, hinv]
    · cases h

theorem DoMaterialize_allocation (exe_ctx : ExecutionContext) (w : World) (sv : StructVars)
    (mv : MaterialVars) (top bottom : Nat) (ptr : Option (Option Nat)) (err : Error) (b : Bool)
    (w' : World) (err' : Error) (res : Option Nat)
    (hsv : w.m_struct_vars = some sv) (hmv : w.m_material_vars = some mv)
    (hlaid : sv.m_struct_laid_out = true) (hsize : sv.m_struct_size ≠ 0)
    (hframe : exe_ctx.frame = true)
    (hrun : DoMaterialize false exe_ctx w top bottom ptr err = some (b, w', err', res)) :
    ∃ mem later,
      w'.process.trace = w.process.trace ++ releasedBuffer w
        ++ [Call.allocate (sv.m_struct_alignment + sv.m_struct_size) mem] ++ later ∧
      (b = true → mem ≠ LLDB_INVALID_ADDRESS ∧ ∃ mv', w'.m_material_vars = some mv' ∧
        mv'.m_materialized_location = alignLocation mem sv.m_struct_alignment) := by
  simp only [DoMaterialize, hsv, hmv, hlaid, hframe, hsize, Bool.not_true, Bool.false_eq_true,
    ↓reduceIte, Bool.not_false] at hrun
  split at hrun
  · rename_i w1 e hA
    cases hrun
    exact ⟨LLDB_INVALID_ADDRESS, [], by simp [allocateStruct_inl w sv mv _ _ hmv hA], by simp⟩
  · rename_i w1 mv1 e hA
    obtain ⟨htrace, -, -, -, hvalid⟩ := allocateStruct_inr w sv mv _ _ _ hmv hA
    split at hrun
    · cases hrun
    · have hext := materializeMembers_extends _ _ _ _ _ _ _ _ _ _ _ _ _ _ _ hrun
      obtain ⟨-, -, -, -, -, -, hmat, -, later, hlater⟩ := hext
      refine ⟨mv1.m_allocated_area, later, ?_, fun _ => ⟨hvalid, _, hmat, rfl⟩⟩
      rw [← hlater]
      simp only [htrace]

theorem alignLocation_lt (m a : Nat) (ha : a ≠ 0) (h : m + a ≤ 2 ^ 64) :
    alignLocation m a < 2 ^ 64 := by
  unfold alignLocation
  have hpos : 0 < a := Nat.pos_of_ne_zero ha
  split
  · have : m % a < a := Nat.mod_lt _ hpos
    omega
  · omega

theorem dematerializeLocate_spec (w : World) (v addr : Nat) (w1 : World) (mem : Nat)
    (h : dematerializeLocate w v addr = Sum.inr (w1, mem)) :
    mem = w.process.ReadPointerFromMemory addr ∧ mem ≠ LLDB_INVALID_ADDRESS ∧
    ((w.heap v).m_flags.EVIsLLDBAllocated = true ∨ (w.heap v).m_flags.EVIsProgramReference = true) ∧
    w1 = w.setVar v { w.heap v with
      m_live_sp := some { address := spareAddress w v addr, isLoadAddress := true } } ∧
    (w1.heap v).m_live_sp = some { address := spareAddress w v addr, isLoadAddress := true } := by
  simp only [dematerializeLocate] at h
  split at h
  · rename_i hflags
    have hflags' : (w.heap v).m_flags.EVIsLLDBAllocated = true ∨
        (w.heap v).m_flags.EVIsProgramReference = true := by simpa using hflags
    split at h
    · cases h
    · rename_i hvalid
      cases hlive : (w.heap v).m_live_sp with
      | none =>
        cases hpr : (w.heap v).m_flags.EVIsProgramReference with
        | false => simp [hlive, hpr] at h
        | true =>
          simp only [hlive, hpr, Option.isNone_none, Bool.and_self, ↓reduceIte, Bool.not_true,
            Bool.false_eq_true, Sum.inr.injEq, Prod.mk.injEq] at h
          obtain ⟨rfl, rfl⟩ := h
          refine ⟨rfl, hvalid, Or.inr rfl, ?_, ?_⟩
          · simp [spareAddress, hlive]
          · simp [spareAddress, hlive, World.setVar]
      | some live =>
        have hvar : (if ((w.heap v).m_flags.EVIsProgramReference
            && (w.heap v).m_live_sp.isNone) = true then
              { w.heap v with m_live_sp := some { address := w.process.ReadPointerFromMemory addr,
                                                  isLoadAddress := true } }
            else w.heap v) = w.heap v := by
          simp [hlive]
        rw [hvar] at h
        simp only [hlive] at h
        split at h
        · cases h
        · rename_i hload
          simp only [Sum.inr.injEq, Prod.mk.injEq] at h
          obtain ⟨rfl, rfl⟩ := h
          have hlive' : live = { address := spareAddress w v addr, isLoadAddress := true } := by
            cases live with
            | mk a l =>
              simp only [Bool.not_eq_eq_eq_not, Bool.not_true, Bool.not_eq_false] at hload
              simp [spareAddress, hlive, hload]
          refine ⟨rfl, hvalid, hflags', ?_, ?_⟩
          · rw [← hlive', ← hlive]
          · simp [World.setVar, hlive, hlive']
  · cases h

theorem dematerializeFreezeDry_run (w1 : World) (v mem : Nat) (data : List Nat)
    (top bottom : Nat) (w2 : World) (mem1 : Nat) (live : LiveObject)
    (hlive : (w1.heap v).m_live_sp = some live)
    (hflag : (w1.heap v).m_flags.EVNeedsFreezeDry = true ∨
      (w1.heap v).m_flags.EVKeepInTarget = true)
    (h : dematerializeFreezeDry w1 v mem data top bottom = some (Sum.inr (w2, mem1))) :
    mem1 = live.address ∧ w2.process = w1.process ∧
    w2.m_keep_result_in_memory = w1.m_keep_result_in_memory ∧
    ∃ bytes, w1.process.ReadMemory live.address (w1.heap v).m_byte_size = some bytes ∧
      (w2.heap v).m_value_bytes = some (bytes ++ data.drop (w1.heap v).m_byte_size) ∧
      (w2.heap v).m_name = (w1.heap v).m_name ∧
      (w2.heap v).m_flags = { (if inStackFrame live.address top bottom then
          { (w1.heap v).m_flags with EVIsLLDBAllocated := true, EVNeedsAllocation := true,
                                     EVIsProgramReference := false }
        else (w1.heap v).m_flags) with EVNeedsFreezeDry := false } := by
  have hflag' : ((w1.heap v).m_flags.EVNeedsFreezeDry || (w1.heap v).m_flags.EVKeepInTarget)
      = true := by simpa using hflag
  simp only [dematerializeFreezeDry, hflag', ↓reduceIte, hlive] at h
  split at h
  · cases h
  · rename_i bytes hread
    simp only [Option.some.injEq, Sum.inr.injEq, Prod.mk.injEq] at h
    obtain ⟨rfl, rfl⟩ := h
    refine ⟨rfl, rfl, rfl, bytes, hread, ?_, ?_, ?_⟩
    · simp [World.setVar]
    · simp [World.setVar]
    · simp only [World.setVar, Function.update_same, inStackFrame]

theorem dematerializeFreezeDry_skip (w1 : World) (v mem : Nat) (data : List Nat)
    (top bottom : Nat) (w2 : World) (mem1 : Nat)
    (hfd : (w1.heap v).m_flags.EVNeedsFreezeDry = false)
    (hkeep : (w1.heap v).m_flags.EVKeepInTarget = false)
    (h : dematerializeFreezeDry w1 v mem data top bottom = some (Sum.inr (w2, mem1))) :
    w2 = w1 ∧ mem1 = mem := by
  simp only [dematerializeFreezeDry, hfd, hkeep, Bool.or_self, Bool.false_eq_true, ↓reduceIte,
    Option.some.injEq, Sum.inr.injEq, Prod.mk.injEq] at h
  exact ⟨h.1.symm, h.2.symm⟩

theorem dematerializeRelease_spec (w2 : World) (v mem : Nat) (err : Error) :
    ((dematerializeRelease w2 v mem err).2.1.heap v).m_value_bytes = (w2.heap v).m_value_bytes ∧
    ((dematerializeRelease w2 v mem err).2.1.heap v).m_name = (w2.heap v).m_name ∧
    ((dematerializeRelease w2 v mem err).2.1.heap v).m_flags.EVIsLLDBAllocated
      = (w2.heap v).m_flags.EVIsLLDBAllocated ∧
    ((dematerializeRelease w2 v mem err).2.1.heap v).m_flags.EVNeedsAllocation
      = (w2.heap v).m_flags.EVNeedsAllocation ∧
    ((dematerializeRelease w2 v mem err).2.1.heap v).m_flags.EVIsProgramReference
      = (w2.heap v).m_flags.EVIsProgramReference := by
  simp only [dematerializeRelease]
  repeat' split
  all_goals simp [World.setVar]

/-- Counterexample to C8 as stated: `$1` of `overwrittenSlot` needs allocation, is not to be
freeze-dried and has its spare buffer at 2052 (its live object), but its struct slot at 1016
now holds 4660.  Its dematerialization, alone or within `Dematerialize`, returns `true` and
deallocates 4660; the spare buffer at 2052 is not deallocated. -/
theorem dematerialize_releases_counterexample :
    (overwrittenSlot.heap 1).m_flags
      = { EVIsLLDBAllocated := true, EVNeedsAllocation := true } ∧
    (overwrittenSlot.heap 1).m_live_sp = some { address := 2052, isLoadAddress := true } ∧
    overwrittenSlot.m_keep_result_in_memory = false ∧
    overwrittenSlot.process.ReadPointerFromMemory 1016 = 4660 ∧
    overwrittenSlot.process.trace
      = [Call.allocate 24 1004, Call.allocate 4 2048, Call.allocate 4 2052] ∧
    DoMaterializeOnePersistentVariable true overwrittenSlot (some 1) 1016 LLDB_INVALID_ADDRESS
        LLDB_INVALID_ADDRESS none
      = some (true, afterPersistentVariable true overwrittenSlot 1 1016 LLDB_INVALID_ADDRESS
          LLDB_INVALID_ADDRESS none, none) ∧
    (afterPersistentVariable true overwrittenSlot 1 1016 LLDB_INVALID_ADDRESS
        LLDB_INVALID_ADDRESS none).process.trace
      = [Call.allocate 24 1004, Call.allocate 4 2048, Call.allocate 4 2052,
         Call.deallocate 4660] ∧
    (afterDematerialize {} overwrittenSlot LLDB_INVALID_ADDRESS
        LLDB_INVALID_ADDRESS).process.trace
      = [Call.allocate 24 1004, Call.allocate 4 2048, Call.allocate 4 2052,
         Call.deallocate 2048, Call.deallocate 4660] :=
  ⟨by decide, by decide, by decide, by decide, by decide, rfl, by decide, by decide⟩

/-- C8 as amended: when the dematerialization of a persistent variable reaches the release
step with `EVNeedsAllocation` set and `EVKeepInTarget` clear, it returns; with
`keep_result_in_memory` the variable gains `EVKeepInTarget` and no call is made on the
debuggee, and without it exactly one deallocate call is made, for the address `mem1`: the
address of the live object when the variable was freeze-dried in this call, the address
read from its struct slot otherwise.  That address is the address of the live object of the
variable (its spare buffer) when the variable was freeze-dried in this call or the slot
still holds the address of the live object. -/
theorem dematerialize_releases (w : World) (v addr top bottom : Nat) (err : Error)
    (data : List Nat) (w1 : World) (mem : Nat) (w2 : World) (mem1 : Nat)
    (hdata : (w.heap v).m_value_bytes = some data)
    (hlocate : dematerializeLocate w v addr = Sum.inr (w1, mem))
    (hfreeze : dematerializeFreezeDry w1 v mem data top bottom = some (Sum.inr (w2, mem1)))
    (hneeds : (w2.heap v).m_flags.EVNeedsAllocation = true)
    (hkeep : (w2.heap v).m_flags.EVKeepInTarget = false) :
    ∃ b w' err',
      DoMaterializeOnePersistentVariable true w (some v) addr top bottom err
        = some (b, w', err') ∧
      mem1 = (if (w.heap v).m_flags.EVNeedsFreezeDry then spareAddress w v addr
              else w.process.ReadPointerFromMemory addr) ∧
      (∀ live, (w.heap v).m_live_sp = some live →
        (w.heap v).m_flags.EVNeedsFreezeDry = true ∨
          w.process.ReadPointerFromMemory addr = live.address →
        mem1 = live.address) ∧
      (w.m_keep_result_in_memory = true →
        b = true ∧ (w'.heap v).m_flags.EVKeepInTarget = true ∧ w'.process = w.process) ∧
      (w.m_keep_result_in_memory = false →
        (w'.heap v).m_flags.EVKeepInTarget = false ∧
        w'.process.trace = w.process.trace ++ [Call.deallocate mem1]) := by
  obtain ⟨hmem, -, -, hw1, hlive⟩ := dematerializeLocate_spec w v addr w1 mem hlocate
  have hheap : (w1.heap v).m_flags = (w.heap v).m_flags ∧ w1.process = w.process ∧
      w1.m_keep_result_in_memory = w.m_keep_result_in_memory := by
    rw [hw1]; simp [World.setVar]
  have hstep : w2.process = w.process ∧
      w2.m_keep_result_in_memory = w.m_keep_result_in_memory ∧
      mem1 = (if (w.heap v).m_flags.EVNeedsFreezeDry then spareAddress w v addr
              else w.process.ReadPointerFromMemory addr) := by
    cases hfd : (w.heap v).m_flags.EVNeedsFreezeDry with
    | true =>
      obtain ⟨hm, hp, hk, -⟩ :=
        dematerializeFreezeDry_run w1 v mem data top bottom w2 mem1 _ hlive
          (Or.inl (by rw [hheap.1]; exact hfd)) hfreeze
      exact ⟨hp.trans hheap.2.1, hk.trans hheap.2.2, by simp [hm]⟩
    | false =>
      cases hk1 : (w.heap v).m_flags.EVKeepInTarget with
      | true =>
        obtain ⟨-, -, -, bytes, -, -, -, hflags2⟩ :=
          dematerializeFreezeDry_run w1 v mem data top bottom w2 mem1 _ hlive
            (Or.inr (by rw [hheap.1]; exact hk1)) hfreeze
        rw [hflags2, hheap.1] at hkeep
        split at hkeep <;> simp [hk1] at hkeep
      | false =>
        obtain ⟨rfl, rfl⟩ :=
          dematerializeFreezeDry_skip w1 v mem data top bottom w2 mem1
            (by rw [hheap.1]; exact hfd) (by rw [hheap.1]; exact hk1) hfreeze
        exact ⟨hheap.2.1, hheap.2.2, by simp [hmem]⟩
  obtain ⟨hproc, hkeepflag, hmem1⟩ := hstep
  refine ⟨(dematerializeRelease w2 v mem1 err).1, (dematerializeRelease w2 v mem1 err).2.1,
    (dematerializeRelease w2 v mem1 err).2.2, ?_, hmem1, ?_, ?_, ?_⟩
  · simp [DoMaterializeOnePersistentVariable, hdata, hlocate, hfreeze]
  · intro live hlive0 hcase
    rw [hmem1]
    cases hfd : (w.heap v).m_flags.EVNeedsFreezeDry with
    | true => simp [spareAddress, hlive0]
    | false =>
      rcases hcase with h1 | h1
      · rw [hfd] at h1; cases h1
      · simpa using h1
  · intro hk
    rw [← hkeepflag] at hk
    simp [dematerializeRelease, hneeds, hkeep, hk, World.setVar, hproc]
  · intro hk
    rw [← hkeepflag] at hk
    simp only [dematerializeRelease, hneeds, hkeep, hk, Bool.not_false, Bool.and_self,
      ↓reduceIte, Bool.false_eq_true]
    split <;> simp [hkeep, hproc]

/-- Witness of C8: the result variable of `resultComputed` needs allocation and is not kept
in the target; without `keep_result_in_memory` its spare buffer at 2048 is deallocated. -/
theorem dematerialize_releases_witness :
    ∃ b w' err',
      DoMaterializeOnePersistentVariable true resultComputed (some 0) 1008 LLDB_INVALID_ADDRESS
        LLDB_INVALID_ADDRESS none = some (b, w', err') ∧
      2048 = (if (resultComputed.heap 0).m_flags.EVNeedsFreezeDry then
                spareAddress resultComputed 0 1008
              else resultComputed.process.ReadPointerFromMemory 1008) ∧
      (∀ live, (resultComputed.heap 0).m_live_sp = some live →
        (resultComputed.heap 0).m_flags.EVNeedsFreezeDry = true ∨
          resultComputed.process.ReadPointerFromMemory 1008 = live.address →
        2048 = live.address) ∧
      (resultComputed.m_keep_result_in_memory = true →
        b = true ∧ (w'.heap 0).m_flags.EVKeepInTarget = true ∧
        w'.process = resultComputed.process) ∧
      (resultComputed.m_keep_result_in_memory = false →
        (w'.heap 0).m_flags.EVKeepInTarget = false ∧
        w'.process.trace = resultComputed.process.trace ++ [Call.deallocate 2048]) :=
  dematerialize_releases resultComputed 0 1008 LLDB_INVALID_ADDRESS LLDB_INVALID_ADDRESS none
    [1, 2, 3, 4] _ 2048 _ 2048 rfl rfl rfl rfl rfl

theorem isResultMember_extends (w w1 : World) (name : String) (h : Extends w w1) :
    isResultMember w1 name = isResultMember w name := by
  obtain ⟨hp, hf, -, -, -, -, -, hstatic, -⟩ := h
  funext m
  have hname : (w1.heap m).m_name = (w.heap m).m_name := by
    have := congrArg ClangExpressionVariable.m_name (hstatic m)
    simpa [staticPart] using this
  simp [isResultMember, hp, hf, hname]

theorem lastResultMember_cons_skip (w : World) (name : String) (m : Nat)
    (rest : List (Option Nat)) (h : isResultMember w name m = false) :
    lastResultMember w name (some m :: rest) = lastResultMember w name rest := by
  simp [lastResultMember, List.filter_cons, h]

theorem lastResultMember_cons_take (w : World) (name : String) (m : Nat)
    (rest : List (Option Nat)) (h : isResultMember w name m = true) :
    lastResultMember w name (some m :: rest)
      = (match lastResultMember w name rest with
         | some x => some x
         | none => some m) := by
  have hcons : List.filter (isResultMember w name) (List.filterMap id (some m :: rest))
      = m :: List.filter (isResultMember w name) (List.filterMap id rest) := by
    simp [h]
  unfold lastResultMember
  rw [hcons]
  cases hrest : List.filter (isResultMember w name) (List.filterMap id rest) with
  | nil => rfl
  | cons x xs =>
    rw [List.getLast?_cons_cons, List.getLast?_eq_getLast _ (List.cons_ne_nil x xs)]

theorem materializeMembers_result (d : Bool) (exe_ctx : ExecutionContext) (location : Nat)
    (result_name : String) (top bottom : Nat) (ms : List (Option Nat)) :
    ∀ (w : World) (err : Error) (result_sp : Option Nat) (w' : World) (err' : Error)
      (result_sp' : Option Nat),
      materializeMembers d exe_ctx location result_name top bottom true ms w err result_sp
        = some (true, w', err', result_sp') →
      result_sp' = (match lastResultMember w result_name ms with
                    | some m => some m
                    | none => result_sp) := by
  induction ms with
  | nil =>
    intro w err result_sp w' err' result_sp' h
    simp only [materializeMembers] at h
    cases h
    simp [lastResultMember]
  | cons m rest ih =>
    intro w err result_sp w' err' result_sp' h
    cases m with
    | none => simp [materializeMembers] at h
    | some member_sp =>
      simp only [materializeMembers] at h
      split at h
      · rename_i hfound
        have hskip : isResultMember w result_name member_sp = false := by
          simp [isResultMember, hfound]
        rw [lastResultMember_cons_skip _ _ _ _ hskip]
        split at h
        · split at h
          · cases h
          · split at h
            · cases h
            · rename_i j hj
              have h1 := DoMaterializeOneRegister_extends d w (by assumption)
                (location + j.m_offset) err
              split at h
              · cases h
              · rename_i w1 err1 hR
                rw [hR] at h1
                rw [ih _ _ _ _ _ _ h, lastResultMember, isResultMember_extends _ _ _ h1]
                rfl
        · split at h
          · cases h
          · split at h
            · cases h
            · cases h
            · rename_i w1 err1 hV
              have h1 := DoMaterializeOneVariable_extends _ _ _ _ _ _ _ _ _ hV
              rw [ih _ _ _ _ _ _ h, lastResultMember, isResultMember_extends _ _ _ h1]
              rfl
      · rename_i hfound
        split at h
        · rename_i hpers
          split at h
          · cases h
          · split at h
            · cases h
            · cases h
            · rename_i w1 err1 hP
              have h1 := DoMaterializeOnePersistentVariable_extends _ _ _ _ _ _ _ _ _ _ hP
              have hrec := ih _ _ _ _ _ _ h
              rw [lastResultMember, isResultMember_extends _ _ _ h1] at hrec
              change result_sp' = (match lastResultMember w result_name rest with
                | some m => some m
                | none => _) at hrec
              simp only [Bool.and_eq_true, decide_eq_true_eq] at hpers
              by_cases hname : (w.heap member_sp).m_name = result_name
              · have htake : isResultMember w result_name member_sp = true := by
                  have hsigil := hpers.1
                  rw [hname] at hsigil
                  simp [isResultMember, hfound, hsigil, hpers.2, hname]
                rw [lastResultMember_cons_take _ _ _ _ htake, hrec]
                cases lastResultMember w result_name rest <;> simp [hname]
              · have hskip : isResultMember w result_name member_sp = false := by
                  simp [isResultMember, hname]
                rw [lastResultMember_cons_skip _ _ _ _ hskip, hrec]
                cases lastResultMember w result_name rest <;> simp [hname]
        · cases h

theorem materializeMembers_result_sound (d : Bool) (exe_ctx : ExecutionContext)
    (location : Nat) (result_name : String) (top bottom : Nat) (ptr : Bool)
    (ms : List (Option Nat)) :
    ∀ (w : World) (err : Error) (result_sp : Option Nat) (b : Bool) (w' : World) (err' : Error)
      (result_sp' : Option Nat),
      materializeMembers d exe_ctx location result_name top bottom ptr ms w err result_sp
        = some (b, w', err', result_sp') →
      result_sp' = result_sp ∨
        ∃ m, some m ∈ ms ∧ isResultMember w result_name m = true ∧ result_sp' = some m := by
  induction ms with
  | nil =>
    intro w err result_sp b w' err' result_sp' h
    simp only [materializeMembers] at h
    cases h
    exact Or.inl rfl
  | cons m rest ih =>
    intro w err result_sp b w' err' result_sp' h
    have lift : ∀ (w1 : World) (r : Option Nat), Extends w w1 →
        (result_sp' = r ∨
          ∃ m', some m' ∈ rest ∧ isResultMember w1 result_name m' = true ∧ result_sp' = some m') →
        (result_sp' = r ∨
          ∃ m', some m' ∈ m :: rest ∧ isResultMember w result_name m' = true ∧
            result_sp' = some m') := by
      intro w1 r hext hrec
      rcases hrec with hrec | ⟨m', hmem, hres, heq⟩
      · exact Or.inl hrec
      · rw [isResultMember_extends _ _ _ hext] at hres
        exact Or.inr ⟨m', List.mem_cons_of_mem _ hmem, hres, heq⟩
    cases m with
    | none => simp [materializeMembers] at h
    | some member_sp =>
      simp only [materializeMembers] at h
      split at h
      · split at h
        · split at h
          · cases h; exact Or.inl rfl
          · split at h
            · cases h
            · rename_i j hj
              have h1 := DoMaterializeOneRegister_extends d w (by assumption)
                (location + j.m_offset) err
              split at h
              · cases h; exact Or.inl rfl
              · rename_i w1 err1 hR
                rw [hR] at h1
                exact lift w1 _ h1 (ih _ _ _ _ _ _ _ h)
        · split at h
          · cases h; exact Or.inl rfl
          · split at h
            · cases h
            · cases h; exact Or.inl rfl
            · rename_i w1 err1 hV
              exact lift w1 _ (DoMaterializeOneVariable_extends _ _ _ _ _ _ _ _ _ hV)
                (ih _ _ _ _ _ _ _ h)
      · rename_i hfound
        split at h
        · rename_i hpers
          simp only [Bool.and_eq_true, decide_eq_true_eq] at hpers
          have hfirst : ∀ r : Option Nat,
              r = (if (w.heap member_sp).m_name = result_name ∧ ptr = true then some member_sp
                   else result_sp) →
              (r = result_sp ∨ ∃ m', some m' ∈ some member_sp :: rest ∧
                isResultMember w result_name m' = true ∧ r = some m') := by
            intro r hr
            by_cases hname : (w.heap member_sp).m_name = result_name ∧ ptr = true
            · right
              refine ⟨member_sp, List.mem_cons_self _ _, ?_, by simp [hr, hname]⟩
              have hsigil := hpers.1
              rw [hname.1] at hsigil
              simp [isResultMember, hfound, hsigil, hpers.2, hname.1]
            · left
              simp [hr, hname]
          split at h
          · cases h
          · split at h
            · cases h
            · cases h; exact hfirst _ rfl
            · rename_i w1 err1 hP
              have h1 := DoMaterializeOnePersistentVariable_extends _ _ _ _ _ _ _ _ _ _ hP
              rcases lift w1 _ h1 (ih _ _ _ _ _ _ _ h) with hrec | hrec
              · exact hfirst _ hrec
              · exact Or.inr hrec
        · cases h; exact Or.inl rfl

/-- C9 as amended: whatever `Dematerialize` returns, a result variable it hands back is a
struct member that is not a found entity, is a `$`-named persistent variable and bears the
result name; and when it returns `true` on a laid-out struct of non-zero size with a
non-null frame, the result variable is the last such member, and is empty when there is
none. -/
theorem Dematerialize_result (exe_ctx : ExecutionContext) (w : World) (sv : StructVars)
    (result_sp : Option Nat) (top bottom : Nat) (err : Error) (b : Bool) (w' : World)
    (err' : Error) (result_sp' : Option Nat)
    (hsv : w.m_struct_vars = some sv)
    (hrun : Dematerialize exe_ctx w result_sp top bottom err = some (b, w', err', result_sp')) :
    (∀ m, result_sp' = some m →
      some m ∈ w.m_struct_members ∧ isResultMember w sv.m_result_name m = true) ∧
    (b = true → sv.m_struct_laid_out = true → exe_ctx.frame = true → sv.m_struct_size ≠ 0 →
      result_sp' = lastResultMember w sv.m_result_name w.m_struct_members) := by
  simp only [Dematerialize, DoMaterialize, hsv] at hrun
  split at hrun
  · cases hrun
    refine ⟨fun m hm => ?_, fun _ hl => ?_⟩
    · cases hm
    · simp_all
  · split at hrun
    · cases hrun
      refine ⟨fun m hm => ?_, fun _ _ hf => ?_⟩
      · cases hm
      · simp_all
    · split at hrun
      · cases hrun
      · rename_i mv hmv
        split at hrun
        · cases hrun
          refine ⟨fun m hm => ?_, fun _ _ _ hs => ?_⟩
          · cases hm
          · simp_all
        · simp only [Bool.not_true, Bool.false_eq_true, ↓reduceIte, Option.isSome_some] at hrun
          split at hrun
          · cases hrun
          · constructor
            · intro m hm
              rcases materializeMembers_result_sound _ _ _ _ _ _ _ _ _ _ _ _ _ _ _ hrun with h | h
              · rw [hm] at h; cases h
              · obtain ⟨m', hmem, hres, heq⟩ := h
                rw [hm] at heq
                cases heq
                exact ⟨hmem, hres⟩
            · intro hb _ _ _
              subst hb
              have h := materializeMembers_result _ _ _ _ _ _ _ _ _ _ _ _ _ hrun
              rw [h]
              change (match lastResultMember w sv.m_result_name w.m_struct_members with
                | some m => some m
                | none => none) = _
              cases lastResultMember w sv.m_result_name w.m_struct_members <;> rfl

/-- Witness of C9 as amended: `Dematerialize` on `resultComputed` hands back the result
variable, member 0. -/
theorem Dematerialize_result_witness :
    Dematerialize {} resultComputed none LLDB_INVALID_ADDRESS LLDB_INVALID_ADDRESS none
      = some (true, afterDematerialize {} resultComputed LLDB_INVALID_ADDRESS
          LLDB_INVALID_ADDRESS, none, some 0) ∧
    ((∀ m, some 0 = some m →
      some m ∈ resultComputed.m_struct_members ∧
        isResultMember resultComputed "$result" m = true) ∧
    (true = true → true = true → ({} : ExecutionContext).frame = true → 8 ≠ 0 →
      some 0 = lastResultMember resultComputed "$result" resultComputed.m_struct_members)) :=
  ⟨rfl, Dematerialize_result {} resultComputed
    { m_struct_alignment := 8, m_struct_size := 8, m_struct_laid_out := true,
      m_result_name := "$result" } none LLDB_INVALID_ADDRESS LLDB_INVALID_ADDRESS none true
    (afterDematerialize {} resultComputed LLDB_INVALID_ADDRESS LLDB_INVALID_ADDRESS) none
    (some 0) rfl rfl⟩

/-- Counterexample to C9 as stated.  The struct of `emptySlotWorld` is laid out with size 0
and holds the result variable as its member; `Dematerialize` returns `true` through the
branch for a struct of size 0 and hands back no result variable. -/
theorem Dematerialize_result_counterexample :
    GetStructInfo emptySlotWorld = some (some (1, 0, 1)) ∧
    lastResultMember emptySlotWorld "$result" emptySlotWorld.m_struct_members = some 0 ∧
    Dematerialize {} emptySlotWorld none LLDB_INVALID_ADDRESS LLDB_INVALID_ADDRESS none
      = some (true, afterDematerialize {} emptySlotWorld LLDB_INVALID_ADDRESS
          LLDB_INVALID_ADDRESS, none, none) :=
  ⟨by decide, by decide, rfl⟩

/-- C10: releasing the transfer buffer is idempotent.  `DidDematerialize` makes at most one
deallocate call, for the buffer held; a second `DidDematerialize` changes nothing, and so
two calls in a row make at most one deallocate call; the destructor run after a
`DidDematerialize` makes no call on the debuggee and only drops the struct record. -/
theorem DidDematerialize_idempotent (w : World) :
    (DidDematerialize w).process.trace = w.process.trace ++ releasedBuffer w ∧
    (releasedBuffer w).length ≤ 1 ∧
    DidDematerialize (DidDematerialize w) = DidDematerialize w ∧
    (DidDematerialize (DidDematerialize w)).process.trace
      = w.process.trace ++ releasedBuffer w ∧
    destroy (DidDematerialize w) = { DidDematerialize w with m_struct_vars := none } := by
  have hsecond : DidDematerialize (DidDematerialize w) = DidDematerialize w := by
    cases hmv : w.m_material_vars <;> simp [DidDematerialize, hmv]
  have htrace : (DidDematerialize w).process.trace = w.process.trace ++ releasedBuffer w := by
    cases hmv : w.m_material_vars with
    | none => simp [DidDematerialize, releasedBuffer, hmv]
    | some mv =>
      by_cases hloc : mv.m_materialized_location = 0 <;>
        simp [DidDematerialize, releasedBuffer, hmv, hloc]
  refine ⟨htrace, ?_, hsecond, by rw [hsecond]; exact htrace, ?_⟩
  · unfold releasedBuffer
    split
    · split <;> simp
    · simp
  · simp only [destroy, hsecond]

@[simp] theorem WriteRegister_memory (p : Process) (reg : RegisterInfo) (value : List Nat) :
    (p.WriteRegister reg value).2.memory = p.memory ∧
    (p.WriteRegister reg value).2.byteOrder = p.byteOrder ∧
    (p.WriteRegister reg value).2.addressByteSize = p.addressByteSize := by
  unfold Process.WriteRegister; split <;> exact ⟨rfl, rfl, rfl⟩

@[simp] theorem DeallocateMemory_memory (p : Process) (addr : Nat) :
    (p.DeallocateMemory addr).2.memory = p.memory ∧
    (p.DeallocateMemory addr).2.byteOrder = p.byteOrder ∧
    (p.DeallocateMemory addr).2.addressByteSize = p.addressByteSize := by
  unfold Process.DeallocateMemory; split <;> exact ⟨rfl, rfl, rfl⟩

theorem dematerializesOnly_refl (u : Nat) (w : World) : DematerializesOnly u w w :=
  ⟨rfl, rfl, rfl, fun _ _ => rfl⟩

theorem DoMaterializeOneRegister_dematerializes (u : Nat) (w : World) (reg : RegisterInfo)
    (addr : Nat) (err : Error) :
    DematerializesOnly u w (DoMaterializeOneRegister true w reg addr err).2.1 := by
  simp only [DoMaterializeOneRegister, ↓reduceIte]
  repeat' split
  all_goals exact ⟨by simp, by simp, by simp, fun _ _ => rfl⟩

theorem dematerializeRegisterValue_dematerializes (w : World) (v : Nat) (reg : RegisterInfo)
    (n : Nat) : DematerializesOnly v w (dematerializeRegisterValue w v reg n).2.1 := by
  simp only [dematerializeRegisterValue]
  repeat' split
  all_goals
    refine ⟨by simp [World.setVar], by simp [World.setVar], by simp [World.setVar],
      fun id hid => ?_⟩
    first | rfl | simp [World.setVar, Function.update, hid]

theorem materializeScalarValue_dematerializes (exe_ctx : ExecutionContext) (w : World)
    (v addr : Nat) (loc : Value) (n : Nat) (r : Bool × World × Error)
    (h : materializeScalarValue true exe_ctx w v addr loc n = r) :
    DematerializesOnly v w r.2.1 := by
  subst h
  simp only [materializeScalarValue, ↓reduceIte]
  repeat' split
  all_goals first
    | exact dematerializesOnly_refl v w
    | exact dematerializeRegisterValue_dematerializes _ _ _ _

theorem DoMaterializeOneVariable_dematerializes (exe_ctx : ExecutionContext) (w : World)
    (v addr : Nat) (err : Error) (b : Bool) (w' : World) (err' : Error)
    (h : DoMaterializeOneVariable true exe_ctx w v addr err = some (b, w', err')) :
    DematerializesOnly v w w' := by
  simp only [DoMaterializeOneVariable, Bool.not_true, Bool.false_eq_true, ↓reduceIte] at h
  repeat' split at h
  all_goals first
    | (simp only [Option.some.injEq] at h
       first
         | exact materializeScalarValue_dematerializes _ _ _ _ _ _ _ h
         | (cases h; exact dematerializesOnly_refl v w))
    | cases h

theorem dematerializesOnly_trans {u : Nat} {w1 w2 w3 : World}
    (h12 : DematerializesOnly u w1 w2) (h23 : DematerializesOnly u w2 w3) :
    DematerializesOnly u w1 w3 :=
  ⟨h23.1.trans h12.1, h23.2.1.trans h12.2.1, h23.2.2.1.trans h12.2.2.1,
    fun id hid => (h23.2.2.2 id hid).trans (h12.2.2.2 id hid)⟩

theorem dematerializeLocate_dematerializes (w : World) (v addr : Nat) (w1 : World) (mem : Nat)
    (h : dematerializeLocate w v addr = Sum.inr (w1, mem)) : DematerializesOnly v w w1 := by
  obtain ⟨-, -, -, hw1, -⟩ := dematerializeLocate_spec w v addr w1 mem h
  rw [hw1]
  exact ⟨rfl, rfl, rfl, fun id hid => by simp [World.setVar, Function.update, hid]⟩

theorem dematerializeFreezeDry_dematerializes (w : World) (v mem : Nat) (data : List Nat)
    (top bottom : Nat) (w' : World) (mem' : Nat)
    (h : dematerializeFreezeDry w v mem data top bottom = some (Sum.inr (w', mem'))) :
    DematerializesOnly v w w' := by
  simp only [dematerializeFreezeDry] at h
  repeat' split at h
  all_goals
    cases h <;>
      (refine ⟨rfl, rfl, rfl, fun id hid => ?_⟩
       first | rfl | simp [World.setVar, Function.update, hid])

theorem dematerializeRelease_dematerializes (w : World) (v mem : Nat) (err : Error)
    (r : Bool × World × Error) (h : dematerializeRelease w v mem err = r) :
    DematerializesOnly v w r.2.1 := by
  subst h
  simp only [dematerializeRelease]
  repeat' split
  all_goals
    refine ⟨by simp [World.setVar], by simp [World.setVar], by simp [World.setVar],
      fun id hid => ?_⟩
    first | rfl | simp [World.setVar, Function.update, hid]

theorem DoMaterializeOnePersistentVariable_dematerializes (w : World) (v addr top bottom : Nat)
    (err : Error) (b : Bool) (w' : World) (err' : Error)
    (h : DoMaterializeOnePersistentVariable true w (some v) addr top bottom err
      = some (b, w', err')) : DematerializesOnly v w w' := by
  simp only [DoMaterializeOnePersistentVariable, ↓reduceIte] at h
  split at h
  · cases h; exact dematerializesOnly_refl v w
  · split at h
    · cases h; exact dematerializesOnly_refl v w
    · rename_i w1 mem hL
      have h1 := dematerializeLocate_dematerializes _ _ _ _ _ hL
      split at h
      · cases h
      · cases h; exact h1
      · rename_i w2 mem1 hF
        have h2 := dematerializeFreezeDry_dematerializes _ _ _ _ _ _ _ _ hF
        simp only [Option.some.injEq] at h
        exact dematerializesOnly_trans (dematerializesOnly_trans h1 h2) (dematerializeRelease_dematerializes _ _ _ _ _ h)

theorem materializeMembers_dematerializes (exe_ctx : ExecutionContext) (location : Nat)
    (result_name : String) (top bottom : Nat) (ptr : Bool) (ms : List (Option Nat)) :
    ∀ (w : World) (err : Error) (result_sp : Option Nat) (b : Bool) (w' : World) (err' : Error)
      (result_sp' : Option Nat),
      materializeMembers true exe_ctx location result_name top bottom ptr ms w err result_sp
        = some (b, w', err', result_sp') →
      w'.process.memory = w.process.memory ∧ w'.process.byteOrder = w.process.byteOrder ∧
      w'.process.addressByteSize = w.process.addressByteSize ∧
      ∀ id, some id ∉ ms → w'.heap id = w.heap id := by
  induction ms with
  | nil =>
    intro w err result_sp b w' err' result_sp' h
    simp only [materializeMembers] at h
    cases h
    exact ⟨rfl, rfl, rfl, fun _ _ => rfl⟩
  | cons m rest ih =>
    intro w err result_sp b w' err' result_sp' h
    have stop : ∀ w1 : World, DematerializesOnly (m.getD 0) w w1 → m.isSome →
        w1.process.memory = w.process.memory ∧ w1.process.byteOrder = w.process.byteOrder ∧
        w1.process.addressByteSize = w.process.addressByteSize ∧
        ∀ id, some id ∉ m :: rest → w1.heap id = w.heap id := by
      intro w1 h1 hm
      refine ⟨h1.1, h1.2.1, h1.2.2.1, fun id hid => h1.2.2.2 id ?_⟩
      rintro rfl
      cases m with
      | none => cases hm
      | some u => exact hid (List.mem_cons_self _ _)
    have step : ∀ w1 : World, DematerializesOnly (m.getD 0) w w1 → m.isSome →
        (w'.process.memory = w1.process.memory ∧ w'.process.byteOrder = w1.process.byteOrder ∧
          w'.process.addressByteSize = w1.process.addressByteSize ∧
          ∀ id, some id ∉ rest → w'.heap id = w1.heap id) →
        w'.process.memory = w.process.memory ∧ w'.process.byteOrder = w.process.byteOrder ∧
        w'.process.addressByteSize = w.process.addressByteSize ∧
        ∀ id, some id ∉ m :: rest → w'.heap id = w.heap id := by
      intro w1 h1 hm hrec
      obtain ⟨a1, a2, a3, a4⟩ := stop w1 h1 hm
      refine ⟨hrec.1.trans a1, hrec.2.1.trans a2, hrec.2.2.1.trans a3, fun id hid => ?_⟩
      rw [hrec.2.2.2 id (fun hmem => hid (List.mem_cons_of_mem _ hmem)), a4 id hid]
    cases m with
    | none => simp [materializeMembers] at h
    | some member_sp =>
      simp only [materializeMembers] at h
      split at h
      · split at h
        · split at h
          · cases h; exact stop w (dematerializesOnly_refl _ w) rfl
          · split at h
            · cases h
            · rename_i j hj
              have h1 := DoMaterializeOneRegister_dematerializes member_sp w (by assumption)
                (location + j.m_offset) err
              split at h
              · rename_i w1 err1 hR
                rw [hR] at h1
                cases h
                exact stop _ h1 rfl
              · rename_i w1 err1 hR
                rw [hR] at h1
                exact step w1 h1 rfl (ih _ _ _ _ _ _ _ h)
        · split at h
          · cases h; exact stop w (dematerializesOnly_refl _ w) rfl
          · split at h
            · cases h
            · rename_i w1 err1 hV
              cases h
              exact stop _ (DoMaterializeOneVariable_dematerializes _ _ _ _ _ _ _ _ hV) rfl
            · rename_i w1 err1 hV
              exact step w1 (DoMaterializeOneVariable_dematerializes _ _ _ _ _ _ _ _ hV) rfl
                (ih _ _ _ _ _ _ _ h)
      · split at h
        · split at h
          · cases h
          · split at h
            · cases h
            · rename_i w1 err1 hP
              cases h
              exact stop _
                (DoMaterializeOnePersistentVariable_dematerializes _ _ _ _ _ _ _ _ _ hP) rfl
            · rename_i w1 err1 hP
              exact step w1
                (DoMaterializeOnePersistentVariable_dematerializes _ _ _ _ _ _ _ _ _ hP) rfl
                (ih _ _ _ _ _ _ _ h)
        · cases h; exact stop w (dematerializesOnly_refl _ w) rfl

/-- C15: on a struct that has not been laid out, `Materialize` and `Dematerialize` set the
error `Structure hasn't been laid out yet` and nevertheless return `true`: the early exit of
`DoMaterialize` returns `LLDB_INVALID_ADDRESS` from a function whose result is a `bool`.  The
claim that they return `false` there does not hold of the code. -/
theorem not_laid_out_reports_success (exe_ctx : ExecutionContext) (w : World) (sv : StructVars)
    (struct_address : Nat) (err : Error) (result_sp : Option Nat) (top bottom : Nat)
    (hsv : w.m_struct_vars = some sv) (hfresh : sv.m_struct_laid_out = false) :
    GetStructInfo w = some none ∧
    (∃ w' address, Materialize exe_ctx w struct_address err
      = some (true, w', some "Structure hasn't been laid out yet", address) ∧
      w'.process = w.process) ∧
    Dematerialize exe_ctx w result_sp top bottom err
      = some (true, w, some "Structure hasn't been laid out yet", none) := by
  refine ⟨?_, ?_, ?_⟩
  · simp [GetStructInfo, hsv, hfresh]
  · cases hmv : w.m_material_vars <;>
      simp [Materialize, DoMaterialize, hsv, hfresh, hmv, LLDB_INVALID_ADDRESS]
  · simp [Dematerialize, DoMaterialize, hsv, hfresh, LLDB_INVALID_ADDRESS]

/-- Witness of C15: the struct of `twoMembers`, whose two members were added and never laid
out; `Materialize` returns `true` and hands out the struct address 0. -/
theorem not_laid_out_reports_success_witness :
    Materialize {} twoMembers 7 none
      = some (true, afterMaterialize {} twoMembers, some "Structure hasn't been laid out yet", 0) ∧
    (GetStructInfo twoMembers = some none ∧
    (∃ w' address, Materialize {} twoMembers 7 none
      = some (true, w', some "Structure hasn't been laid out yet", address) ∧
      w'.process = twoMembers.process) ∧
    Dematerialize {} twoMembers none LLDB_INVALID_ADDRESS LLDB_INVALID_ADDRESS none
      = some (true, twoMembers, some "Structure hasn't been laid out yet", none)) :=
  ⟨rfl, not_laid_out_reports_success {} twoMembers {} 7 none none LLDB_INVALID_ADDRESS
    LLDB_INVALID_ADDRESS rfl rfl⟩

theorem layOutMembers_cons_some (w : World) (sv : StructVars) (v : Nat) (j : JITVars)
    (rest : List (Option Nat)) (idx c : Nat) (hj : (w.heap v).m_jit_vars = some j)
    (ha : j.m_alignment ≠ 0) :
    ∃ off c1, layOutMembers w sv (some v :: rest) idx c
      = layOutMembers
          (w.setVar v { w.heap v with m_jit_vars := some { j with m_offset := off } })
          (if idx = 0 then { sv with m_struct_alignment := j.m_alignment } else sv)
          rest (idx + 1) c1 :=
  ⟨if (asOffT c).tmod (asOffT j.m_alignment) ≠ 0 then
      toWord (asOffT c + (asOffT j.m_alignment - (asOffT c).tmod (asOffT j.m_alignment)))
    else c,
    ((if (asOffT c).tmod (asOffT j.m_alignment) ≠ 0 then
      toWord (asOffT c + (asOffT j.m_alignment - (asOffT c).tmod (asOffT j.m_alignment)))
    else c) + j.m_size) % 2 ^ 64,
    by simp only [layOutMembers, hj, ha, if_false]⟩

theorem layOutMembers_fails (ms : List (Option Nat)) :
    ∀ (w : World) (sv : StructVars) (idx c : Nat),
      (∀ v j, some v ∈ ms → (w.heap v).m_jit_vars = some j → j.m_alignment ≠ 0) →
      (∃ m ∈ ms, lacksLayoutData w m) →
      ∃ w' sv' c', layOutMembers w sv ms idx c = some (false, w', sv', c') ∧
        sv'.m_struct_laid_out = sv.m_struct_laid_out := by
  induction ms with
  | nil => intro w sv idx c _ ⟨m, hm, _⟩; cases hm
  | cons m rest ih =>
    intro w sv idx c halign hbad
    cases m with
    | none => exact ⟨w, sv, c, by simp [layOutMembers], rfl⟩
    | some v =>
      cases hj : (w.heap v).m_jit_vars with
      | none => exact ⟨w, sv, c, by simp [layOutMembers, hj], rfl⟩
      | some j =>
        have hne : j.m_alignment ≠ 0 := halign v j (List.mem_cons_self _ _) hj
        obtain ⟨off, c1, hstep⟩ := layOutMembers_cons_some w sv v j rest idx c hj hne
        rw [hstep]
        have key : ∀ u,
            ((w.setVar v { w.heap v with m_jit_vars := some { j with m_offset := off } }).heap
              u).m_jit_vars
            = if u = v then some { j with m_offset := off } else (w.heap u).m_jit_vars := by
          intro u
          by_cases huv : u = v
          · subst huv; simp [World.setVar]
          · simp [World.setVar, huv]
        obtain ⟨w', sv', c', hrun, hlaid⟩ := ih
          (w.setVar v { w.heap v with m_jit_vars := some { j with m_offset := off } })
          (if idx = 0 then { sv with m_struct_alignment := j.m_alignment } else sv) (idx + 1) c1
          (by
            intro u ju hu hju
            rw [key u] at hju
            by_cases huv : u = v
            · subst huv; simp at hju; subst hju; exact hne
            · simp [huv] at hju
              exact halign u ju (List.mem_cons_of_mem _ hu) hju)
          (by
            obtain ⟨m, hm, hlack⟩ := hbad
            rcases List.mem_cons.1 hm with rfl | hm'
            · simp [lacksLayoutData, hj] at hlack
            · refine ⟨m, hm', ?_⟩
              cases m with
              | none => trivial
              | some u =>
                simp only [lacksLayoutData] at hlack ⊢
                rw [key u]
                by_cases huv : u = v
                · subst huv; rw [hj] at hlack; cases hlack
                · simp [huv, hlack])
        refine ⟨w', sv', c', hrun, ?_⟩
        rw [hlaid]; split <;> rfl

/-- C17: when the struct is not laid out yet and some struct member is a null entry or has
no size and alignment recorded (no JIT data), `DoStructLayout` returns `false`, the struct
stays not laid out and `GetStructInfo` fails.  The alignments that are recorded are non-zero,
so that the remainders the layout computes are defined. -/
theorem DoStructLayout_fails_without_metadata (w : World) (sv : StructVars)
    (hsv : w.m_struct_vars = some sv) (hfresh : sv.m_struct_laid_out = false)
    (halign : ∀ v j, some v ∈ w.m_struct_members → (w.heap v).m_jit_vars = some j →
      j.m_alignment ≠ 0)
    (hbad : ∃ m ∈ w.m_struct_members, lacksLayoutData w m) :
    ∃ w', DoStructLayout w = some (false, w') ∧
      (∃ sv', w'.m_struct_vars = some sv' ∧ sv'.m_struct_laid_out = false) ∧
      GetStructInfo w' = some none := by
  obtain ⟨w1, sv1, c1, hrun, hlaid⟩ := layOutMembers_fails w.m_struct_members w
    { sv with m_struct_alignment := 0, m_struct_size := 0 } 0 0 halign hbad
  refine ⟨{ w1 with m_struct_vars := some sv1 }, ?_, ⟨sv1, rfl, ?_⟩, ?_⟩
  · rw [hfresh] at hrun
    simp only [DoStructLayout, hsv, hfresh]
    simp [hrun]
  · rw [hlaid]; exact hfresh
  · have : sv1.m_struct_laid_out = false := by rw [hlaid]; exact hfresh
    simp [GetStructInfo, this]

/-- Witness of C17: the second member of `missingMetadata` has no JIT data. -/
theorem DoStructLayout_fails_without_metadata_witness :
    DoStructLayout missingMetadata = some (false, afterLayout missingMetadata) ∧
    ∃ w', DoStructLayout missingMetadata = some (false, w') ∧
      (∃ sv', w'.m_struct_vars = some sv' ∧ sv'.m_struct_laid_out = false) ∧
      GetStructInfo w' = some none :=
  ⟨rfl, DoStructLayout_fails_without_metadata missingMetadata {} rfl rfl
    (fun v j hv hj => by
      have hv' : v = 0 ∨ v = 2 := by simpa [missingMetadata] using hv
      rcases hv' with rfl | rfl
      · have : j = { m_alignment := 4, m_size := 4 } := by
          have h0 : (missingMetadata.heap 0).m_jit_vars = some { m_alignment := 4, m_size := 4 } := rfl
          rw [h0] at hj; exact (Option.some.inj hj).symm
        subst this; decide
      · have h2 : (missingMetadata.heap 2).m_jit_vars = none := rfl
        rw [h2] at hj; cases hj)
    ⟨some 2, by decide, rfl⟩⟩

theorem GetVariableByDecl_parser_vars (heap : Nat → ClangExpressionVariable) (decl : Nat)
    (vars : List Nat) (v : Nat) (h : GetVariableByDecl heap decl vars = some v) :
    ∃ pv, (heap v).m_parser_vars = some pv ∧ pv.m_named_decl = decl ∧ v ∈ vars := by
  induction vars with
  | nil => simp [GetVariableByDecl] at h
  | cons u us ih =>
    simp only [GetVariableByDecl] at h
    split at h
    · rename_i pv hpv
      split at h
      · cases h; exact ⟨pv, hpv, by assumption, List.mem_cons_self _ _⟩
      · obtain ⟨pv', h1, h2, h3⟩ := ih h
        exact ⟨pv', h1, h2, List.mem_cons_of_mem _ h3⟩
    · obtain ⟨pv', h1, h2, h3⟩ := ih h
      exact ⟨pv', h1, h2, List.mem_cons_of_mem _ h3⟩

theorem DoStructLayout_laid_out (w w' : World) (h : DoStructLayout w = some (true, w')) :
    ∃ sv', w'.m_struct_vars = some sv' ∧ sv'.m_struct_laid_out = true := by
  simp only [DoStructLayout] at h
  split at h
  · cases h
  · rename_i sv hsv
    split at h
    · rename_i hlaid
      cases h; exact ⟨sv, hsv, hlaid⟩
    · split at h
      · cases h
      · cases h
      · cases h; exact ⟨_, rfl, rfl⟩

theorem AddValueToStruct_invalidates (w : World) (sv : StructVars) (decl value size alignment : Nat)
    (hsv : w.m_struct_vars = some sv) (hparse : w.m_parser_vars = true) :
    ∃ b w', AddValueToStruct w decl value size alignment = some (b, w') ∧
      GetStructInfo w' = some none := by
  simp only [AddValueToStruct, hsv, hparse, Bool.not_true, Bool.false_eq_true, if_false]
  split
  · exact ⟨_, _, rfl, by simp [GetStructInfo]⟩
  · split
    · exact ⟨_, _, rfl, by simp [GetStructInfo]⟩
    · rename_i v hv
      have hfound : ∃ pv, (w.heap v).m_parser_vars = some pv := by
        split at hv
        · rename_i u hu
          cases hv
          obtain ⟨pv, h1, -, -⟩ := GetVariableByDecl_parser_vars _ _ _ _ hu
          exact ⟨pv, h1⟩
        · obtain ⟨pv, h1, -, -⟩ := GetVariableByDecl_parser_vars _ _ _ _ hv
          exact ⟨pv, h1⟩
      obtain ⟨pv, hpv⟩ := hfound
      simp only [hpv]
      exact ⟨_, _, rfl, by simp [GetStructInfo, World.setVar]⟩

theorem DoStructLayout_parser_vars (w w' : World) (b : Bool)
    (h : DoStructLayout w = some (b, w')) : w'.m_parser_vars = w.m_parser_vars := by
  simp only [DoStructLayout] at h
  split at h
  · cases h
  · split at h
    · cases h; rfl
    · split at h
      · cases h
      · rename_i hl
        obtain ⟨⟨heap', rfl⟩, -, -⟩ := layOutMembers_frame _ _ _ _ _ _ _ _ _ hl
        cases h; rfl
      · rename_i hl
        obtain ⟨⟨heap', rfl⟩, -, -⟩ := layOutMembers_frame _ _ _ _ _ _ _ _ _ hl
        cases h; rfl

/-- C18: the layout is cached until a member is added.  After a successful `DoStructLayout`
a further `DoStructLayout` returns `true` and leaves the whole decl map as it is, so every
member offset, the struct size and the struct alignment are unchanged; every
`AddValueToStruct` after it (made during the parse, the parser record being enabled) returns
and leaves a struct for which `GetStructInfo` fails, and `GetStructInfo` succeeds again once
`DoStructLayout` has run successfully. -/
theorem layout_is_cached (w w' : World) (hparse : w.m_parser_vars = true)
    (hrun : DoStructLayout w = some (true, w')) :
    DoStructLayout w' = some (true, w') ∧
    (∀ decl value size alignment, ∃ b w'',
      AddValueToStruct w' decl value size alignment = some (b, w'') ∧
      GetStructInfo w'' = some none ∧
      ∀ w3, DoStructLayout w'' = some (true, w3) → ∃ info, GetStructInfo w3 = some (some info)) := by
  obtain ⟨sv', hsv', hlaid⟩ := DoStructLayout_laid_out w w' hrun
  have hparse' : w'.m_parser_vars = true := by
    rw [DoStructLayout_parser_vars w w' true hrun]; exact hparse
  refine ⟨by simp [DoStructLayout, hsv', hlaid], ?_⟩
  intro decl value size alignment
  obtain ⟨b, w'', hadd, hinfo⟩ :=
    AddValueToStruct_invalidates w' sv' decl value size alignment hsv' hparse'
  refine ⟨b, w'', hadd, hinfo, ?_⟩
  intro w3 h3
  obtain ⟨sv3, hsv3, hlaid3⟩ := DoStructLayout_laid_out w'' w3 h3
  exact ⟨(w3.m_struct_members.length, sv3.m_struct_size, sv3.m_struct_alignment),
    by simp [GetStructInfo, hsv3, hlaid3]⟩

/-- Witness of C18: the laid-out struct of `twoMembers`, during the parse. -/
theorem layout_is_cached_witness :
    DoStructLayout (afterLayout twoMembersParsing)
      = some (true, afterLayout twoMembersParsing) ∧
    (∀ decl value size alignment, ∃ b w'',
      AddValueToStruct (afterLayout twoMembersParsing) decl value size alignment
        = some (b, w'') ∧
      GetStructInfo w'' = some none ∧
      ∀ w3, DoStructLayout w'' = some (true, w3) → ∃ info, GetStructInfo w3 = some (some info)) :=
  layout_is_cached twoMembersParsing (afterLayout twoMembersParsing) rfl rfl

/-- C19: `GetStructInfo` and `GetStructElement` fail when the struct is not laid out.  Once
it is laid out, `GetStructInfo` returns the number of members with the computed size and
alignment, and `GetStructElement` fails for every index that is not below the member count;
for an index below it, it returns the declaration, the LLVM value, the offset computed by the
layout and the name of the member at that position when the member still has its parser data
and its JIT data, and fails for a null member and for a member without one of the two. -/
theorem struct_queries (w : World) (sv : StructVars) (hsv : w.m_struct_vars = some sv) :
    (sv.m_struct_laid_out = false →
      GetStructInfo w = some none ∧ ∀ index, GetStructElement w index = some none) ∧
    (sv.m_struct_laid_out = true →
      GetStructInfo w
        = some (some (w.m_struct_members.length, sv.m_struct_size, sv.m_struct_alignment)) ∧
      (∀ index, w.m_struct_members.length ≤ index → GetStructElement w index = some none) ∧
      (∀ index v pv j, w.m_struct_members.get? index = some (some v) →
        (w.heap v).m_parser_vars = some pv → (w.heap v).m_jit_vars = some j →
        GetStructElement w index
          = some (some (pv.m_named_decl, pv.m_llvm_value, j.m_offset, (w.heap v).m_name))) ∧
      (∀ index, w.m_struct_members.get? index = some none → GetStructElement w index = some none) ∧
      (∀ index v, w.m_struct_members.get? index = some (some v) →
        (w.heap v).m_parser_vars = none ∨ (w.heap v).m_jit_vars = none →
        GetStructElement w index = some none)) := by
  constructor
  · intro h
    exact ⟨by simp [GetStructInfo, hsv, h], fun index => by simp [GetStructElement, hsv, h]⟩
  · intro h
    have hlt : ∀ index m, w.m_struct_members.get? index = some m →
        ¬ (index ≥ w.m_struct_members.length) := by
      intro index m hget hcon
      rw [List.get?_eq_none.2 hcon] at hget
      cases hget
    refine ⟨by simp [GetStructInfo, hsv, h], ?_, ?_, ?_, ?_⟩
    · intro index hle
      simp [GetStructElement, hsv, h, hle]
    · intro index v pv j hget hpv hj
      simp only [GetStructElement, hsv, h, hget, hpv, hj, if_neg (hlt _ _ hget)]
      rfl
    · intro index hget
      simp only [GetStructElement, hsv, h, hget, if_neg (hlt _ _ hget)]
      rfl
    · intro index v hget hlack
      simp only [GetStructElement, hsv, h, hget, if_neg (hlt _ _ hget)]
      rcases hlack with hl | hl
      · simp [hl]
      · rw [hl]; cases (w.heap v).m_parser_vars <;> simp

/-- Witness of C19: the laid-out struct of `twoMembers`, whose second member is at offset 8. -/
theorem struct_queries_witness :
    GetStructElement (afterLayout twoMembers) 1 = some (some (2, 0, 8, "b")) ∧
    GetStructElement (afterLayout twoMembers) 2 = some none ∧
    ((true = false →
      GetStructInfo (afterLayout twoMembers) = some none ∧
      ∀ index, GetStructElement (afterLayout twoMembers) index = some none) ∧
    (true = true →
      GetStructInfo (afterLayout twoMembers)
        = some (some ((afterLayout twoMembers).m_struct_members.length, 16, 4)) ∧
      (∀ index, (afterLayout twoMembers).m_struct_members.length ≤ index →
        GetStructElement (afterLayout twoMembers) index = some none) ∧
      (∀ index v pv j, (afterLayout twoMembers).m_struct_members.get? index = some (some v) →
        ((afterLayout twoMembers).heap v).m_parser_vars = some pv →
        ((afterLayout twoMembers).heap v).m_jit_vars = some j →
        GetStructElement (afterLayout twoMembers) index
          = some (some (pv.m_named_decl, pv.m_llvm_value, j.m_offset,
              ((afterLayout twoMembers).heap v).m_name))) ∧
      (∀ index, (afterLayout twoMembers).m_struct_members.get? index = some none →
        GetStructElement (afterLayout twoMembers) index = some none) ∧
      (∀ index v, (afterLayout twoMembers).m_struct_members.get? index = some (some v) →
        ((afterLayout twoMembers).heap v).m_parser_vars = none ∨
          ((afterLayout twoMembers).heap v).m_jit_vars = none →
        GetStructElement (afterLayout twoMembers) index = some none))) :=
  ⟨by decide, by decide,
    struct_queries (afterLayout twoMembers)
      { m_struct_alignment := 4, m_struct_size := 16, m_struct_laid_out := true } rfl⟩

/-- Counterexample to C19 as stated: after `DidParse` the struct of `twoMembers` is still laid
out with two members, and `GetStructElement` fails for the indices 0 and 1, which are below
the member count: the members have lost their parser data. -/
theorem struct_queries_counterexample :
    GetStructInfo twoMembersParsed = some (some (2, 16, 4)) ∧
    twoMembersParsed.m_struct_members.length = 2 ∧
    GetStructElement twoMembersParsed 0 = some none ∧
    GetStructElement twoMembersParsed 1 = some none :=
  ⟨by decide, by decide, by decide, by decide⟩

theorem materializeMembers_cons (d : Bool) (exe_ctx : ExecutionContext) (location : Nat)
    (result_name : String) (top bottom : Nat) (ptr : Bool) (u : Nat) (rest : List (Option Nat))
    (w : World) (err : Error) (result_sp : Option Nat) :
    materializeMembers d exe_ctx location result_name top bottom ptr (some u :: rest) w err
      result_sp
    = (match materializeMember d exe_ctx location result_name top bottom ptr u w err result_sp with
       | none => none
       | some (false, w1, err1, result_sp1) => some (false, w1, err1, result_sp1)
       | some (true, w1, err1, result_sp1) =>
         materializeMembers d exe_ctx location result_name top bottom ptr rest w1 err1
           result_sp1) := by
  simp only [materializeMembers, materializeMember]
  repeat' split
  all_goals first
    | rfl
    | (simp_all; done)
    | (simp_all
       rename_i h
       obtain ⟨rfl, rfl, rfl⟩ := h
       rfl)
  

theorem materializeMembers_append (d : Bool) (exe_ctx : ExecutionContext) (location : Nat)
    (result_name : String) (top bottom : Nat) (ptr : Bool) (pre post : List (Option Nat)) :
    ∀ (w : World) (err : Error) (result_sp : Option Nat),
      materializeMembers d exe_ctx location result_name top bottom ptr (pre ++ post) w err
        result_sp
      = (match materializeMembers d exe_ctx location result_name top bottom ptr pre w err
            result_sp with
         | some (true, w1, err1, result_sp1) =>
           materializeMembers d exe_ctx location result_name top bottom ptr post w1 err1
             result_sp1
         | other => other) := by
  induction pre with
  | nil => intro w err result_sp; simp [materializeMembers]
  | cons m pre ih =>
    intro w err result_sp
    cases m with
    | none => simp [materializeMembers]
    | some u =>
      rw [List.cons_append, materializeMembers_cons, materializeMembers_cons]
      cases hstep : materializeMember d exe_ctx location result_name top bottom ptr u w err
          result_sp with
      | none => rfl
      | some r =>
        obtain ⟨b, w1, err1, result_sp1⟩ := r
        cases b with
        | false => rfl
        | true => exact ih w1 err1 result_sp1

theorem materializeMembers_invariant (R : World → World → Prop) (hrefl : ∀ w, R w w)
    (htrans : ∀ a b c, R a b → R b c → R a c) (d : Bool) (exe_ctx : ExecutionContext)
    (location : Nat) (result_name : String) (top bottom : Nat) (ptr : Bool)
    (hstep : ∀ u w err result_sp b w1 err1 result_sp1,
      materializeMember d exe_ctx location result_name top bottom ptr u w err result_sp
        = some (b, w1, err1, result_sp1) → R w w1)
    (ms : List (Option Nat)) :
    ∀ (w : World) (err : Error) (result_sp : Option Nat) (b : Bool) (w' : World) (err' : Error)
      (result_sp' : Option Nat),
      materializeMembers d exe_ctx location result_name top bottom ptr ms w err result_sp
        = some (b, w', err', result_sp') → R w w' := by
  induction ms with
  | nil =>
    intro w err result_sp b w' err' result_sp' h
    simp only [materializeMembers, Option.some.injEq, Prod.mk.injEq] at h
    obtain ⟨-, rfl, -, -⟩ := h
    exact hrefl w
  | cons m rest ih =>
    intro w err result_sp b w' err' result_sp' h
    cases m with
    | none => simp [materializeMembers] at h
    | some u =>
      rw [materializeMembers_cons] at h
      cases hs : materializeMember d exe_ctx location result_name top bottom ptr u w err
          result_sp with
      | none => rw [hs] at h; cases h
      | some r =>
        obtain ⟨b1, w1, err1, result_sp1⟩ := r
        rw [hs] at h
        cases b1 with
        | false =>
          simp only [Option.some.injEq, Prod.mk.injEq] at h
          obtain ⟨-, rfl, -, -⟩ := h
          exact hstep _ _ _ _ _ _ _ _ hs
        | true =>
          exact htrans _ _ _ (hstep _ _ _ _ _ _ _ _ hs) (ih _ _ _ _ _ _ _ h)

theorem materializeMembers_reaches (R : World → World → Prop) (hrefl : ∀ w, R w w)
    (htrans : ∀ a b c, R a b → R b c → R a c) (d : Bool) (exe_ctx : ExecutionContext)
    (location : Nat) (result_name : String) (top bottom : Nat) (ptr : Bool)
    (hstep : ∀ u w err result_sp b w1 err1 result_sp1,
      materializeMember d exe_ctx location result_name top bottom ptr u w err result_sp
        = some (b, w1, err1, result_sp1) → R w w1)
    (v : Nat) (ms : List (Option Nat)) :
    ∀ (w : World) (err : Error) (result_sp : Option Nat) (w' : World) (err' : Error)
      (result_sp' : Option Nat), some v ∈ ms →
      materializeMembers d exe_ctx location result_name top bottom ptr ms w err result_sp
        = some (true, w', err', result_sp') →
      ∃ w0 err0 result_sp0 w1 err1 result_sp1, R w w0 ∧
        materializeMember d exe_ctx location result_name top bottom ptr v w0 err0 result_sp0
          = some (true, w1, err1, result_sp1) ∧ R w1 w' := by
  induction ms with
  | nil => intro _ _ _ _ _ _ hmem; cases hmem
  | cons m rest ih =>
    intro w err result_sp w' err' result_sp' hmem h
    cases m with
    | none => simp [materializeMembers] at h
    | some u =>
      rw [materializeMembers_cons] at h
      cases hs : materializeMember d exe_ctx location result_name top bottom ptr u w err
          result_sp with
      | none => rw [hs] at h; cases h
      | some r =>
        obtain ⟨b1, w1, err1, result_sp1⟩ := r
        rw [hs] at h
        cases b1 with
        | false => simp at h
        | true =>
          simp only at h
          by_cases huv : u = v
          · subst huv
            exact ⟨w, err, result_sp, w1, err1, result_sp1, hrefl w, hs,
              materializeMembers_invariant R hrefl htrans d exe_ctx location result_name top
                bottom ptr hstep rest _ _ _ _ _ _ _ h⟩
          · have hmem' : some v ∈ rest := by
              rcases List.mem_cons.mp hmem with heq | hin
              · exact absurd (Option.some.inj heq).symm huv
              · exact hin
            obtain ⟨w0, err0, r0, w2, err2, r2, h1, h2, h3⟩ := ih _ _ _ _ _ _ hmem' h
            exact ⟨w0, err0, r0, w2, err2, r2,
              htrans _ _ _ (hstep _ _ _ _ _ _ _ _ hs) h1, h2, h3⟩

theorem materializeMember_extends (d : Bool) (exe_ctx : ExecutionContext) (location : Nat)
    (result_name : String) (top bottom : Nat) (ptr : Bool) (u : Nat) (w : World) (err : Error)
    (result_sp : Option Nat) (b : Bool) (w1 : World) (err1 : Error) (result_sp1 : Option Nat)
    (h : materializeMember d exe_ctx location result_name top bottom ptr u w err result_sp
      = some (b, w1, err1, result_sp1)) : Extends w w1 := by
  have hloop : materializeMembers d exe_ctx location result_name top bottom ptr [some u] w err
      result_sp = some (b, w1, err1, result_sp1) := by
    rw [materializeMembers_cons, h]
    cases b <;> simp [materializeMembers]
  exact materializeMembers_extends _ _ _ _ _ _ _ _ _ _ _ _ _ _ _ hloop

theorem staticPart_name (a b : ClangExpressionVariable) (h : staticPart a = staticPart b) :
    a.m_name = b.m_name := by
  have := congrArg ClangExpressionVariable.m_name h
  simpa [staticPart] using this

theorem isUnexpectedMember_extends (w w1 : World) (h : Extends w w1) :
    isUnexpectedMember w1 = isUnexpectedMember w := by
  funext m
  obtain ⟨hp, hf, -, -, -, -, -, hs, -⟩ := h
  simp [isUnexpectedMember, hp, hf, staticPart_name _ _ (hs m)]

theorem materializeMember_unexpected (d : Bool) (exe_ctx : ExecutionContext) (location : Nat)
    (result_name : String) (top bottom : Nat) (ptr : Bool) (u : Nat) (w : World) (err : Error)
    (result_sp : Option Nat) (h : isUnexpectedMember w u = true) :
    materializeMember d exe_ctx location result_name top bottom ptr u w err result_sp
      = some (false, w, some ("Unexpected variable " ++ (w.heap u).m_name), result_sp) := by
  simp only [isUnexpectedMember, Bool.and_eq_true, Bool.not_eq_true', Bool.and_eq_false_iff,
    decide_eq_false_iff_not] at h
  obtain ⟨hf, hp⟩ := h
  simp only [materializeMember, hf, Bool.false_eq_true, ↓reduceIte]
  rcases hp with hp | hp
  · simp [hp]
  · simp [hp]

theorem materializeMembers_unexpected_false (d : Bool) (exe_ctx : ExecutionContext)
    (location : Nat) (result_name : String) (top bottom : Nat) (ptr : Bool) (u : Nat)
    (ms : List (Option Nat)) :
    ∀ (w : World) (err : Error) (result_sp : Option Nat) (b : Bool) (w' : World) (err' : Error)
      (result_sp' : Option Nat), some u ∈ ms → isUnexpectedMember w u = true →
      materializeMembers d exe_ctx location result_name top bottom ptr ms w err result_sp
        = some (b, w', err', result_sp') → b = false := by
  induction ms with
  | nil => intro _ _ _ _ _ _ _ hmem; cases hmem
  | cons m rest ih =>
    intro w err result_sp b w' err' result_sp' hmem hun h
    cases m with
    | none => simp [materializeMembers] at h
    | some x =>
      rw [materializeMembers_cons] at h
      cases hs : materializeMember d exe_ctx location result_name top bottom ptr x w err
          result_sp with
      | none => rw [hs] at h; cases h
      | some r =>
        obtain ⟨b1, w1, err1, result_sp1⟩ := r
        rw [hs] at h
        cases b1 with
        | false =>
          simp only [Option.some.injEq, Prod.mk.injEq] at h
          exact h.1.symm
        | true =>
          simp only at h
          have hext := materializeMember_extends _ _ _ _ _ _ _ _ _ _ _ _ _ _ _ hs
          by_cases hxu : x = u
          · subst hxu
            rw [materializeMember_unexpected _ _ _ _ _ _ _ _ _ _ _ hun] at hs
            simp at hs
          · have hmem' : some u ∈ rest := by
              rcases List.mem_cons.mp hmem with heq | hin
              · exact absurd (Option.some.inj heq).symm hxu
              · exact hin
            exact ih _ _ _ _ _ _ _ hmem' (by rw [isUnexpectedMember_extends _ _ hext]; exact hun) h

theorem allocateStruct_frame (w : World) (sv : StructVars) (mv : MaterialVars) (w1 : World)
    (mv1 : MaterialVars) (e : Error) (h : allocateStruct w sv mv = Sum.inr (w1, mv1, e)) :
    ∃ p, w1 = { w with process := p } := by
  by_cases hloc : mv.m_materialized_location = 0
  · simp only [allocateStruct, hloc, ne_eq, not_true_eq_false, ↓reduceIte] at h
    split at h
    · cases h
    · cases h; exact ⟨_, rfl⟩
  · simp only [allocateStruct, hloc, ne_eq, not_false_eq_true, ↓reduceIte] at h
    split at h
    · cases h
    · cases h; exact ⟨_, rfl⟩

theorem DoMaterialize_members (d : Bool) (exe_ctx : ExecutionContext) (w : World)
    (sv : StructVars) (top bottom : Nat) (ptr : Option (Option Nat)) (err : Error) (b : Bool)
    (w' : World) (err' : Error) (res : Option Nat)
    (hsv : w.m_struct_vars = some sv) (hlaid : sv.m_struct_laid_out = true)
    (hframe : exe_ctx.frame = true) (hsize : sv.m_struct_size ≠ 0)
    (hrun : DoMaterialize d exe_ctx w top bottom ptr err = some (b, w', err', res)) :
    b = false ∨
    ∃ (p : Process) (mv : MaterialVars) (location : Nat) (err1 : Error),
      materializeMembers d exe_ctx location sv.m_result_name top bottom
        ptr.isSome w.m_struct_members
        { w with process := p, m_material_vars := some mv } err1 none
        = some (b, w', err', res) := by
  simp only [DoMaterialize, hsv, hlaid, hframe, hsize, Bool.not_true,
    Bool.false_eq_true, ↓reduceIte] at hrun
  split at hrun
  · cases hrun
  · rename_i mv hmv
    split at hrun
    · simp only [Option.some.injEq, Prod.mk.injEq] at hrun
      exact Or.inl hrun.1.symm
    · rename_i w1 mv1 err1 hal
      split at hrun
      · cases hrun
      · right
        cases d with
        | true =>
          simp only [Bool.not_true, Bool.false_eq_true, ↓reduceIte, Sum.inr.injEq,
            Prod.mk.injEq] at hal
          obtain ⟨rfl, rfl, rfl⟩ := hal
          exact ⟨w.process, _, _, err, hrun⟩
        | false =>
          simp only [Bool.not_false, ↓reduceIte] at hal
          obtain ⟨p, rfl⟩ := allocateStruct_frame _ _ _ _ _ _ hal
          exact ⟨p, _, _, err1, hrun⟩

theorem materializeMembers_unexpected_at (d : Bool) (exe_ctx : ExecutionContext)
    (location : Nat) (result_name : String) (top bottom : Nat) (ptr : Bool)
    (pre rest : List (Option Nat)) (u : Nat) (w : World) (err : Error) (result_sp : Option Nat)
    (w1 : World) (err1 : Error) (result_sp1 : Option Nat)
    (hun : isUnexpectedMember w u = true)
    (hpre : materializeMembers d exe_ctx location result_name top bottom ptr pre w err result_sp
      = some (true, w1, err1, result_sp1)) :
    materializeMembers d exe_ctx location result_name top bottom ptr (pre ++ some u :: rest)
      w err result_sp
      = some (false, w1, some ("Unexpected variable " ++ (w.heap u).m_name), result_sp1) := by
  have hext := materializeMembers_extends _ _ _ _ _ _ _ _ _ _ _ _ _ _ _ hpre
  have hun1 : isUnexpectedMember w1 u = true := by
    rw [isUnexpectedMember_extends _ _ hext]; exact hun
  have hname : (w1.heap u).m_name = (w.heap u).m_name := staticPart_name _ _ (hext.2.2.2.2.2.2.2.1 u)
  rw [materializeMembers_append, hpre]
  simp only
  rw [materializeMembers_cons, materializeMember_unexpected _ _ _ _ _ _ _ _ _ _ _ hun1, hname]

theorem Dematerialize_unexpected (exe_ctx : ExecutionContext) (w : World) (sv : StructVars)
    (mv : MaterialVars) (result_sp : Option Nat) (top bottom : Nat) (err : Error)
    (pre rest : List (Option Nat)) (u : Nat) (w1 : World) (err1 : Error) (r1 : Option Nat)
    (hsv : w.m_struct_vars = some sv) (hlaid : sv.m_struct_laid_out = true)
    (hframe : exe_ctx.frame = true) (hsize : sv.m_struct_size ≠ 0)
    (halign : sv.m_struct_alignment ≠ 0) (hmv : w.m_material_vars = some mv)
    (hms : w.m_struct_members = pre ++ some u :: rest)
    (hun : isUnexpectedMember w u = true)
    (hpre : materializeMembers true exe_ctx
      (alignLocation mv.m_allocated_area sv.m_struct_alignment) sv.m_result_name top bottom
      true pre
      { w with m_material_vars := some { mv with
          m_materialized_location := alignLocation mv.m_allocated_area sv.m_struct_alignment } }
      err none = some (true, w1, err1, r1)) :
    Dematerialize exe_ctx w result_sp top bottom err
      = some (false, w1, some ("Unexpected variable " ++ (w.heap u).m_name), r1) := by
  have h := materializeMembers_unexpected_at true exe_ctx _ sv.m_result_name top bottom true
    pre rest u _ err none w1 err1 r1
    (show isUnexpectedMember { w with m_material_vars := some { mv with
          m_materialized_location := alignLocation mv.m_allocated_area sv.m_struct_alignment } }
        u = true from hun) hpre
  simp only [Dematerialize, DoMaterialize, hsv, hlaid, hframe, hsize, hmv, halign,
    Bool.not_true, Bool.false_eq_true, ↓reduceIte, Option.isSome_some, hms]
  simp only [hms, hsv] at h
  exact h

theorem Materialize_unexpected (exe_ctx : ExecutionContext) (w : World) (sv : StructVars)
    (mv : MaterialVars) (struct_address : Nat) (err : Error) (wa : World) (mv1 : MaterialVars)
    (ea : Error)
    (pre rest : List (Option Nat)) (u : Nat) (w1 : World) (err1 : Error) (r1 : Option Nat)
    (hsv : w.m_struct_vars = some sv) (hlaid : sv.m_struct_laid_out = true)
    (hframe : exe_ctx.frame = true) (hsize : sv.m_struct_size ≠ 0)
    (halign : sv.m_struct_alignment ≠ 0) (hmv : w.m_material_vars = some mv)
    (hms : w.m_struct_members = pre ++ some u :: rest)
    (hun : isUnexpectedMember w u = true)
    (halloc : allocateStruct w sv mv = Sum.inr (wa, mv1, ea))
    (hpre : materializeMembers false exe_ctx
      (alignLocation mv1.m_allocated_area sv.m_struct_alignment) sv.m_result_name
      LLDB_INVALID_ADDRESS LLDB_INVALID_ADDRESS false pre
      { wa with m_material_vars := some { mv1 with
          m_materialized_location := alignLocation mv1.m_allocated_area sv.m_struct_alignment } }
      ea none = some (true, w1, err1, r1)) :
    Materialize exe_ctx w struct_address err
      = some (false, w1, some ("Unexpected variable " ++ (w.heap u).m_name), struct_address) := by
  obtain ⟨p, rfl⟩ := allocateStruct_frame _ _ _ _ _ _ halloc
  have h := materializeMembers_unexpected_at false exe_ctx _ sv.m_result_name
    LLDB_INVALID_ADDRESS LLDB_INVALID_ADDRESS false
    pre rest u _ ea none w1 err1 r1
    (show isUnexpectedMember { ({ w with process := p } : World) with
        m_material_vars := some { mv1 with
          m_materialized_location := alignLocation mv1.m_allocated_area sv.m_struct_alignment } }
        u = true from hun) hpre
  simp only [Materialize, hmv, DoMaterialize, hsv, hlaid, hframe, hsize, halign,
    Bool.not_true, Bool.false_eq_true, ↓reduceIte, Bool.not_false, halloc, Option.isSome_none]
  simp only [hms, hsv] at h ⊢
  rw [h]
  rfl

theorem Materialize_enable (exe_ctx : ExecutionContext) (w : World) (struct_address : Nat)
    (err : Error) :
    Materialize exe_ctx w struct_address err
      = Materialize exe_ctx { w with m_material_vars := some (w.m_material_vars.getD {}) }
          struct_address err := by
  cases hmv : w.m_material_vars with
  | none => simp [Materialize, hmv]
  | some mv =>
    have hw : ({ w with m_material_vars := some ((some mv : Option MaterialVars).getD {}) } : World)
        = w := by
      cases w
      simp only [Option.getD_some] at hmv ⊢
      rw [← hmv]
    rw [hw]

/-- Counterexample to C20 as stated: the struct of `shortOfMemory` is laid out with size 16
and holds the result variable followed by `x`, which is in neither table.  The allocation of
the spare area of the result variable fails, and `Materialize` returns `false` with the
error of that failure: the error is not `Unexpected variable`, the member `x` is never
looked at. -/
theorem unexpected_member_fails_counterexample :
    GetStructInfo shortOfMemory = some (some (2, 16, 8)) ∧
    shortOfMemory.m_struct_members = [some 0, some 1] ∧
    isUnexpectedMember shortOfMemory 1 = true ∧
    Materialize {} shortOfMemory 0 none
      = some (false, afterMaterialize {} shortOfMemory,
          some "Couldn't allocate a memory area to store $result: allocation failed", 0) :=
  ⟨by decide, by decide, by decide, rfl⟩

/-- C20 as amended: a struct member that is neither a found entity nor a `$`-named
persistent variable ends the member loop of `DoMaterialize` with the error
`Unexpected variable` and its name: once the members before it have been processed
successfully, the loop returns `false` with that error in the world those members left,
whatever members follow, so no later member is processed.  Hence `Materialize` and
`Dematerialize` of a laid-out struct of non-zero size with a non-null frame never return
`true` when the struct has such a member (parts two and three), and they return `false` with
that error, in the world the earlier members left, once the transfer buffer is there and
the members before it have been processed successfully (parts four and five). -/
theorem unexpected_member_fails :
    (∀ (d : Bool) (exe_ctx : ExecutionContext) (location : Nat) (result_name : String)
      (top bottom : Nat) (ptr : Bool) (pre rest : List (Option Nat)) (u : Nat) (w : World)
      (err : Error) (result_sp : Option Nat) (w1 : World) (err1 : Error)
      (result_sp1 : Option Nat),
      isUnexpectedMember w u = true →
      materializeMembers d exe_ctx location result_name top bottom ptr pre w err result_sp
        = some (true, w1, err1, result_sp1) →
      materializeMembers d exe_ctx location result_name top bottom ptr (pre ++ some u :: rest)
        w err result_sp
        = some (false, w1, some ("Unexpected variable " ++ (w.heap u).m_name), result_sp1)) ∧
    (∀ (exe_ctx : ExecutionContext) (w : World) (sv : StructVars) (struct_address : Nat)
      (err : Error) (b : Bool) (w' : World) (err' : Error) (address : Nat) (u : Nat),
      w.m_struct_vars = some sv → sv.m_struct_laid_out = true → exe_ctx.frame = true →
      sv.m_struct_size ≠ 0 → some u ∈ w.m_struct_members → isUnexpectedMember w u = true →
      Materialize exe_ctx w struct_address err = some (b, w', err', address) → b = false) ∧
    (∀ (exe_ctx : ExecutionContext) (w : World) (sv : StructVars) (result_sp : Option Nat)
      (top bottom : Nat) (err : Error) (b : Bool) (w' : World) (err' : Error)
      (result_sp' : Option Nat) (u : Nat),
      w.m_struct_vars = some sv → sv.m_struct_laid_out = true → exe_ctx.frame = true →
      sv.m_struct_size ≠ 0 → some u ∈ w.m_struct_members → isUnexpectedMember w u = true →
      Dematerialize exe_ctx w result_sp top bottom err = some (b, w', err', result_sp') →
      b = false) ∧
    (∀ (exe_ctx : ExecutionContext) (w : World) (sv : StructVars) (mv : MaterialVars)
      (struct_address : Nat) (err : Error) (wa : World) (mv1 : MaterialVars) (ea : Error)
      (pre rest : List (Option Nat)) (u : Nat) (w1 : World) (err1 : Error) (r1 : Option Nat),
      w.m_struct_vars = some sv → sv.m_struct_laid_out = true → exe_ctx.frame = true →
      sv.m_struct_size ≠ 0 → sv.m_struct_alignment ≠ 0 → mv = w.m_material_vars.getD {} →
      w.m_struct_members = pre ++ some u :: rest → isUnexpectedMember w u = true →
      allocateStruct { w with m_material_vars := some mv } sv mv = Sum.inr (wa, mv1, ea) →
      materializeMembers false exe_ctx
        (alignLocation mv1.m_allocated_area sv.m_struct_alignment) sv.m_result_name
        LLDB_INVALID_ADDRESS LLDB_INVALID_ADDRESS false pre
        { wa with m_material_vars := some { mv1 with
            m_materialized_location :=
              alignLocation mv1.m_allocated_area sv.m_struct_alignment } }
        ea none = some (true, w1, err1, r1) →
      Materialize exe_ctx w struct_address err
        = some (false, w1, some ("Unexpected variable " ++ (w.heap u).m_name),
            struct_address)) ∧
    (∀ (exe_ctx : ExecutionContext) (w : World) (sv : StructVars) (mv : MaterialVars)
      (result_sp : Option Nat) (top bottom : Nat) (err : Error) (pre rest : List (Option Nat))
      (u : Nat) (w1 : World) (err1 : Error) (r1 : Option Nat),
      w.m_struct_vars = some sv → sv.m_struct_laid_out = true → exe_ctx.frame = true →
      sv.m_struct_size ≠ 0 → sv.m_struct_alignment ≠ 0 → w.m_material_vars = some mv →
      w.m_struct_members = pre ++ some u :: rest → isUnexpectedMember w u = true →
      materializeMembers true exe_ctx
        (alignLocation mv.m_allocated_area sv.m_struct_alignment) sv.m_result_name top bottom
        true pre
        { w with m_material_vars := some { mv with
            m_materialized_location :=
              alignLocation mv.m_allocated_area sv.m_struct_alignment } }
        err none = some (true, w1, err1, r1) →
      Dematerialize exe_ctx w result_sp top bottom err
        = some (false, w1, some ("Unexpected variable " ++ (w.heap u).m_name), r1)) := by
  refine ⟨?_, ?_, ?_, ?_, ?_⟩
  · intro d exe_ctx location result_name top bottom ptr pre rest u w err result_sp w1 err1
      result_sp1 hun hpre
    have hext := materializeMembers_extends _ _ _ _ _ _ _ _ _ _ _ _ _ _ _ hpre
    have hun1 : isUnexpectedMember w1 u = true := by
      rw [isUnexpectedMember_extends _ _ hext]; exact hun
    have hname : (w1.heap u).m_name = (w.heap u).m_name := staticPart_name _ _ (hext.2.2.2.2.2.2.2.1 u)
    rw [materializeMembers_append, hpre]
    simp only
    rw [materializeMembers_cons, materializeMember_unexpected _ _ _ _ _ _ _ _ _ _ _ hun1, hname]
  · intro exe_ctx w sv struct_address err b w' err' address u hsv hlaid hframe hsize hmem hun
      hrun
    simp only [Materialize] at hrun
    split at hrun
    · cases hrun
    · rename_i result w1 err1 res hdo
      cases result with
      | false =>
        simp only [Bool.false_eq_true, ↓reduceIte, Option.some.injEq, Prod.mk.injEq] at hrun
        exact hrun.1.symm
      | true =>
        exfalso
        have key : ∀ w0 : World, w0.m_struct_vars = some sv →
            w0.m_struct_members = w.m_struct_members → isUnexpectedMember w0 u = true →
            DoMaterialize false exe_ctx w0 LLDB_INVALID_ADDRESS LLDB_INVALID_ADDRESS none err
              = some (true, w1, err1, res) → False := by
          intro w0 hsv0 hms0 hun0 hdo0
          rcases DoMaterialize_members _ _ _ _ _ _ _ _ _ _ _ _ hsv0 hlaid hframe hsize hdo0 with
            hb | ⟨p, mv, location, e1, hloop⟩
          · cases hb
          · have := materializeMembers_unexpected_false _ _ _ _ _ _ _ u _ _ _ _ _ _ _ _
              (by rw [hms0]; exact hmem) (by simpa [isUnexpectedMember] using hun0) hloop
            cases this
        cases hmv : w.m_material_vars with
        | none =>
          rw [hmv] at hdo
          exact key { w with m_material_vars := some {} } hsv rfl
            (by simpa [isUnexpectedMember] using hun) hdo
        | some mv =>
          rw [hmv] at hdo
          exact key w hsv rfl hun hdo
  · intro exe_ctx w sv result_sp top bottom err b w' err' result_sp' u hsv hlaid hframe hsize
      hmem hun hrun
    rcases DoMaterialize_members _ _ _ _ _ _ _ _ _ _ _ _ hsv hlaid hframe hsize hrun with
      hb | ⟨p, mv, location, e1, hloop⟩
    · exact hb
    · exact materializeMembers_unexpected_false _ _ _ _ _ _ _ u _ _ _ _ _ _ _ _
        hmem (by simpa [isUnexpectedMember] using hun) hloop
  · intro exe_ctx w sv mv struct_address err wa mv1 ea pre rest u w1 err1 r1 hsv hlaid hframe
      hsize halign hmv hms hun halloc hpre
    rw [Materialize_enable, ← hmv]
    exact Materialize_unexpected exe_ctx { w with m_material_vars := some mv } sv mv
      struct_address err wa mv1 ea pre rest u w1 err1 r1 hsv hlaid hframe hsize halign rfl hms
      hun halloc hpre
  · intro exe_ctx w sv mv result_sp top bottom err pre rest u w1 err1 r1 hsv hlaid hframe
      hsize halign hmv hms hun hpre
    exact Dematerialize_unexpected exe_ctx w sv mv result_sp top bottom err pre rest u w1 err1
      r1 hsv hlaid hframe hsize halign hmv hms hun hpre

/-- Witness of C20: the struct of `strayWorld`, whose member `x` is in neither table. -/
theorem unexpected_member_fails_witness :
    Materialize {} strayWorld 0 none
      = some (false, afterMaterialize {} strayWorld, some "Unexpected variable x", 0) ∧
    Dematerialize {} (afterMaterialize {} strayWorld) none LLDB_INVALID_ADDRESS
        LLDB_INVALID_ADDRESS none
      = some (false, afterMaterialize {} strayWorld, some "Unexpected variable x", none) ∧
    materializeMembers true {} 1008 "" LLDB_INVALID_ADDRESS LLDB_INVALID_ADDRESS true
        ([] ++ some 0 :: [some 1]) strayWorld none none
      = some (false, strayWorld, some ("Unexpected variable " ++ (strayWorld.heap 0).m_name),
          none) :=
  ⟨rfl, rfl, unexpected_member_fails.1 true {} 1008 "" LLDB_INVALID_ADDRESS LLDB_INVALID_ADDRESS
    true [] [some 1] 0 strayWorld none none strayWorld none none (by decide) rfl⟩

/-- C11: two calls of `Dematerialize` in a row, with no `Materialize` in between, on the
materialized struct of `resultComputed` (one persistent variable whose spare allocation is at
2048, transfer buffer allocated at 1004).  Both calls return `true`, neither deallocates the
transfer buffer, and each of them deallocates the spare allocation: the address 2048 is
deallocated twice.  The claim that no address is deallocated twice does not hold of the
code. -/
theorem Dematerialize_twice_frees_twice :
    resultComputed.process.trace = [Call.allocate 16 1004, Call.allocate 4 2048] ∧
    Dematerialize {} resultComputed none LLDB_INVALID_ADDRESS LLDB_INVALID_ADDRESS none
      = some (true, dematerializedOnce, none, some 0) ∧
    dematerializedOnce.process.trace
      = [Call.allocate 16 1004, Call.allocate 4 2048, Call.deallocate 2048] ∧
    (dematerializedOnce.heap 0).m_flags
      = { EVIsLLDBAllocated := true, EVNeedsAllocation := true } ∧
    (dematerializedOnce.heap 0).m_live_sp = some { address := 2048 } ∧
    Dematerialize {} dematerializedOnce none LLDB_INVALID_ADDRESS LLDB_INVALID_ADDRESS none
      = some (true, dematerializedTwice, none, some 0) ∧
    dematerializedTwice.process.trace
      = [Call.allocate 16 1004, Call.allocate 4 2048, Call.deallocate 2048,
         Call.deallocate 2048] :=
  ⟨by decide, rfl, by decide, by decide, by decide, rfl, by decide⟩

@[simp] theorem deallocated_append (s t : List Call) :
    deallocated (s ++ t) = deallocated s ++ deallocated t := by
  induction s with
  | nil => rfl
  | cons c s ih => cases c <;> simp [deallocated, ih]

@[simp] theorem deallocated_allocate (size a : Nat) :
    deallocated [Call.allocate size a] = [] := rfl

@[simp] theorem deallocated_deallocate (a : Nat) :
    deallocated [Call.deallocate a] = [a] := rfl

@[simp] theorem WriteMemory_registers (p : Process) (addr : Nat) (bytes : List Nat) :
    (p.WriteMemory addr bytes).2.registers = p.registers := by
  unfold Process.WriteMemory; split <;> rfl

@[simp] theorem WriteMemory_registerWritable (p : Process) (addr : Nat) (bytes : List Nat) :
    (p.WriteMemory addr bytes).2.registerWritable = p.registerWritable := by
  unfold Process.WriteMemory; split <;> rfl

@[simp] theorem WriteScalarToMemory_registers (p : Process) (addr scalar size : Nat) :
    (p.WriteScalarToMemory addr scalar size).2.registers = p.registers := by
  unfold Process.WriteScalarToMemory; split <;> simp

@[simp] theorem WriteScalarToMemory_registerWritable (p : Process) (addr scalar size : Nat) :
    (p.WriteScalarToMemory addr scalar size).2.registerWritable = p.registerWritable := by
  unfold Process.WriteScalarToMemory; split <;> simp

@[simp] theorem WriteRegisterValueToMemory_registers (p : Process) (reg : RegisterInfo)
    (addr len : Nat) (value : List Nat) :
    (p.WriteRegisterValueToMemory reg addr len value).2.registers = p.registers := by
  unfold Process.WriteRegisterValueToMemory; simp only []; split <;> simp

@[simp] theorem WriteRegisterValueToMemory_registerWritable (p : Process) (reg : RegisterInfo)
    (addr len : Nat) (value : List Nat) :
    (p.WriteRegisterValueToMemory reg addr len value).2.registerWritable = p.registerWritable := by
  unfold Process.WriteRegisterValueToMemory; simp only []; split <;> simp

@[simp] theorem AllocateMemory_registers (p : Process) (size : Nat) :
    (p.AllocateMemory size).2.2.registers = p.registers := by
  unfold Process.AllocateMemory; split <;> rfl

@[simp] theorem AllocateMemory_registerWritable (p : Process) (size : Nat) :
    (p.AllocateMemory size).2.2.registerWritable = p.registerWritable := by
  unfold Process.AllocateMemory; split <;> rfl

theorem materializesOnly_refl (w : World) : MaterializesOnly w w :=
  ⟨rfl, rfl, rfl, fun _ => rfl⟩

theorem materializesOnly_trans (a b c : World) (h1 : MaterializesOnly a b)
    (h2 : MaterializesOnly b c) : MaterializesOnly a c :=
  ⟨h2.1.trans h1.1, h2.2.1.trans h1.2.1, h2.2.2.1.trans h1.2.2.1,
    fun id => (h2.2.2.2 id).trans (h1.2.2.2 id)⟩

theorem hostPart_update (heap : Nat → ClangExpressionVariable) (v id : Nat)
    (x : ClangExpressionVariable) (h : hostPart x = hostPart (heap v)) :
    hostPart (Function.update heap v x id) = hostPart (heap id) := by
  by_cases hid : id = v
  · subst hid; simpa using h
  · simp [Function.update_noteq hid]

theorem materializesOnly_mk (w : World) (heap' : Nat → ClangExpressionVariable) (p : Process)
    (hreg : p.registers = w.process.registers)
    (hwr : p.registerWritable = w.process.registerWritable)
    (htrace : deallocated p.trace = deallocated w.process.trace)
    (hheap : ∀ id, hostPart (heap' id) = hostPart (w.heap id)) :
    MaterializesOnly w { w with heap := heap', process := p } :=
  ⟨hreg, hwr, htrace, hheap⟩

theorem DoMaterializeOneRegister_materializes (w : World) (reg : RegisterInfo)
    (addr : Nat) (err : Error) :
    MaterializesOnly w (DoMaterializeOneRegister false w reg addr err).2.1 := by
  simp only [DoMaterializeOneRegister, Bool.false_eq_true, ↓reduceIte]
  repeat' split
  all_goals
    refine materializesOnly_mk w _ _ ?_ ?_ ?_ (fun id => rfl) <;> simp

theorem materializeRegisterValue_materializes (w : World) (v addr : Nat) (reg : RegisterInfo)
    (n : Nat) : MaterializesOnly w (materializeRegisterValue w v addr reg n).2.1 := by
  simp only [materializeRegisterValue]
  repeat' split
  all_goals
    refine materializesOnly_mk w _ _ ?_ ?_ ?_ (fun id => ?_)
    · simp [World.setVar]
    · simp [World.setVar]
    · simp [World.setVar]
    · first | rfl | exact hostPart_update _ _ _ _ rfl

theorem materializeScalarValue_materializes (exe_ctx : ExecutionContext) (w : World)
    (v addr : Nat) (loc : Value) (n : Nat) (r : Bool × World × Error)
    (h : materializeScalarValue false exe_ctx w v addr loc n = r) :
    MaterializesOnly w r.2.1 := by
  subst h
  simp only [materializeScalarValue, Bool.false_eq_true, ↓reduceIte]
  repeat' split
  all_goals first
    | exact materializesOnly_refl _
    | exact materializeRegisterValue_materializes _ _ _ _ _

theorem DoMaterializeOneVariable_materializes (exe_ctx : ExecutionContext) (w : World)
    (v addr : Nat) (err : Error) (b : Bool) (w' : World) (err' : Error)
    (h : DoMaterializeOneVariable false exe_ctx w v addr err = some (b, w', err')) :
    MaterializesOnly w w' := by
  simp only [DoMaterializeOneVariable] at h
  repeat' split at h
  all_goals first
    | (simp only [Option.some.injEq] at h
       first
         | exact materializeScalarValue_materializes _ _ _ _ _ _ _ h
         | (cases h
            refine materializesOnly_mk w _ _ ?_ ?_ ?_ (fun id => rfl) <;> simp))
    | cases h


theorem materializeAllocate_materializes_inl (w : World) (v : Nat) (data : List Nat)
    (w1 : World) (e : Error) (h : materializeAllocate w v data = Sum.inl (w1, e)) :
    MaterializesOnly w w1 := by
  simp only [materializeAllocate] at h
  repeat' split at h
  all_goals
    cases h <;>
      (refine materializesOnly_mk w _ _ ?_ ?_ ?_ (fun id => ?_)
       · simp [World.setVar]
       · simp [World.setVar]
       · simp [World.setVar]
       · first
           | rfl
           | exact hostPart_update _ _ _ _ rfl)

theorem materializeAllocate_materializes_inr (w : World) (v : Nat) (data : List Nat)
    (w1 : World) (h : materializeAllocate w v data = Sum.inr w1) : MaterializesOnly w w1 := by
  simp only [materializeAllocate] at h
  repeat' split at h
  all_goals
    cases h <;>
      (refine materializesOnly_mk w _ _ ?_ ?_ ?_ (fun id => ?_)
       · simp [World.setVar]
       · simp [World.setVar]
       · simp [World.setVar]
       · first
           | rfl
           | exact hostPart_update _ _ _ _ rfl)

theorem materializePersistent_materializes (w : World) (v addr : Nat) (data : List Nat)
    (err : Error) (b : Bool) (w' : World) (err' : Error)
    (h : materializePersistent w v addr data err = some (b, w', err')) :
    MaterializesOnly w w' := by
  simp only [materializePersistent] at h
  split at h
  · rename_i w1 e hA
    cases h
    exact materializeAllocate_materializes_inl _ _ _ _ _ hA
  · rename_i w1 hA
    have h1 := materializeAllocate_materializes_inr _ _ _ _ hA
    repeat' split at h
    all_goals
      cases h <;>
        exact materializesOnly_trans _ _ _ h1
          (materializesOnly_mk _ _ _ (by simp) (by simp) (by simp) (fun id => rfl))

theorem DoMaterializeOnePersistentVariable_materializes (w : World) (var_sp : Option Nat)
    (addr top bottom : Nat) (err : Error) (b : Bool) (w' : World) (err' : Error)
    (h : DoMaterializeOnePersistentVariable false w var_sp addr top bottom err
      = some (b, w', err')) : MaterializesOnly w w' := by
  simp only [DoMaterializeOnePersistentVariable, Bool.false_eq_true, ↓reduceIte] at h
  split at h
  · cases h; exact materializesOnly_refl w
  · split at h
    · cases h; exact materializesOnly_refl w
    · exact materializePersistent_materializes _ _ _ _ _ _ _ _ h

theorem materializeMember_materializes (exe_ctx : ExecutionContext) (location : Nat)
    (result_name : String) (top bottom : Nat) (ptr : Bool) (u : Nat) (w : World) (err : Error)
    (result_sp : Option Nat) (b : Bool) (w1 : World) (err1 : Error) (result_sp1 : Option Nat)
    (h : materializeMember false exe_ctx location result_name top bottom ptr u w err result_sp
      = some (b, w1, err1, result_sp1)) : MaterializesOnly w w1 := by
  simp only [materializeMember] at h
  repeat' split at h
  all_goals first
    | (simp only [Option.some.injEq, Prod.mk.injEq] at h
       obtain ⟨-, rfl, -, -⟩ := h
       first
         | exact materializesOnly_refl _
         | exact DoMaterializeOneRegister_materializes _ _ _ _
         | (rename_i r hr; obtain ⟨b0, w0, e0⟩ := r
            exact DoMaterializeOneVariable_materializes _ _ _ _ _ _ _ _ hr)
         | (rename_i r hr _; obtain ⟨b0, w0, e0⟩ := r
            exact DoMaterializeOnePersistentVariable_materializes _ _ _ _ _ _ _ _ _ hr))
    | cases h

theorem materializeMembers_materializes (exe_ctx : ExecutionContext) (location : Nat)
    (result_name : String) (top bottom : Nat) (ptr : Bool) (ms : List (Option Nat))
    (w : World) (err : Error) (result_sp : Option Nat) (b : Bool) (w' : World) (err' : Error)
    (result_sp' : Option Nat)
    (h : materializeMembers false exe_ctx location result_name top bottom ptr ms w err result_sp
      = some (b, w', err', result_sp')) : MaterializesOnly w w' :=
  materializeMembers_invariant MaterializesOnly materializesOnly_refl materializesOnly_trans
    false exe_ctx location result_name top bottom ptr
    (fun _ _ _ _ _ _ _ _ hs => materializeMember_materializes _ _ _ _ _ _ _ _ _ _ _ _ _ _ hs)
    ms w err result_sp b w' err' result_sp' h

theorem DoMaterialize_failure (exe_ctx : ExecutionContext) (w : World) (sv : StructVars)
    (mv : MaterialVars) (top bottom : Nat) (ptr : Option (Option Nat)) (err : Error) (b : Bool)
    (w' : World) (err' : Error) (res : Option Nat)
    (hsv : w.m_struct_vars = some sv) (hmv : w.m_material_vars = some mv)
    (hlaid : sv.m_struct_laid_out = true) (hsize : sv.m_struct_size ≠ 0)
    (hframe : exe_ctx.frame = true)
    (hrun : DoMaterialize false exe_ctx w top bottom ptr err = some (b, w', err', res)) :
    ∃ mem later,
      w'.process.trace = w.process.trace ++ releasedBuffer w
        ++ [Call.allocate (sv.m_struct_alignment + sv.m_struct_size) mem] ++ later ∧
      deallocated later = [] ∧
      (mem ≠ LLDB_INVALID_ADDRESS →
        w'.m_material_vars
          = some ⟨mem, alignLocation mem sv.m_struct_alignment⟩) := by
  simp only [DoMaterialize, hsv, hmv, hlaid, hframe, hsize, Bool.not_true, Bool.false_eq_true,
    ↓reduceIte, Bool.not_false] at hrun
  split at hrun
  · rename_i w1 e hA
    cases hrun
    exact ⟨LLDB_INVALID_ADDRESS, [], by simp [allocateStruct_inl w sv mv _ _ hmv hA], rfl,
      fun h => absurd rfl h⟩
  · rename_i w1 mv1 e hA
    obtain ⟨htrace, -, -, -, hvalid⟩ := allocateStruct_inr w sv mv _ _ _ hmv hA
    split at hrun
    · cases hrun
    · have hext := materializeMembers_extends _ _ _ _ _ _ _ _ _ _ _ _ _ _ _ hrun
      have hmat := materializeMembers_materializes _ _ _ _ _ _ _ _ _ _ _ _ _ _ hrun
      obtain ⟨-, -, -, -, -, -, hmv', -, later, hlater⟩ := hext
      refine ⟨mv1.m_allocated_area, later, ?_, ?_, fun _ => ?_⟩
      · rw [← hlater]
        simp only [htrace]
      · have hd := hmat.2.2.1
        rw [← hlater, deallocated_append] at hd
        exact List.append_right_eq_self.mp hd
      · rw [hmv']

/-- C12: when `Materialize` on a laid-out struct of non-zero size (non-null frame) returns
`false`, it has asked the debuggee for the transfer buffer and has made no deallocate call
after that request: nothing allocated during the call is released by the call.  When the
request succeeded, the buffer stays recorded in the materialization record, and the
deallocate call for the recorded struct address is the one `DidDematerialize` (also run by
the destructor) makes later, or the next `Materialize`. -/
theorem Materialize_failure_keeps_allocations (exe_ctx : ExecutionContext) (w : World)
    (sv : StructVars) (struct_address : Nat) (err : Error) (w' : World) (err' : Error)
    (address : Nat)
    (hsv : w.m_struct_vars = some sv) (hlaid : sv.m_struct_laid_out = true)
    (hsize : sv.m_struct_size ≠ 0) (hframe : exe_ctx.frame = true)
    (hrun : Materialize exe_ctx w struct_address err = some (false, w', err', address)) :
    ∃ mem later,
      w'.process.trace = w.process.trace ++ releasedBuffer w
        ++ [Call.allocate (sv.m_struct_alignment + sv.m_struct_size) mem] ++ later ∧
      deallocated later = [] ∧
      (mem ≠ LLDB_INVALID_ADDRESS →
        w'.m_material_vars = some ⟨mem, alignLocation mem sv.m_struct_alignment⟩ ∧
        releasedBuffer w'
          = (if alignLocation mem sv.m_struct_alignment ≠ 0 then
               [Call.deallocate (alignLocation mem sv.m_struct_alignment)]
             else []) ∧
        (DidDematerialize w').process.trace = w'.process.trace ++ releasedBuffer w' ∧
        (destroy w').process.trace = w'.process.trace ++ releasedBuffer w') := by
  have key : ∀ (w0 : World) (mv : MaterialVars), w0.m_struct_vars = some sv →
      w0.m_material_vars = some mv → w0.process = w.process →
      releasedBuffer w0 = releasedBuffer w →
      (match DoMaterialize false exe_ctx w0 LLDB_INVALID_ADDRESS LLDB_INVALID_ADDRESS none err with
        | none => none
        | some (result, w1, err1, _) =>
          if result then
            match w1.m_material_vars with
            | none => none
            | some mv => some (true, w1, err1, mv.m_materialized_location)
          else some (false, w1, err1, struct_address)) = some (false, w', err', address) →
      ∃ mem later,
        w'.process.trace = w.process.trace ++ releasedBuffer w
          ++ [Call.allocate (sv.m_struct_alignment + sv.m_struct_size) mem] ++ later ∧
        deallocated later = [] ∧
        (mem ≠ LLDB_INVALID_ADDRESS →
          w'.m_material_vars = some ⟨mem, alignLocation mem sv.m_struct_alignment⟩ ∧
          releasedBuffer w'
            = (if alignLocation mem sv.m_struct_alignment ≠ 0 then
                 [Call.deallocate (alignLocation mem sv.m_struct_alignment)]
               else []) ∧
          (DidDematerialize w').process.trace = w'.process.trace ++ releasedBuffer w' ∧
          (destroy w').process.trace = w'.process.trace ++ releasedBuffer w') := by
    intro w0 mv hsv0 hmv0 hproc hrel h
    split at h
    · cases h
    · rename_i result w1 err1 res hD
      obtain ⟨mem, later, htrace, hdealloc, hkept⟩ :=
        DoMaterialize_failure exe_ctx w0 sv mv _ _ _ _ _ _ _ _ hsv0 hmv0 hlaid hsize hframe hD
      rw [hproc, hrel] at htrace
      cases result with
      | true =>
        simp only [↓reduceIte] at h
        split at h <;> simp at h
      | false =>
        simp only [Bool.false_eq_true, ↓reduceIte, Option.some.injEq, Prod.mk.injEq] at h
        obtain ⟨-, rfl, -, -⟩ := h
        refine ⟨mem, later, htrace, hdealloc, fun hmem => ?_⟩
        have hmv1 := hkept hmem
        refine ⟨hmv1, ?_, ?_, ?_⟩
        · simp [releasedBuffer, hmv1]
        · by_cases hz : alignLocation mem sv.m_struct_alignment = 0 <;>
            simp [DidDematerialize, releasedBuffer, hmv1, hz]
        · by_cases hz : alignLocation mem sv.m_struct_alignment = 0 <;>
            simp [destroy, DidDematerialize, releasedBuffer, hmv1, hz]
  unfold Materialize at hrun
  cases hmv : w.m_material_vars with
  | none =>
    rw [hmv] at hrun
    exact key { w with m_material_vars := some {} } {} hsv rfl rfl
      (by simp [releasedBuffer, hmv]) hrun
  | some mv =>
    rw [hmv] at hrun
    exact key _ mv hsv hmv rfl rfl hrun

/-- Witness of C12: the struct of `resultThenStray`; the second member fails after the
transfer buffer (at 1004) and the spare allocation of the first member (at 2048) were made. -/
theorem Materialize_failure_keeps_allocations_witness :
    (destroy (afterMaterialize {} resultThenStray)).process.trace
      = [Call.allocate 24 1004, Call.allocate 4 2048, Call.deallocate 1008] ∧
    ∃ mem later,
      (afterMaterialize {} resultThenStray).process.trace
        = resultThenStray.process.trace ++ releasedBuffer resultThenStray
          ++ [Call.allocate (8 + 16) mem] ++ later ∧
      deallocated later = [] ∧
      (mem ≠ LLDB_INVALID_ADDRESS →
        (afterMaterialize {} resultThenStray).m_material_vars
          = some ⟨mem, alignLocation mem 8⟩ ∧
        releasedBuffer (afterMaterialize {} resultThenStray)
          = (if alignLocation mem 8 ≠ 0 then [Call.deallocate (alignLocation mem 8)] else []) ∧
        (DidDematerialize (afterMaterialize {} resultThenStray)).process.trace
          = (afterMaterialize {} resultThenStray).process.trace
            ++ releasedBuffer (afterMaterialize {} resultThenStray) ∧
        (destroy (afterMaterialize {} resultThenStray)).process.trace
          = (afterMaterialize {} resultThenStray).process.trace
            ++ releasedBuffer (afterMaterialize {} resultThenStray)) :=
  ⟨by decide,
    Materialize_failure_keeps_allocations {} resultThenStray ⟨8, 16, true, "$result"⟩ 0 none
      (afterMaterialize {} resultThenStray) (some "Unexpected variable x") 0 rfl rfl (by decide)
      rfl rfl⟩

/-- Counterexample to C12 as stated: `Materialize` on the struct of `resultThenStray` returns
`false` after it has allocated the transfer buffer at 1004 and a spare buffer at 2048, and it
has made no deallocate call: both stay allocated when it returns. -/
theorem Materialize_failure_keeps_allocations_counterexample :
    Materialize {} resultThenStray 0 none
      = some (false, afterMaterialize {} resultThenStray, some "Unexpected variable x", 0) ∧
    resultThenStray.process.trace = [] ∧
    (afterMaterialize {} resultThenStray).process.trace
      = [Call.allocate 24 1004, Call.allocate 4 2048] ∧
    deallocated (afterMaterialize {} resultThenStray).process.trace = [] :=
  ⟨rfl, by decide, by decide, by decide⟩

theorem materializeMember_dematerializes (exe_ctx : ExecutionContext) (location : Nat)
    (result_name : String) (top bottom : Nat) (ptr : Bool) (u : Nat) (w : World) (err : Error)
    (result_sp : Option Nat) (b : Bool) (w1 : World) (err1 : Error) (result_sp1 : Option Nat)
    (h : materializeMember true exe_ctx location result_name top bottom ptr u w err result_sp
      = some (b, w1, err1, result_sp1)) : DematerializesOnly u w w1 := by
  simp only [materializeMember] at h
  repeat' split at h
  all_goals first
    | (simp only [Option.some.injEq, Prod.mk.injEq] at h
       obtain ⟨-, rfl, -, -⟩ := h
       first
         | exact dematerializesOnly_refl _ _
         | exact DoMaterializeOneRegister_dematerializes _ _ _ _ _
         | (rename_i r hr; obtain ⟨b0, w0, e0⟩ := r
            exact DoMaterializeOneVariable_dematerializes _ _ _ _ _ _ _ _ hr)
         | (rename_i r hr _; obtain ⟨b0, w0, e0⟩ := r
            exact DoMaterializeOnePersistentVariable_dematerializes _ _ _ _ _ _ _ _ _ hr))
    | cases h

theorem DoMaterializeOneRegister_heap (d : Bool) (w : World) (reg : RegisterInfo)
    (addr : Nat) (err : Error) : (DoMaterializeOneRegister d w reg addr err).2.1.heap = w.heap := by
  simp only [DoMaterializeOneRegister]
  repeat' split
  all_goals rfl

theorem dematerializeRegisterValue_hostPart (w : World) (v : Nat) (reg : RegisterInfo)
    (n : Nat) (id : Nat) :
    hostPart ((dematerializeRegisterValue w v reg n).2.1.heap id) = hostPart (w.heap id) := by
  simp only [dematerializeRegisterValue]
  repeat' split
  all_goals first
    | rfl
    | exact hostPart_update _ _ _ _ rfl

theorem materializeScalarValue_hostPart (exe_ctx : ExecutionContext) (w : World)
    (v addr : Nat) (loc : Value) (n : Nat) (r : Bool × World × Error)
    (h : materializeScalarValue true exe_ctx w v addr loc n = r) (id : Nat) :
    hostPart (r.2.1.heap id) = hostPart (w.heap id) := by
  subst h
  simp only [materializeScalarValue, ↓reduceIte]
  repeat' split
  all_goals first
    | rfl
    | exact dematerializeRegisterValue_hostPart _ _ _ _ _

theorem DoMaterializeOneVariable_hostPart (exe_ctx : ExecutionContext) (w : World)
    (v addr : Nat) (err : Error) (b : Bool) (w' : World) (err' : Error)
    (h : DoMaterializeOneVariable true exe_ctx w v addr err = some (b, w', err')) (id : Nat) :
    hostPart (w'.heap id) = hostPart (w.heap id) := by
  simp only [DoMaterializeOneVariable] at h
  repeat' split at h
  all_goals first
    | (simp only [Option.some.injEq] at h
       first
         | exact materializeScalarValue_hostPart _ _ _ _ _ _ _ h id
         | (cases h; rfl))
    | cases h

theorem DoMaterializeOnePersistentVariable_keeps_bytes (w : World) (v addr top bottom : Nat)
    (err : Error) (b : Bool) (w' : World) (err' : Error)
    (hfd : (w.heap v).m_flags.EVNeedsFreezeDry = false)
    (hkeep : (w.heap v).m_flags.EVKeepInTarget = false)
    (h : DoMaterializeOnePersistentVariable true w (some v) addr top bottom err
      = some (b, w', err')) :
    (w'.heap v).m_value_bytes = (w.heap v).m_value_bytes := by
  simp only [DoMaterializeOnePersistentVariable, ↓reduceIte] at h
  split at h
  · cases h; rfl
  · rename_i data hdata
    split at h
    · cases h; rfl
    · rename_i w1 mem hL
      obtain ⟨-, -, -, hw1, -⟩ := dematerializeLocate_spec _ _ _ _ _ hL
      have hb1 : (w1.heap v).m_value_bytes = (w.heap v).m_value_bytes := by
        rw [hw1]; simp [World.setVar]
      have hf1 : (w1.heap v).m_flags = (w.heap v).m_flags := by
        rw [hw1]; simp [World.setVar]
      split at h
      · cases h
      · cases h; exact hb1
      · rename_i w2 mem1 hF
        obtain ⟨rfl, -⟩ := dematerializeFreezeDry_skip _ _ _ _ _ _ _ _
          (by rw [hf1]; exact hfd) (by rw [hf1]; exact hkeep) hF
        simp only [Option.some.injEq] at h
        have := (dematerializeRelease_spec w2 v mem1 err).1
        rw [h] at this
        exact this.trans hb1

theorem materializeMember_keeps_bytes (exe_ctx : ExecutionContext) (location : Nat)
    (result_name : String) (top bottom : Nat) (ptr : Bool) (u : Nat) (w : World) (err : Error)
    (result_sp : Option Nat) (b : Bool) (w1 : World) (err1 : Error) (result_sp1 : Option Nat)
    (hfd : (w.heap u).m_flags.EVNeedsFreezeDry = false)
    (hkeep : (w.heap u).m_flags.EVKeepInTarget = false)
    (h : materializeMember true exe_ctx location result_name top bottom ptr u w err result_sp
      = some (b, w1, err1, result_sp1)) :
    (w1.heap u).m_value_bytes = (w.heap u).m_value_bytes := by
  simp only [materializeMember] at h
  repeat' split at h
  all_goals first
    | (simp only [Option.some.injEq, Prod.mk.injEq] at h
       obtain ⟨-, rfl, -, -⟩ := h
       first
         | rfl
         | (rw [DoMaterializeOneRegister_heap])
         | (rename_i r hr; obtain ⟨b0, w0, e0⟩ := r
            exact congrArg Prod.fst (DoMaterializeOneVariable_hostPart _ _ _ _ _ _ _ _ hr u))
         | (rename_i r hr _; obtain ⟨b0, w0, e0⟩ := r
            exact DoMaterializeOnePersistentVariable_keeps_bytes _ _ _ _ _ _ _ _ _ hfd hkeep hr))
    | cases h


theorem materializeMembers_keeps_bytes (exe_ctx : ExecutionContext) (location : Nat)
    (result_name : String) (top bottom : Nat) (ptr : Bool) (v : Nat) (ms : List (Option Nat)) :
    ∀ (w : World) (err : Error) (result_sp : Option Nat) (b : Bool) (w' : World) (err' : Error)
      (result_sp' : Option Nat), ms.Nodup →
      (w.heap v).m_flags.EVNeedsFreezeDry = false → (w.heap v).m_flags.EVKeepInTarget = false →
      materializeMembers true exe_ctx location result_name top bottom ptr ms w err result_sp
        = some (b, w', err', result_sp') →
      (w'.heap v).m_value_bytes = (w.heap v).m_value_bytes := by
  induction ms with
  | nil =>
    intro w err result_sp b w' err' result_sp' _ _ _ h
    simp only [materializeMembers, Option.some.injEq, Prod.mk.injEq] at h
    obtain ⟨-, rfl, -, -⟩ := h
    rfl
  | cons m rest ih =>
    intro w err result_sp b w' err' result_sp' hnodup hfd hkeep h
    have hnotin : m ∉ rest := (List.nodup_cons.mp hnodup).1
    have hnodup' : rest.Nodup := (List.nodup_cons.mp hnodup).2
    cases m with
    | none => simp [materializeMembers] at h
    | some u =>
      rw [materializeMembers_cons] at h
      cases hs : materializeMember true exe_ctx location result_name top bottom ptr u w err
          result_sp with
      | none => rw [hs] at h; cases h
      | some r =>
        obtain ⟨b1, w1, err1, result_sp1⟩ := r
        rw [hs] at h
        have hdem := materializeMember_dematerializes _ _ _ _ _ _ _ _ _ _ _ _ _ _ hs
        by_cases huv : u = v
        · subst huv
          have hstep := materializeMember_keeps_bytes _ _ _ _ _ _ _ _ _ _ _ _ _ _ hfd hkeep hs
          cases b1 with
          | false =>
            simp only [Option.some.injEq, Prod.mk.injEq] at h
            obtain ⟨-, rfl, -, -⟩ := h
            exact hstep
          | true =>
            simp only at h
            have hrest := (materializeMembers_dematerializes _ _ _ _ _ _ _ _ _ _ _ _ _ _ h).2.2.2
              u hnotin
            rw [hrest]; exact hstep
        · have hv : w1.heap v = w.heap v := hdem.2.2.2 v (fun hvu => huv hvu.symm)
          cases b1 with
          | false =>
            simp only [Option.some.injEq, Prod.mk.injEq] at h
            obtain ⟨-, rfl, -, -⟩ := h
            rw [hv]
          | true =>
            simp only at h
            have := ih w1 err1 result_sp1 b w' err' result_sp' hnodup' (by rw [hv]; exact hfd)
              (by rw [hv]; exact hkeep) h
            rw [this, hv]

theorem Dematerialize_keeps_bytes (exe_ctx : ExecutionContext) (w : World)
    (result_sp : Option Nat) (top bottom : Nat) (err : Error) (b : Bool) (w' : World)
    (err' : Error) (result_sp' : Option Nat) (v : Nat)
    (hnodup : w.m_struct_members.Nodup)
    (hfd : (w.heap v).m_flags.EVNeedsFreezeDry = false)
    (hkeep : (w.heap v).m_flags.EVKeepInTarget = false)
    (hrun : Dematerialize exe_ctx w result_sp top bottom err = some (b, w', err', result_sp')) :
    (w'.heap v).m_value_bytes = (w.heap v).m_value_bytes := by
  simp only [Dematerialize, DoMaterialize] at hrun
  split at hrun
  · cases hrun
  · split at hrun
    · cases hrun; rfl
    · split at hrun
      · cases hrun; rfl
      · split at hrun
        · cases hrun
        · split at hrun
          · cases hrun; rfl
          · simp only [Bool.not_true, Bool.false_eq_true, ↓reduceIte] at hrun
            split at hrun
            · cases hrun
            · have key := fun h1 h2 =>
                materializeMembers_keeps_bytes _ _ _ _ _ _ v _ _ _ _ _ _ _ _ hnodup h1 h2 hrun
              exact key hfd hkeep

@[simp] theorem DeallocateMemory_registers (p : Process) (addr : Nat) :
    (p.DeallocateMemory addr).2.registers = p.registers := by
  unfold Process.DeallocateMemory; split <;> rfl

@[simp] theorem DeallocateMemory_registerWritable (p : Process) (addr : Nat) :
    (p.DeallocateMemory addr).2.registerWritable = p.registerWritable := by
  unfold Process.DeallocateMemory; split <;> rfl

theorem allocateStruct_frame_inl (w : World) (sv : StructVars) (mv : MaterialVars) (w1 : World)
    (e : Error) (h : allocateStruct w sv mv = Sum.inl (w1, e)) :
    ∃ p m, w1 = { w with process := p, m_material_vars := m } ∧
      p.registers = w.process.registers ∧
      p.registerWritable = w.process.registerWritable := by
  by_cases hloc : mv.m_materialized_location = 0
  · simp only [allocateStruct, hloc, ne_eq, not_true_eq_false, ↓reduceIte] at h
    split at h
    · cases h; exact ⟨_, _, rfl, by simp, by simp⟩
    · cases h
  · simp only [allocateStruct, hloc, ne_eq, not_false_eq_true, ↓reduceIte] at h
    split at h
    · cases h; exact ⟨_, _, rfl, by simp, by simp⟩
    · cases h

theorem allocateStruct_frame_inr (w : World) (sv : StructVars) (mv : MaterialVars) (w1 : World)
    (mv1 : MaterialVars) (e : Error) (h : allocateStruct w sv mv = Sum.inr (w1, mv1, e)) :
    ∃ p, w1 = { w with process := p } ∧ p.registers = w.process.registers ∧
      p.registerWritable = w.process.registerWritable := by
  by_cases hloc : mv.m_materialized_location = 0
  · simp only [allocateStruct, hloc, ne_eq, not_true_eq_false, ↓reduceIte] at h
    split at h
    · cases h
    · cases h; exact ⟨_, rfl, by simp, by simp⟩
  · simp only [allocateStruct, hloc, ne_eq, not_false_eq_true, ↓reduceIte] at h
    split at h
    · cases h
    · cases h; exact ⟨_, rfl, by simp, by simp⟩

theorem DoMaterialize_hostPart (exe_ctx : ExecutionContext) (w : World) (top bottom : Nat)
    (ptr : Option (Option Nat)) (err : Error) (b : Bool) (w' : World) (err' : Error)
    (res : Option Nat)
    (hrun : DoMaterialize false exe_ctx w top bottom ptr err = some (b, w', err', res)) :
    (∀ id, hostPart (w'.heap id) = hostPart (w.heap id)) ∧
    w'.m_struct_members = w.m_struct_members ∧
    w'.process.registers = w.process.registers := by
  simp only [DoMaterialize] at hrun
  split at hrun
  · cases hrun
  · split at hrun
    · cases hrun; exact ⟨fun _ => rfl, rfl, rfl⟩
    · split at hrun
      · cases hrun; exact ⟨fun _ => rfl, rfl, rfl⟩
      · split at hrun
        · cases hrun
        · split at hrun
          · cases hrun; exact ⟨fun _ => rfl, rfl, rfl⟩
          · simp only [Bool.not_false, ↓reduceIte] at hrun
            split at hrun
            · rename_i w1 e hA
              obtain ⟨p, m, rfl, hreg, -⟩ := allocateStruct_frame_inl _ _ _ _ _ hA
              cases hrun
              exact ⟨fun _ => rfl, rfl, hreg⟩
            · rename_i w1 mv1 e hA
              obtain ⟨p, rfl, hreg, -⟩ := allocateStruct_frame_inr _ _ _ _ _ _ hA
              split at hrun
              · cases hrun
              · have hext := materializeMembers_extends _ _ _ _ _ _ _ _ _ _ _ _ _ _ _ hrun
                have hmat := materializeMembers_materializes _ _ _ _ _ _ _ _ _ _ _ _ _ _ hrun
                exact ⟨hmat.2.2.2, hext.2.2.1, hmat.1.trans hreg⟩


theorem Materialize_frame (exe_ctx : ExecutionContext) (w : World) (struct_address : Nat)
    (err : Error) (b : Bool) (w' : World) (err' : Error) (address : Nat)
    (hrun : Materialize exe_ctx w struct_address err = some (b, w', err', address)) :
    (∀ id, hostPart (w'.heap id) = hostPart (w.heap id)) ∧
    w'.m_struct_members = w.m_struct_members ∧
    w'.process.registers = w.process.registers := by
  simp only [Materialize] at hrun
  split at hrun
  · cases hrun
  · rename_i result w1 err1 res hD
    have hw : w' = w1 := by
      split at hrun
      · split at hrun
        · cases hrun
        · cases hrun; rfl
      · cases hrun; rfl
    subst hw
    have h := DoMaterialize_hostPart _ _ _ _ _ _ _ _ _ _ hD
    cases hmv : w.m_material_vars <;> rw [hmv] at h <;> exact h

/-- C14: `Materialize` followed at once by `Dematerialize` leaves the host-side bytes of a
variable unchanged when the variable is flagged neither `EVNeedsFreezeDry` nor
`EVKeepInTarget`, in particular those of an `EVIsProgramReference` struct member without
these flags (the struct members are distinct).  A member that carries one of the two flags
has its host-side bytes overwritten from the debuggee by `Dematerialize`. -/
theorem round_trip_keeps_host_bytes (exe_ctx : ExecutionContext) (w : World)
    (struct_address : Nat) (err : Error) (b1 : Bool) (w1 : World) (err1 : Error) (address : Nat)
    (result_sp : Option Nat) (top bottom : Nat) (err2 : Error) (b2 : Bool) (w2 : World)
    (err3 : Error) (result_sp' : Option Nat) (v : Nat)
    (hnodup : w.m_struct_members.Nodup)
    (hfd : (w.heap v).m_flags.EVNeedsFreezeDry = false)
    (hkeep : (w.heap v).m_flags.EVKeepInTarget = false)
    (hmat : Materialize exe_ctx w struct_address err = some (b1, w1, err1, address))
    (hdemat : Dematerialize exe_ctx w1 result_sp top bottom err2
      = some (b2, w2, err3, result_sp')) :
    (w1.heap v).m_value_bytes = (w.heap v).m_value_bytes ∧
    (w2.heap v).m_value_bytes = (w.heap v).m_value_bytes := by
  obtain ⟨hhost, hms, -⟩ := Materialize_frame _ _ _ _ _ _ _ _ hmat
  have hv := hhost v
  simp only [hostPart, Prod.mk.injEq] at hv
  obtain ⟨hbytes, hfd1, hkeep1, -⟩ := hv
  refine ⟨hbytes, ?_⟩
  rw [← hbytes]
  exact Dematerialize_keeps_bytes _ _ _ _ _ _ _ _ _ _ v (by rw [hms]; exact hnodup)
    (by rw [hfd1]; exact hfd) (by rw [hkeep1]; exact hkeep) hdemat

/-- Witness of C14: the program reference `$0` of `referenceLaidOut` without further flags
keeps its bytes 1, 2, 3, 4 through `Materialize` and `Dematerialize`. -/
theorem round_trip_keeps_host_bytes_witness :
    Materialize {} (referenceLaidOut { EVIsProgramReference := true }) 0 none
      = some (true, referenceWorld { EVIsProgramReference := true }, none, 1008) ∧
    Dematerialize {} (referenceWorld { EVIsProgramReference := true }) none
        LLDB_INVALID_ADDRESS LLDB_INVALID_ADDRESS none
      = some (true, afterDematerialize {} (referenceWorld { EVIsProgramReference := true })
          LLDB_INVALID_ADDRESS LLDB_INVALID_ADDRESS, none, none) ∧
    ((referenceLaidOut { EVIsProgramReference := true }).heap 0).m_value_bytes
      = some [1, 2, 3, 4] ∧
    (((referenceWorld { EVIsProgramReference := true }).heap 0).m_value_bytes
      = ((referenceLaidOut { EVIsProgramReference := true }).heap 0).m_value_bytes ∧
    ((afterDematerialize {} (referenceWorld { EVIsProgramReference := true })
        LLDB_INVALID_ADDRESS LLDB_INVALID_ADDRESS).heap 0).m_value_bytes
      = ((referenceLaidOut { EVIsProgramReference := true }).heap 0).m_value_bytes) :=
  ⟨rfl, rfl, by decide,
    round_trip_keeps_host_bytes {} (referenceLaidOut { EVIsProgramReference := true }) 0 none
      true (referenceWorld { EVIsProgramReference := true }) none 1008 none
      LLDB_INVALID_ADDRESS LLDB_INVALID_ADDRESS none true
      (afterDematerialize {} (referenceWorld { EVIsProgramReference := true })
        LLDB_INVALID_ADDRESS LLDB_INVALID_ADDRESS) none none 0 (by decide) rfl rfl rfl rfl⟩

/-- Counterexample to C14 as stated: the program reference `$0` that is also flagged
`EVNeedsFreezeDry` (an lvalue result) has the host-side bytes 1, 2, 3, 4; after `Materialize`
and `Dematerialize`, both successful and with nothing in between, its host-side bytes are
the bytes 0, 0, 0, 0 found at its address 3000 in the debuggee.  The same happens with
`EVKeepInTarget` in place of `EVNeedsFreezeDry`. -/
theorem round_trip_keeps_host_bytes_counterexample :
    (Materialize {}
        (referenceLaidOut { EVIsProgramReference := true, EVNeedsFreezeDry := true }) 0 none
      = some (true, referenceWorld { EVIsProgramReference := true, EVNeedsFreezeDry := true },
          none, 1008) ∧
    Dematerialize {} (referenceWorld { EVIsProgramReference := true, EVNeedsFreezeDry := true })
        none LLDB_INVALID_ADDRESS LLDB_INVALID_ADDRESS none
      = some (true, afterDematerialize {}
          (referenceWorld { EVIsProgramReference := true, EVNeedsFreezeDry := true })
          LLDB_INVALID_ADDRESS LLDB_INVALID_ADDRESS, none, none) ∧
    ((referenceLaidOut { EVIsProgramReference := true, EVNeedsFreezeDry := true }).heap 0).m_value_bytes
      = some [1, 2, 3, 4] ∧
    ((afterDematerialize {}
        (referenceWorld { EVIsProgramReference := true, EVNeedsFreezeDry := true })
        LLDB_INVALID_ADDRESS LLDB_INVALID_ADDRESS).heap 0).m_value_bytes = some [0, 0, 0, 0]) ∧
    (Materialize {}
        (referenceLaidOut { EVIsProgramReference := true, EVKeepInTarget := true }) 0 none
      = some (true, referenceWorld { EVIsProgramReference := true, EVKeepInTarget := true },
          none, 1008) ∧
    ((afterDematerialize {}
        (referenceWorld { EVIsProgramReference := true, EVKeepInTarget := true })
        LLDB_INVALID_ADDRESS LLDB_INVALID_ADDRESS).heap 0).m_value_bytes = some [0, 0, 0, 0]) :=
  ⟨⟨rfl, rfl, by decide, by decide⟩, rfl, by decide⟩

theorem writeBytes_below (bs : List Nat) :
    ∀ (m : Nat → Option Nat) (addr : Nat) (m' : Nat → Option Nat),
      writeBytes m addr bs = some m' → ∀ x, x < addr → m' x = m x := by
  induction bs with
  | nil => intro m addr m' h x _; simp only [writeBytes, Option.some.injEq] at h; rw [h]
  | cons b bs ih =>
    intro m addr m' h x hx
    simp only [writeBytes] at h
    split at h
    · cases h
    · rw [ih _ _ _ h x (by omega)]
      exact Function.update_noteq (by omega) _ _

theorem readBytes_writeBytes (bs : List Nat) :
    ∀ (m : Nat → Option Nat) (addr : Nat) (m' : Nat → Option Nat),
      writeBytes m addr bs = some m' → readBytes m' addr bs.length = some bs := by
  induction bs with
  | nil => intro m addr m' _; rfl
  | cons b bs ih =>
    intro m addr m' h
    simp only [writeBytes] at h
    split at h
    · cases h
    · have hrest := ih _ _ _ h
      have hhead : m' addr = some b := by
        rw [writeBytes_below _ _ _ _ h addr (by omega)]
        simp
      simp only [List.length_cons, readBytes, hhead, hrest]

theorem staticPart_jit_vars (a b : ClangExpressionVariable)
    (h : staticPart a = staticPart b) : a.m_jit_vars = b.m_jit_vars := by
  have := congrArg ClangExpressionVariable.m_jit_vars h
  simpa [staticPart] using this

theorem Materialize_members (exe_ctx : ExecutionContext) (w : World) (sv : StructVars)
    (struct_address : Nat) (err : Error) (w' : World) (err' : Error) (address : Nat)
    (hsv : w.m_struct_vars = some sv) (hlaid : sv.m_struct_laid_out = true)
    (hframe : exe_ctx.frame = true) (hsize : sv.m_struct_size ≠ 0)
    (hrun : Materialize exe_ctx w struct_address err = some (true, w', err', address)) :
    ∃ (p : Process) (mv : MaterialVars) (err1 : Error) (res : Option Nat),
      p.registers = w.process.registers ∧
      materializeMembers false exe_ctx address sv.m_result_name LLDB_INVALID_ADDRESS
        LLDB_INVALID_ADDRESS false w.m_struct_members
        { w with process := p, m_material_vars := some mv } err1 none
        = some (true, w', err', res) := by
  have key : ∀ w0 : World, w0.m_struct_vars = some sv →
      (∀ (p : Process) (m : Option MaterialVars),
        ({ w0 with process := p, m_material_vars := m } : World)
          = { w with process := p, m_material_vars := m }) →
      w0.process = w.process → w0.m_struct_members = w.m_struct_members →
      (match DoMaterialize false exe_ctx w0 LLDB_INVALID_ADDRESS LLDB_INVALID_ADDRESS none err with
        | none => none
        | some (result, w1, err1, _) =>
          if result then
            match w1.m_material_vars with
            | none => none
            | some mv => some (true, w1, err1, mv.m_materialized_location)
          else some (false, w1, err1, struct_address)) = some (true, w', err', address) →
      ∃ (p : Process) (mv : MaterialVars) (err1 : Error) (res : Option Nat),
        p.registers = w.process.registers ∧
        materializeMembers false exe_ctx address sv.m_result_name LLDB_INVALID_ADDRESS
          LLDB_INVALID_ADDRESS false w.m_struct_members
          { w with process := p, m_material_vars := some mv } err1 none
          = some (true, w', err', res) := by
    intro w0 hsv0 heq hproc hms h
    split at h
    · cases h
    · rename_i result w1 err1 res hD
      cases result with
      | false => simp at h
      | true =>
        simp only [↓reduceIte] at h
        split at h
        · cases h
        · rename_i mv' hmv'
          simp only [Option.some.injEq, Prod.mk.injEq, true_and] at h
          obtain ⟨rfl, rfl, rfl⟩ := h
          simp only [DoMaterialize, hsv0, hlaid, hframe, hsize, Bool.not_true,
            Bool.false_eq_true, ↓reduceIte, Bool.not_false] at hD
          split at hD
          · cases hD
          · rename_i mv hmv
            split at hD
            · cases hD
            · rename_i w2 mv1 e1 hA
              obtain ⟨p, rfl, hreg, -⟩ := allocateStruct_frame_inr _ _ _ _ _ _ hA
              split at hD
              · cases hD
              · have hext := materializeMembers_extends _ _ _ _ _ _ _ _ _ _ _ _ _ _ _ hD
                have hmat : w1.m_material_vars = _ := hext.2.2.2.2.2.2.1
                rw [hmv'] at hmat
                simp only [Option.some.injEq] at hmat
                have hloc : mv'.m_materialized_location
                    = alignLocation mv1.m_allocated_area sv.m_struct_alignment := by
                  rw [hmat]
                refine ⟨p, ⟨mv1.m_allocated_area,
                  alignLocation mv1.m_allocated_area sv.m_struct_alignment⟩, e1, res,
                  hreg.trans (by rw [hproc]), ?_⟩
                rw [hloc, ← heq, ← hms]
                exact hD
  unfold Materialize at hrun
  cases hmv : w.m_material_vars with
  | none =>
    rw [hmv] at hrun
    exact key { w with m_material_vars := some {} } hsv (fun _ _ => rfl) rfl rfl hrun
  | some mv =>
    rw [hmv] at hrun
    exact key w hsv (fun _ _ => rfl) rfl rfl hrun

/-- C16: in the translation unit, for a name without the `$` prefix for which the lookup in
the frame succeeds and finds a variable, `GetDecls` does not search the functions: besides a
type of that name it adds at most the variable declaration, and it adds that declaration
exactly when the value of the variable can be obtained (`GetVariableValue` succeeds); no
function declaration is added for the name. -/
theorem GetDecls_prefers_variable (exe_ctx : ExecutionContext) (pv : DeclMapParserVars)
    (w : World) (context : NameSearchContext) (n : String) (err : Error) (var : Variable)
    (hsv : w.m_struct_vars.isSome = true) (hpv : w.m_parser_vars = true)
    (hframe : exe_ctx.frame = true) (hlook : pv.m_ignore_lookups = false)
    (hctx : context.m_decl_context = DeclContextKind.translationUnit)
    (hname : n.data.head? ≠ some '$')
    (hfound : exe_ctx.GetValueForVariableExpressionPath n = (err, some var))
    (herr : err.Success = true) :
    ∃ s, GetDecls exe_ctx pv w context (some n) = some s ∧
      s.context.m_decls = context.m_decls
        ++ (match GetVariableValue exe_ctx var (some context.ast) with
            | some r => [Decl.var (pv.CreateLValueReferenceType (r.2.2.getD {}))]
            | none => [])
        ++ (match pv.FindTypeByName n with
            | some t => [Decl.type (GuardedCopyType exe_ctx context.ast t) false]
            | none => []) ∧
      (s.context.m_decls.drop context.m_decls.length).all (fun d => !d.isFunction) = true := by
  have hsv' : w.m_struct_vars.isNone = false := by
    cases h : w.m_struct_vars
    · rw [h] at hsv; cases hsv
    · rfl
  have hrun : GetDecls exe_ctx pv w context (some n)
      = some (lookupType exe_ctx pv
          (AddOneVariable exe_ctx pv { world := w, context := context } var) n) := by
    simp [GetDecls, hsv', hpv, hframe, hlook, hctx, lookupName, hname, lookupProgramName, hfound,
      herr]
  refine ⟨_, hrun, ?_⟩
  have hdecls : (lookupType exe_ctx pv
      (AddOneVariable exe_ctx pv { world := w, context := context } var) n).context.m_decls
      = context.m_decls
        ++ (match GetVariableValue exe_ctx var (some context.ast) with
            | some r => [Decl.var (pv.CreateLValueReferenceType (r.2.2.getD {}))]
            | none => [])
        ++ (match pv.FindTypeByName n with
            | some t => [Decl.type (GuardedCopyType exe_ctx context.ast t) false]
            | none => []) := by
    cases hv : GetVariableValue exe_ctx var (some context.ast) with
    | none =>
      cases ht : pv.FindTypeByName n <;>
        simp [lookupType, AddOneVariable, AddOneType, NameSearchContext.add, hv, ht]
    | some r =>
      obtain ⟨loc, ut, pt⟩ := r
      cases ht : pv.FindTypeByName n <;>
        simp [lookupType, AddOneVariable, AddOneType, NameSearchContext.add, hv, ht]
  refine ⟨hdecls, ?_⟩
  rw [hdecls, List.append_assoc, List.drop_left]
  cases GetVariableValue exe_ctx var (some context.ast) <;> cases pv.FindTypeByName n <;>
    simp [Decl.isFunction]

/-- Witness of C16: `x` is a local variable of the frame and also a global function; the
only declaration added is the variable declaration of type 7. -/
theorem GetDecls_prefers_variable_witness :
    (GetDecls (localFrame localX) functionNamedX parsing { m_decl_name := "x" } (some "x")).map
      (fun s => s.context.m_decls) = some [Decl.var 7] ∧
    (GetDecls {} functionNamedX parsing { m_decl_name := "x" } (some "x")).map
      (fun s => s.context.m_decls) = some [Decl.function 9] ∧
    ∃ s, GetDecls (localFrame localX) functionNamedX parsing { m_decl_name := "x" } (some "x")
        = some s ∧
      s.context.m_decls = ({ m_decl_name := "x" } : NameSearchContext).m_decls
        ++ (match GetVariableValue (localFrame localX) localX
              (some ({ m_decl_name := "x" } : NameSearchContext).ast) with
            | some r => [Decl.var (functionNamedX.CreateLValueReferenceType (r.2.2.getD {}))]
            | none => [])
        ++ (match functionNamedX.FindTypeByName "x" with
            | some t => [Decl.type (GuardedCopyType (localFrame localX)
                ({ m_decl_name := "x" } : NameSearchContext).ast t) false]
            | none => []) ∧
      (s.context.m_decls.drop ({ m_decl_name := "x" } : NameSearchContext).m_decls.length).all
        (fun d => !d.isFunction) = true :=
  ⟨by decide, by decide,
    GetDecls_prefers_variable (localFrame localX) functionNamedX parsing { m_decl_name := "x" }
      "x" none localX rfl rfl rfl rfl rfl (by decide) rfl rfl⟩

/-- Counterexample to C16 as stated: the lookup in the frame finds the variable `x`, which
has no type; `GetDecls` adds no declaration at all, so no variable declaration (and no
function declaration, although `x` is also a global function). -/
theorem GetDecls_prefers_variable_counterexample :
    (localFrame { localX with hasType := false }).GetValueForVariableExpressionPath "x"
      = (none, some { localX with hasType := false }) ∧
    (GetDecls (localFrame { localX with hasType := false }) functionNamedX parsing
        { m_decl_name := "x" } (some "x")).map (fun s => s.context.m_decls) = some [] :=
  ⟨rfl, by decide⟩

theorem GetVariableByDecl_none (heap : Nat → ClangExpressionVariable) (decl : Nat)
    (vars : List Nat) (h : GetVariableByDecl heap decl vars = none) (v : Nat) (hv : v ∈ vars)
    (pv : ParserVars) (hpv : (heap v).m_parser_vars = some pv) : pv.m_named_decl ≠ decl := by
  induction vars with
  | nil => cases hv
  | cons u us ih =>
    simp only [GetVariableByDecl] at h
    rcases List.mem_cons.mp hv with rfl | hmem
    · rw [hpv] at h
      simp only at h
      split at h
      · cases h
      · assumption
    · split at h
      · split at h
        · cases h
        · exact ih h hmem
      · exact ih h hmem

theorem AddValueToStruct_adds_known (w : World) (decl value size alignment : Nat)
    (b : Bool) (w' : World) (h : AddValueToStruct w decl value size alignment = some (b, w')) :
    w'.m_found_entities = w.m_found_entities ∧ w'.persistent_vars = w.persistent_vars ∧
    (∀ id, (w'.heap id).m_name = (w.heap id).m_name) ∧
    (w'.m_struct_members = w.m_struct_members ∨
      ∃ v, (v ∈ w.m_found_entities ∨ v ∈ w.persistent_vars) ∧ b = true ∧
        w'.m_struct_members = w.m_struct_members ++ [some v]) := by
  simp only [AddValueToStruct] at h
  split at h
  · cases h
  · split at h
    · cases h
    · split at h
      · cases h; exact ⟨rfl, rfl, fun _ => rfl, Or.inl rfl⟩
      · split at h
        · cases h; exact ⟨rfl, rfl, fun _ => rfl, Or.inl rfl⟩
        · rename_i v hv
          have hmem : v ∈ w.m_found_entities ∨ v ∈ w.persistent_vars := by
            split at hv
            · rename_i u hu
              cases hv
              exact Or.inl (GetVariableByDecl_parser_vars _ _ _ _ hu).choose_spec.2.2
            · exact Or.inr (GetVariableByDecl_parser_vars _ _ _ _ hv).choose_spec.2.2
          split at h
          · cases h
          · cases h
            refine ⟨rfl, rfl, ?_, Or.inr ⟨v, hmem, rfl, rfl⟩⟩
            intro id
            by_cases hid : id = v
            · subst hid; simp [World.setVar]
            · simp [World.setVar, Function.update, hid]

theorem AddValueToStruct_total (w : World) (sv : StructVars) (decl value size alignment : Nat)
    (hsv : w.m_struct_vars = some sv) (hparse : w.m_parser_vars = true) :
    ∃ b w', AddValueToStruct w decl value size alignment = some (b, w') := by
  obtain ⟨b, w', h, -⟩ := AddValueToStruct_invalidates w sv decl value size alignment hsv hparse
  exact ⟨b, w', h⟩

theorem AddValueToStruct_miss (w : World) (decl value size alignment : Nat)
    (b : Bool) (w' : World) (hknown : MembersAreKnown w)
    (hfound : GetVariableByDecl w.heap decl w.m_found_entities = none)
    (hpersistent : GetVariableByDecl w.heap decl w.persistent_vars = none)
    (h : AddValueToStruct w decl value size alignment = some (b, w')) :
    b = false ∧ w'.m_struct_members = w.m_struct_members := by
  simp only [AddValueToStruct, hfound, hpersistent] at h
  split at h
  · cases h
  · split at h
    · cases h
    · split at h
      · rename_i hmember
        exfalso
        obtain ⟨u, hu⟩ := Option.isSome_iff_exists.mp hmember
        obtain ⟨pv, hpv, hdecl, hmem⟩ := GetVariableByDecl_parser_vars _ _ _ _ hu
        have hin : some u ∈ w.m_struct_members := by
          simpa [List.mem_filterMap] using hmem
        rcases hknown u hin with hf | hp
        · exact GetVariableByDecl_none _ _ _ hfound u hf pv hpv hdecl
        · exact GetVariableByDecl_none _ _ _ hpersistent u hp pv hpv hdecl
      · cases h; exact ⟨rfl, rfl⟩

/-- C21: during the parse (struct record and parser record enabled) `AddValueToStruct`
returns, and what it adds to the struct members is a variable that is one of the found
entities or one of the persistent variables at that time: the member list is left as it is
or extended by one such variable, the two tables are not changed, so a struct whose members
all are in the tables stays such a struct; no variable changes its name; and when the
declaration matches no variable in the found entities and none in the persistent variables
of a struct whose members all are in the tables, the call returns `false` and leaves the
struct members unchanged. -/
theorem AddValueToStruct_members_known (w : World) (sv : StructVars)
    (decl value size alignment : Nat)
    (hsv : w.m_struct_vars = some sv) (hparse : w.m_parser_vars = true) :
    ∃ b w', AddValueToStruct w decl value size alignment = some (b, w') ∧
      (w'.m_struct_members = w.m_struct_members ∨
        ∃ v, (v ∈ w.m_found_entities ∨ v ∈ w.persistent_vars) ∧
          w'.m_struct_members = w.m_struct_members ++ [some v]) ∧
      w'.m_found_entities = w.m_found_entities ∧ w'.persistent_vars = w.persistent_vars ∧
      (∀ id, (w'.heap id).m_name = (w.heap id).m_name) ∧
      (MembersAreKnown w → MembersAreKnown w') ∧
      (MembersAreKnown w → GetVariableByDecl w.heap decl w.m_found_entities = none →
        GetVariableByDecl w.heap decl w.persistent_vars = none →
        b = false ∧ w'.m_struct_members = w.m_struct_members) := by
  obtain ⟨b, w', h⟩ := AddValueToStruct_total w sv decl value size alignment hsv hparse
  obtain ⟨hf, hp, hname, hmem⟩ := AddValueToStruct_adds_known w decl value size alignment b w' h
  refine ⟨b, w', h, ?_, hf, hp, hname, ?_, ?_⟩
  · rcases hmem with h1 | ⟨v, hv, -, h1⟩
    · exact Or.inl h1
    · exact Or.inr ⟨v, hv, h1⟩
  · intro hknown v hv
    rw [hf, hp]
    rcases hmem with h1 | ⟨u, hu, -, h1⟩
    · rw [h1] at hv; exact hknown v hv
    · rw [h1] at hv
      rcases List.mem_append.mp hv with h2 | h2
      · exact hknown v h2
      · simp only [List.mem_singleton, Option.some.injEq] at h2
        subst h2; exact hu
  · intro hknown hfound hpersistent
    exact AddValueToStruct_miss w decl value size alignment b w' hknown hfound hpersistent h

/-- Witness of C21: during the parse of `twoMembers`, with the struct still empty, the
declaration 2 of the found entity `b` is added. -/
theorem AddValueToStruct_members_known_witness :
    ∃ b w', AddValueToStruct noMembersParsing 2 7 8 8 = some (b, w') ∧
      (w'.m_struct_members = noMembersParsing.m_struct_members ∨
        ∃ v, (v ∈ noMembersParsing.m_found_entities ∨ v ∈ noMembersParsing.persistent_vars) ∧
          w'.m_struct_members = noMembersParsing.m_struct_members ++ [some v]) ∧
      w'.m_found_entities = noMembersParsing.m_found_entities ∧
      w'.persistent_vars = noMembersParsing.persistent_vars ∧
      (∀ id, (w'.heap id).m_name = (noMembersParsing.heap id).m_name) ∧
      (MembersAreKnown noMembersParsing → MembersAreKnown w') ∧
      (MembersAreKnown noMembersParsing →
        GetVariableByDecl noMembersParsing.heap 2 noMembersParsing.m_found_entities = none →
        GetVariableByDecl noMembersParsing.heap 2 noMembersParsing.persistent_vars = none →
        b = false ∧ w'.m_struct_members = noMembersParsing.m_struct_members) :=
  AddValueToStruct_members_known noMembersParsing {} 2 7 8 8 rfl rfl

theorem materializeAllocate_call (w : World) (v : Nat) (data : List Nat)
    (hneeds : (w.heap v).m_flags.EVNeedsAllocation = true) :
    (∀ w1 e, materializeAllocate w v data = Sum.inl (w1, e) →
      w1.process.trace = w.process.trace ++
        [Call.allocate (w.heap v).m_byte_size
          (w.process.AllocateMemory (w.heap v).m_byte_size).1]) ∧
    (∀ w1, materializeAllocate w v data = Sum.inr w1 →
      w1.process.trace = w.process.trace ++
        [Call.allocate (w.heap v).m_byte_size
          (w.process.AllocateMemory (w.heap v).m_byte_size).1] ∧
      (w1.heap v).m_flags.EVIsLLDBAllocated = (w.heap v).m_flags.EVIsLLDBAllocated ∧
      (w1.heap v).m_flags.EVIsProgramReference = (w.heap v).m_flags.EVIsProgramReference) := by
  constructor
  · intro w1 e h
    simp only [materializeAllocate, hneeds, ↓reduceIte] at h
    repeat' split at h
    all_goals first
      | (simp only [Sum.inl.injEq, Prod.mk.injEq] at h
         obtain ⟨rfl, -⟩ := h
         simp [World.setVar])
      | cases h
  · intro w1 h
    simp only [materializeAllocate, hneeds, ↓reduceIte] at h
    repeat' split at h
    all_goals first
      | (simp only [Sum.inr.injEq] at h
         subst h
         simp [World.setVar])
      | cases h

theorem materializeAllocate_unsupported (w : World) (v : Nat) (data : List Nat)
    (hneeds : (w.heap v).m_flags.EVNeedsAllocation = true) :
    (∀ w1 e, materializeAllocate w v data = Sum.inl (w1, e) →
      ((w.process.AllocateMemory (w.heap v).m_byte_size).1 = LLDB_INVALID_ADDRESS ∧
        e = some ("Couldn't allocate a memory area to store " ++ (w.heap v).m_name ++ ": "
          ++ Error.AsCString (w.process.AllocateMemory (w.heap v).m_byte_size).2.1) ∧
        w1.heap = w.heap ∧ w1.process.memory = w.process.memory) ∨
      ((w.process.AllocateMemory (w.heap v).m_byte_size).1 ≠ LLDB_INVALID_ADDRESS ∧
        e = some "Couldn't write a composite type to the target: " ∧
        (w1.heap v).m_live_sp = some { address :=
          (w.process.AllocateMemory (w.heap v).m_byte_size).1, isLoadAddress := true } ∧
        (∀ id, id ≠ v → w1.heap id = w.heap id) ∧
        w1.process.memory = w.process.memory)) ∧
    (∀ w1, materializeAllocate w v data = Sum.inr w1 →
      (w.process.AllocateMemory (w.heap v).m_byte_size).1 ≠ LLDB_INVALID_ADDRESS ∧
      (w1.heap v).m_live_sp = some { address :=
        (w.process.AllocateMemory (w.heap v).m_byte_size).1, isLoadAddress := true } ∧
      (∀ id, id ≠ v → w1.heap id = w.heap id) ∧
      (data.take (w.heap v).m_byte_size).length = (w.heap v).m_byte_size ∧
      w1.process.ReadMemory (w.process.AllocateMemory (w.heap v).m_byte_size).1
        (w.heap v).m_byte_size = some (data.take (w.heap v).m_byte_size)) := by
  have hmem : ∀ (p : Process) (n : Nat), (p.AllocateMemory n).2.2.memory = p.memory := by
    intro p n; unfold Process.AllocateMemory; split <;> rfl
  have hfail : ∀ (p : Process) (a : Nat) (bs : List Nat),
      (p.WriteMemory a bs).1 = false → (p.WriteMemory a bs).2 = p := by
    intro p a bs hf
    unfold Process.WriteMemory at hf ⊢
    split
    · rfl
    · rename_i m hm; rw [hm] at hf; cases hf
  have hok : ∀ (p : Process) (a : Nat) (bs : List Nat),
      (p.WriteMemory a bs).1 = true →
      (p.WriteMemory a bs).2.ReadMemory a bs.length = some bs := by
    intro p a bs hf
    unfold Process.WriteMemory at hf ⊢
    split
    · rename_i hm; rw [hm] at hf; cases hf
    · rename_i m hm
      exact readBytes_writeBytes _ _ _ _ hm
  by_cases hinv : (w.process.AllocateMemory (w.heap v).m_byte_size).1 = LLDB_INVALID_ADDRESS
  · constructor
    · intro w1 e h
      simp only [materializeAllocate, hneeds, ↓reduceIte, hinv, Sum.inl.injEq,
        Prod.mk.injEq] at h
      obtain ⟨rfl, rfl⟩ := h
      exact Or.inl ⟨hinv, rfl, rfl, hmem _ _⟩
    · intro w1 h
      simp only [materializeAllocate, hneeds, ↓reduceIte, hinv] at h
      cases h
  · by_cases hlen : (data.take (w.heap v).m_byte_size).length = (w.heap v).m_byte_size
    · cases hw : ((({ w with process := (w.process.AllocateMemory (w.heap v).m_byte_size).2.2 }
          : World).setVar v { w.heap v with
            m_live_sp := some { address := (w.process.AllocateMemory (w.heap v).m_byte_size).1,
                                isLoadAddress := true },
            m_flags := if (w.heap v).m_flags.EVKeepInTarget then
                { (w.heap v).m_flags with EVNeedsAllocation := false }
              else (w.heap v).m_flags }).process.WriteMemory
          (w.process.AllocateMemory (w.heap v).m_byte_size).1
          (data.take (w.heap v).m_byte_size)).1 with
      | false =>
        constructor
        · intro w1 e h
          simp only [materializeAllocate, hneeds, ↓reduceIte, hinv, hlen, ne_eq,
            not_true_eq_false, hw, Bool.not_false, Sum.inl.injEq, Prod.mk.injEq] at h
          obtain ⟨rfl, rfl⟩ := h
          refine Or.inr ⟨hinv, rfl, by simp [World.setVar], ?_, ?_⟩
          · intro id hid
            simp [World.setVar, Function.update_noteq hid]
          · rw [hfail _ _ _ hw]
            simp [World.setVar, hmem]
        · intro w1 h
          simp only [materializeAllocate, hneeds, ↓reduceIte, hinv, hlen, ne_eq,
            not_true_eq_false, hw, Bool.not_false] at h
          cases h
      | true =>
        constructor
        · intro w1 e h
          simp only [materializeAllocate, hneeds, ↓reduceIte, hinv, hlen, ne_eq,
            not_true_eq_false, hw, Bool.not_true, Bool.false_eq_true] at h
          cases h
        · intro w1 h
          simp only [materializeAllocate, hneeds, ↓reduceIte, hinv, hlen, ne_eq,
            not_true_eq_false, hw, Bool.not_true, Bool.false_eq_true, Sum.inr.injEq] at h
          subst h
          refine ⟨hinv, by simp [World.setVar], ?_, hlen, ?_⟩
          · intro id hid
            simp [World.setVar, Function.update_noteq hid]
          · have := hok _ _ _ hw
            rw [hlen] at this
            exact this
    · constructor
      · intro w1 e h
        simp only [materializeAllocate, hneeds, ↓reduceIte, hinv, hlen, ne_eq,
          not_false_eq_true, Sum.inl.injEq, Prod.mk.injEq] at h
        obtain ⟨rfl, rfl⟩ := h
        refine Or.inr ⟨hinv, rfl, by simp [World.setVar], ?_, by simp [World.setVar, hmem]⟩
        intro id hid
        simp [World.setVar, Function.update_noteq hid]
      · intro w1 h
        simp only [materializeAllocate, hneeds, ↓reduceIte, hinv, hlen, ne_eq,
          not_false_eq_true] at h
        cases h

theorem unsupported_with_bytes (w : World) (v addr top bottom : Nat) (err : Error)
    (data : List Nat) (hdata : (w.heap v).m_value_bytes = some data)
    (halloc : (w.heap v).m_flags.EVIsLLDBAllocated = false)
    (href : (w.heap v).m_flags.EVIsProgramReference = false) :
    DoMaterializeOnePersistentVariable true w (some v) addr top bottom err
      = some (false, w, some unsupportedMessage) ∧
    ((w.heap v).m_flags.EVNeedsAllocation = false →
      DoMaterializeOnePersistentVariable false w (some v) addr top bottom err
        = some (false, w, some unsupportedMessage)) ∧
    ((w.heap v).m_flags.EVNeedsAllocation = true →
      ∃ w' e, DoMaterializeOnePersistentVariable false w (some v) addr top bottom err
          = some (false, w', e) ∧
        w'.process.trace = w.process.trace ++
          [Call.allocate (w.heap v).m_byte_size
            (w.process.AllocateMemory (w.heap v).m_byte_size).1] ∧
        (∀ id, id ≠ v → w'.heap id = w.heap id) ∧
        (((w.process.AllocateMemory (w.heap v).m_byte_size).1 = LLDB_INVALID_ADDRESS ∧
            e = some ("Couldn't allocate a memory area to store " ++ (w.heap v).m_name ++ ": "
              ++ Error.AsCString (w.process.AllocateMemory (w.heap v).m_byte_size).2.1) ∧
            w'.heap = w.heap ∧ w'.process.memory = w.process.memory) ∨
          ((w.process.AllocateMemory (w.heap v).m_byte_size).1 ≠ LLDB_INVALID_ADDRESS ∧
            (w'.heap v).m_live_sp = some { address :=
              (w.process.AllocateMemory (w.heap v).m_byte_size).1, isLoadAddress := true } ∧
            ((e = some "Couldn't write a composite type to the target: " ∧
                w'.process.memory = w.process.memory) ∨
              (e = some unsupportedMessage ∧
                w'.process.ReadMemory (w.process.AllocateMemory (w.heap v).m_byte_size).1
                  (w.heap v).m_byte_size = some (data.take (w.heap v).m_byte_size)))))) := by
  refine ⟨?_, ?_, ?_⟩
  · simp [DoMaterializeOnePersistentVariable, hdata, dematerializeLocate, halloc, href,
      unsupportedMessage]
  · intro hneeds
    simp [DoMaterializeOnePersistentVariable, hdata, materializePersistent, materializeAllocate,
      halloc, href, hneeds, unsupportedMessage]
  · intro hneeds
    obtain ⟨hinl, hinr⟩ := materializeAllocate_call w v data hneeds
    obtain ⟨hinl2, hinr2⟩ := materializeAllocate_unsupported w v data hneeds
    simp only [DoMaterializeOnePersistentVariable, hdata, Bool.false_eq_true, ↓reduceIte,
      materializePersistent]
    cases hma : materializeAllocate w v data with
    | inl r =>
      obtain ⟨w1, e⟩ := r
      refine ⟨w1, e, rfl, hinl w1 e hma, ?_, ?_⟩
      · rcases hinl2 w1 e hma with ⟨-, -, hheap, -⟩ | ⟨-, -, -, hother, -⟩
        · intro id _; rw [hheap]
        · exact hother
      · rcases hinl2 w1 e hma with ⟨h1, h2, h3, h4⟩ | ⟨h1, h2, h3, -, h5⟩
        · exact Or.inl ⟨h1, h2, h3, h4⟩
        · exact Or.inr ⟨h1, h3, Or.inl ⟨h2, h5⟩⟩
    | inr w1 =>
      obtain ⟨htrace, h1, h2⟩ := hinr w1 hma
      obtain ⟨g1, g2, g3, -, g5⟩ := hinr2 w1 hma
      simp only [h1, h2, halloc, href, Bool.false_and, Bool.or_self, Bool.false_eq_true,
        ↓reduceIte, Bool.not_false]
      exact ⟨w1, _, rfl, htrace, g3, Or.inr ⟨g1, g2, Or.inr ⟨rfl, g5⟩⟩⟩

/-- C22 as amended: take a persistent variable that is flagged neither `EVIsLLDBAllocated`
nor `EVIsProgramReference`.  When `GetValueBytes ()` is null for it, materialization and
dematerialization return `false` and change nothing, the error included: no message is set.
When it has a host-side buffer, dematerialization returns `false` with the fixed message and
leaves the decl map, the variable and the debuggee as they are, and so does materialization
when `EVNeedsAllocation` is clear as well.  When `EVNeedsAllocation` is set (a combination of
flags that the functions of this file never produce), materialization returns `false` too,
after one call of the allocator for a spare buffer of the size of the variable and without
touching any other variable: with the message of the failed allocation and nothing else
changed when the allocator fails; otherwise the spare buffer is recorded as the live object
and the call ends either with the message of the failed write, debuggee memory unchanged, or
with the fixed message after the host-side bytes have been written to the spare buffer. -/
theorem unsupported_persistent_variable (w : World) (v addr top bottom : Nat) (err : Error)
    (halloc : (w.heap v).m_flags.EVIsLLDBAllocated = false)
    (href : (w.heap v).m_flags.EVIsProgramReference = false) :
    ((w.heap v).m_value_bytes = none →
      ∀ d, DoMaterializeOnePersistentVariable d w (some v) addr top bottom err
        = some (false, w, err)) ∧
    (∀ data, (w.heap v).m_value_bytes = some data →
      DoMaterializeOnePersistentVariable true w (some v) addr top bottom err
        = some (false, w, some unsupportedMessage) ∧
      ((w.heap v).m_flags.EVNeedsAllocation = false →
        DoMaterializeOnePersistentVariable false w (some v) addr top bottom err
          = some (false, w, some unsupportedMessage)) ∧
      ((w.heap v).m_flags.EVNeedsAllocation = true →
        ∃ w' e, DoMaterializeOnePersistentVariable false w (some v) addr top bottom err
            = some (false, w', e) ∧
          w'.process.trace = w.process.trace ++
            [Call.allocate (w.heap v).m_byte_size
              (w.process.AllocateMemory (w.heap v).m_byte_size).1] ∧
          (∀ id, id ≠ v → w'.heap id = w.heap id) ∧
          (((w.process.AllocateMemory (w.heap v).m_byte_size).1 = LLDB_INVALID_ADDRESS ∧
              e = some ("Couldn't allocate a memory area to store " ++ (w.heap v).m_name
                ++ ": " ++ Error.AsCString (w.process.AllocateMemory (w.heap v).m_byte_size).2.1) ∧
              w'.heap = w.heap ∧ w'.process.memory = w.process.memory) ∨
            ((w.process.AllocateMemory (w.heap v).m_byte_size).1 ≠ LLDB_INVALID_ADDRESS ∧
              (w'.heap v).m_live_sp = some { address :=
                (w.process.AllocateMemory (w.heap v).m_byte_size).1, isLoadAddress := true } ∧
              ((e = some "Couldn't write a composite type to the target: " ∧
                  w'.process.memory = w.process.memory) ∨
                (e = some unsupportedMessage ∧
                  w'.process.ReadMemory (w.process.AllocateMemory (w.heap v).m_byte_size).1
                    (w.heap v).m_byte_size = some (data.take (w.heap v).m_byte_size))))))) := by
  refine ⟨?_, ?_⟩
  · intro hnone d
    simp [DoMaterializeOnePersistentVariable, hnone]
  · intro data hdata
    exact unsupported_with_bytes w v addr top bottom err data hdata halloc href

/-- Witness of C22 as amended: a persistent variable without any flag, and one flagged
`EVNeedsAllocation` only, for which the allocator answers 2048. -/
theorem unsupported_persistent_variable_witness :
    DoMaterializeOnePersistentVariable true (flaggedWorld {} []) (some 0) 1000 0 0 none
      = some (false, flaggedWorld {} [], some unsupportedMessage) ∧
    DoMaterializeOnePersistentVariable false (flaggedWorld {} []) (some 0) 1000 0 0 none
      = some (false, flaggedWorld {} [], some unsupportedMessage) ∧
    (∃ w' e, DoMaterializeOnePersistentVariable false
          (flaggedWorld { EVNeedsAllocation := true } [(2048, none)]) (some 0) 1000 0 0 none
          = some (false, w', e) ∧
        w'.process.trace = [Call.allocate 4 2048] ∧
        (∀ id, id ≠ 0 → w'.heap id
          = (flaggedWorld { EVNeedsAllocation := true } [(2048, none)]).heap id) ∧
        (((2048 : Nat) = LLDB_INVALID_ADDRESS ∧
            e = some ("Couldn't allocate a memory area to store " ++ "$1" ++ ": "
              ++ Error.AsCString none) ∧
            w'.heap = (flaggedWorld { EVNeedsAllocation := true } [(2048, none)]).heap ∧
            w'.process.memory
              = (flaggedWorld { EVNeedsAllocation := true } [(2048, none)]).process.memory) ∨
          ((2048 : Nat) ≠ LLDB_INVALID_ADDRESS ∧
            (w'.heap 0).m_live_sp = some { address := 2048, isLoadAddress := true } ∧
            ((e = some "Couldn't write a composite type to the target: " ∧
                w'.process.memory
                  = (flaggedWorld { EVNeedsAllocation := true } [(2048, none)]).process.memory) ∨
              (e = some unsupportedMessage ∧
                w'.process.ReadMemory 2048 4 = some [1, 2, 3, 4]))))) ∧
    (∀ d, DoMaterializeOnePersistentVariable d noBytesWorld (some 0) 1000 0 0 none
      = some (false, noBytesWorld, none)) :=
  ⟨((unsupported_persistent_variable (flaggedWorld {} []) 0 1000 0 0 none rfl rfl).2
      [1, 2, 3, 4] rfl).1,
    ((unsupported_persistent_variable (flaggedWorld {} []) 0 1000 0 0 none rfl rfl).2
      [1, 2, 3, 4] rfl).2.1 rfl,
    ((unsupported_persistent_variable (flaggedWorld { EVNeedsAllocation := true } [(2048, none)])
      0 1000 0 0 none rfl rfl).2 [1, 2, 3, 4] rfl).2.2 rfl,
    (unsupported_persistent_variable noBytesWorld 0 1000 0 0 none rfl rfl).1 rfl⟩

/-- Counterexample to C22 as stated: the persistent variable of `noBytesWorld` has no flag
set and `GetValueBytes ()` is null for it.  Its materialization and its dematerialization
return `false` at the test of the host-side buffer, before any flag is looked at, and leave
the error as it was: no message is set. -/
theorem unsupported_persistent_variable_counterexample :
    (noBytesWorld.heap 0).m_flags = {} ∧ (noBytesWorld.heap 0).m_value_bytes = none ∧
    DoMaterializeOnePersistentVariable false noBytesWorld (some 0) 1000 0 0 none
      = some (false, noBytesWorld, none) ∧
    DoMaterializeOnePersistentVariable true noBytesWorld (some 0) 1000 0 0 none
      = some (false, noBytesWorld, none) :=
  ⟨rfl, rfl, rfl, rfl⟩

/-- C23 as amended: `WillParse` enables the parser record of the decl map and changes
nothing else: the found entities, the struct members, the layout record, the persistent
variables and every variable are what they were, so `GetStructInfo` answers as before.  On
a newly constructed decl map the two tables are therefore empty and the struct is not laid
out after `WillParse`; with a frame the call always returns. -/
theorem WillParse_keeps_tables (exe_ctx : ExecutionContext) (w : World) (b : Bool) (w' : World)
    (h : WillParse exe_ctx w = some (b, w')) :
    w'.m_parser_vars = true ∧
    w'.m_found_entities = w.m_found_entities ∧ w'.m_struct_members = w.m_struct_members ∧
    w'.m_struct_vars = w.m_struct_vars ∧ w'.persistent_vars = w.persistent_vars ∧
    w'.heap = w.heap ∧ GetStructInfo w' = GetStructInfo w ∧
    (∀ keep, w = World.create keep →
      w'.m_found_entities = [] ∧ w'.m_struct_members = [] ∧ GetStructInfo w' = some none) ∧
    (exe_ctx.frame = true → ∀ w0, ∃ b0 w1, WillParse exe_ctx w0 = some (b0, w1)) := by
  have key : w' = { w with m_parser_vars := true } := by
    simp only [WillParse] at h
    split at h
    · cases h
    · split at h <;> (cases h; rfl)
  subst key
  refine ⟨rfl, rfl, rfl, rfl, rfl, rfl, rfl, ?_, ?_⟩
  · rintro keep rfl
    exact ⟨rfl, rfl, rfl⟩
  · intro hframe w0
    simp only [WillParse, hframe, Bool.not_true, Bool.false_and, Bool.false_eq_true, ↓reduceIte]
    split
    · exact ⟨_, _, rfl⟩
    · exact ⟨_, _, rfl⟩

/-- Witness of C23 as amended: `WillParse` on the newly constructed decl map. -/
theorem WillParse_keeps_tables_witness :
    (afterWillParse {} (World.create false)).m_parser_vars = true ∧
    (afterWillParse {} (World.create false)).m_found_entities
      = (World.create false).m_found_entities ∧
    (afterWillParse {} (World.create false)).m_struct_members
      = (World.create false).m_struct_members ∧
    (afterWillParse {} (World.create false)).m_struct_vars = (World.create false).m_struct_vars ∧
    (afterWillParse {} (World.create false)).persistent_vars
      = (World.create false).persistent_vars ∧
    (afterWillParse {} (World.create false)).heap = (World.create false).heap ∧
    GetStructInfo (afterWillParse {} (World.create false)) = GetStructInfo (World.create false) ∧
    (∀ keep, World.create false = World.create keep →
      (afterWillParse {} (World.create false)).m_found_entities = [] ∧
      (afterWillParse {} (World.create false)).m_struct_members = [] ∧
      GetStructInfo (afterWillParse {} (World.create false)) = some none) ∧
    (({} : ExecutionContext).frame = true →
      ∀ w0, ∃ b0 w1, WillParse {} w0 = some (b0, w1)) :=
  WillParse_keeps_tables {} (World.create false) true (afterWillParse {} (World.create false)) rfl

/-- Counterexample to C23 as stated: the decl map of `twoMembers` holds two found entities
in a struct that is laid out.  After `WillParse` the found entities and the struct members
are still the two variables and `GetStructInfo` still reports the layout of size 16. -/
theorem WillParse_keeps_tables_counterexample :
    ∃ w', WillParse {} (afterLayout twoMembers) = some (true, w') ∧
      w'.m_found_entities = [0, 1] ∧ w'.m_struct_members = [some 0, some 1] ∧
      GetStructInfo w' = some (some (2, 16, 4)) :=
  ⟨_, rfl, rfl, rfl, rfl⟩

/-- C24: `Dematerialize` on a struct of distinct members overwrites the host-side bytes of a
variable only if the variable is flagged `EVNeedsFreezeDry` or `EVKeepInTarget`: whatever
the call returns, a variable with neither flag has the host-side bytes it had before, and a
variable whose host-side bytes have changed had one of the two flags. -/
theorem Dematerialize_keeps_unflagged_bytes (exe_ctx : ExecutionContext) (w : World)
    (result_sp : Option Nat) (top bottom : Nat) (err : Error) (b : Bool) (w' : World)
    (err' : Error) (result_sp' : Option Nat) (v : Nat)
    (hnodup : w.m_struct_members.Nodup)
    (hrun : Dematerialize exe_ctx w result_sp top bottom err = some (b, w', err', result_sp')) :
    ((w.heap v).m_flags.EVNeedsFreezeDry = false → (w.heap v).m_flags.EVKeepInTarget = false →
      (w'.heap v).m_value_bytes = (w.heap v).m_value_bytes) ∧
    ((w'.heap v).m_value_bytes ≠ (w.heap v).m_value_bytes →
      (w.heap v).m_flags.EVNeedsFreezeDry = true ∨ (w.heap v).m_flags.EVKeepInTarget = true) := by
  have key : (w.heap v).m_flags.EVNeedsFreezeDry = false →
      (w.heap v).m_flags.EVKeepInTarget = false →
      (w'.heap v).m_value_bytes = (w.heap v).m_value_bytes :=
    fun hfd hkeep =>
      Dematerialize_keeps_bytes exe_ctx w result_sp top bottom err b w' err' result_sp' v
        hnodup hfd hkeep hrun
  refine ⟨key, ?_⟩
  intro hne
  by_contra hnot
  simp only [not_or, Bool.not_eq_true] at hnot
  exact hne (key hnot.1 hnot.2)

/-- Witness of C24: the program reference `$0` of `referenceWorld` without further flags,
whose struct slot holds 3000 after `Materialize`, keeps its host-side bytes 1, 2, 3, 4
although the debuggee holds other bytes at 3000. -/
theorem Dematerialize_keeps_unflagged_bytes_witness :
    (referenceWorld { EVIsProgramReference := true }).m_struct_members.Nodup ∧
    ((((referenceWorld { EVIsProgramReference := true }).heap 0).m_flags.EVNeedsFreezeDry = false →
      ((referenceWorld { EVIsProgramReference := true }).heap 0).m_flags.EVKeepInTarget = false →
      ((afterDematerialize {} (referenceWorld { EVIsProgramReference := true })
          LLDB_INVALID_ADDRESS LLDB_INVALID_ADDRESS).heap 0).m_value_bytes
        = ((referenceWorld { EVIsProgramReference := true }).heap 0).m_value_bytes) ∧
    (((afterDematerialize {} (referenceWorld { EVIsProgramReference := true })
          LLDB_INVALID_ADDRESS LLDB_INVALID_ADDRESS).heap 0).m_value_bytes
        ≠ ((referenceWorld { EVIsProgramReference := true }).heap 0).m_value_bytes →
      ((referenceWorld { EVIsProgramReference := true }).heap 0).m_flags.EVNeedsFreezeDry = true ∨
      ((referenceWorld { EVIsProgramReference := true }).heap 0).m_flags.EVKeepInTarget = true)) :=
  ⟨by decide,
    Dematerialize_keeps_unflagged_bytes {} (referenceWorld { EVIsProgramReference := true })
      none LLDB_INVALID_ADDRESS LLDB_INVALID_ADDRESS none true
      (afterDematerialize {} (referenceWorld { EVIsProgramReference := true })
        LLDB_INVALID_ADDRESS LLDB_INVALID_ADDRESS) none none 0 (by decide) rfl⟩

/-- C26: the release step of the dematerialization of a persistent variable does not look
at the outcome of `DeallocateMemory`.  Called with a successful `err`, it returns `true` and
leaves `err` successful whatever the deallocation answers; so `Dematerialize` on the struct
of `failingRelease`, where the deallocation of the spare buffer at 2048 fails with the
reason `process exited`, makes that call, returns `true` and reports no error.  Called
with an `err` that already holds a failure, the step returns `false` although the
deallocation succeeded, with a message whose reason part is empty. -/
theorem deallocation_failure_is_dropped :
    (∀ (w : World) (v mem : Nat),
      (dematerializeRelease w v mem none).1 = true ∧
      (dematerializeRelease w v mem none).2.2 = none) ∧
    (failingRelease.process.DeallocateMemory 2048).1 = some "process exited" ∧
    (Dematerialize {} failingRelease none LLDB_INVALID_ADDRESS LLDB_INVALID_ADDRESS none).map
      (fun r => (r.1, r.2.2.1, r.2.1.process.trace))
      = some (true, none,
          [Call.allocate 16 1004, Call.allocate 4 2048, Call.deallocate 2048]) ∧
    (DoMaterializeOnePersistentVariable true resultComputed (some 0) 1008 LLDB_INVALID_ADDRESS
        LLDB_INVALID_ADDRESS (some "earlier failure")).map (fun r => (r.1, r.2.2))
      = some (false, some "Couldn't deallocate memory for $result: ") := by
  refine ⟨?_, rfl, rfl, rfl⟩
  intro w v mem
  simp only [dematerializeRelease]
  split
  · split
    · exact ⟨rfl, rfl⟩
    · simp [Error.Success]
  · exact ⟨rfl, rfl⟩

theorem DoMaterialize_struct_vars (exe_ctx : ExecutionContext) (w : World) (top bottom : Nat)
    (ptr : Option (Option Nat)) (err : Error) (b : Bool) (w' : World) (err' : Error)
    (res : Option Nat)
    (hrun : DoMaterialize false exe_ctx w top bottom ptr err = some (b, w', err', res)) :
    w'.m_struct_vars = w.m_struct_vars := by
  simp only [DoMaterialize] at hrun
  split at hrun
  · cases hrun
  · split at hrun
    · cases hrun; rfl
    · split at hrun
      · cases hrun; rfl
      · split at hrun
        · cases hrun
        · split at hrun
          · cases hrun; rfl
          · simp only [Bool.not_false, ↓reduceIte] at hrun
            split at hrun
            · rename_i w1 e hA
              obtain ⟨p, m, rfl, -, -⟩ := allocateStruct_frame_inl _ _ _ _ _ hA
              cases hrun
              rfl
            · rename_i w1 mv1 e hA
              obtain ⟨p, rfl, -, -⟩ := allocateStruct_frame_inr _ _ _ _ _ _ hA
              split at hrun
              · cases hrun
              · have hext := materializeMembers_extends _ _ _ _ _ _ _ _ _ _ _ _ _ _ _ hrun
                exact hext.2.2.2.2.2.1

theorem Materialize_location (exe_ctx : ExecutionContext) (w : World) (sv : StructVars)
    (struct_address : Nat) (err : Error) (w' : World) (err' : Error) (address : Nat)
    (hsv : w.m_struct_vars = some sv) (hlaid : sv.m_struct_laid_out = true)
    (hsize : sv.m_struct_size ≠ 0) (hframe : exe_ctx.frame = true)
    (hrun : Materialize exe_ctx w struct_address err = some (true, w', err', address)) :
    ∃ mem later mv',
      w'.process.trace = w.process.trace ++ releasedBuffer w
        ++ [Call.allocate (sv.m_struct_alignment + sv.m_struct_size) mem] ++ later ∧
      mem ≠ LLDB_INVALID_ADDRESS ∧
      w'.m_material_vars = some mv' ∧ mv'.m_materialized_location = address ∧
      address = alignLocation mem sv.m_struct_alignment ∧
      w'.m_struct_vars = some sv := by
  have key : ∀ (w0 : World) (mv : MaterialVars), w0.m_struct_vars = some sv →
      w0.m_material_vars = some mv → w0.process = w.process →
      releasedBuffer w0 = releasedBuffer w →
      (match DoMaterialize false exe_ctx w0 LLDB_INVALID_ADDRESS LLDB_INVALID_ADDRESS none err with
        | none => none
        | some (result, w1, err1, _) =>
          if result then
            match w1.m_material_vars with
            | none => none
            | some mv => some (true, w1, err1, mv.m_materialized_location)
          else some (false, w1, err1, struct_address)) = some (true, w', err', address) →
      ∃ mem later mv',
        w'.process.trace = w.process.trace ++ releasedBuffer w
          ++ [Call.allocate (sv.m_struct_alignment + sv.m_struct_size) mem] ++ later ∧
        mem ≠ LLDB_INVALID_ADDRESS ∧
        w'.m_material_vars = some mv' ∧ mv'.m_materialized_location = address ∧
        address = alignLocation mem sv.m_struct_alignment ∧
        w'.m_struct_vars = some sv := by
    intro w0 mv hsv0 hmv0 hproc hrel h
    split at h
    · cases h
    · rename_i result w1 err1 res hD
      obtain ⟨mem, later, htrace, hloc⟩ :=
        DoMaterialize_allocation exe_ctx w0 sv mv _ _ _ _ _ _ _ _ hsv0 hmv0 hlaid hsize hframe hD
      have hsv1 := DoMaterialize_struct_vars _ _ _ _ _ _ _ _ _ _ hD
      rw [hproc, hrel] at htrace
      cases result with
      | false => simp at h
      | true =>
        obtain ⟨hvalid, mv', hmv', hloc'⟩ := hloc rfl
        simp only [hmv', ↓reduceIte, Option.some.injEq, Prod.mk.injEq] at h
        obtain ⟨-, rfl, -, rfl⟩ := h
        exact ⟨mem, later, mv', htrace, hvalid, hmv', rfl, hloc', hsv1.trans hsv0⟩
  unfold Materialize at hrun
  cases hmv : w.m_material_vars with
  | none =>
    rw [hmv] at hrun
    exact key { w with m_material_vars := some {} } {} hsv rfl rfl
      (by simp [releasedBuffer, hmv]) hrun
  | some mv =>
    rw [hmv] at hrun
    exact key _ mv hsv hmv rfl rfl hrun

theorem alignLocation_eq_iff (mem a : Nat) (ha : 0 < a) : alignLocation mem a = mem ↔ a ∣ mem := by
  unfold alignLocation
  have hlt : mem % a < a := Nat.mod_lt _ ha
  constructor
  · intro h
    split at h
    · omega
    · rename_i hmod
      exact Nat.dvd_of_mod_eq_zero (by omega)
  · intro h
    have := Nat.mod_eq_zero_of_dvd h
    simp [this]

/-- C27: after a successful `Materialize` on a laid-out struct of non-zero size and positive
alignment (non-null frame), the transfer buffer is the memory the allocator returned at
`mem`, and the address recorded for its release is the struct address, `mem` rounded up to
the alignment of the struct.  That address, when it is not 0, is the one passed to the
deallocate call of `DidDematerialize`, and to the deallocate call that a further
`Materialize` makes before it allocates again; it is the address the allocator returned
only if that one is a multiple of the alignment. -/
theorem transfer_buffer_release_address (exe_ctx : ExecutionContext) (w : World)
    (sv : StructVars) (struct_address : Nat) (err : Error) (w1 : World) (err1 : Error)
    (address : Nat)
    (hsv : w.m_struct_vars = some sv) (hlaid : sv.m_struct_laid_out = true)
    (hsize : sv.m_struct_size ≠ 0) (halign : 0 < sv.m_struct_alignment)
    (hframe : exe_ctx.frame = true)
    (hrun : Materialize exe_ctx w struct_address err = some (true, w1, err1, address)) :
    ∃ mem later,
      w1.process.trace = w.process.trace ++ releasedBuffer w
        ++ [Call.allocate (sv.m_struct_alignment + sv.m_struct_size) mem] ++ later ∧
      address = alignLocation mem sv.m_struct_alignment ∧
      (address = mem ↔ sv.m_struct_alignment ∣ mem) ∧
      (address ≠ 0 →
        (DidDematerialize w1).process.trace = w1.process.trace ++ [Call.deallocate address] ∧
        ∀ (exe_ctx2 : ExecutionContext) (struct_address2 : Nat) (err2 : Error) (b2 : Bool)
          (w2 : World) (err3 : Error) (address2 : Nat), exe_ctx2.frame = true →
          Materialize exe_ctx2 w1 struct_address2 err2 = some (b2, w2, err3, address2) →
          ∃ mem2 later2, w2.process.trace = w1.process.trace ++ [Call.deallocate address]
            ++ [Call.allocate (sv.m_struct_alignment + sv.m_struct_size) mem2] ++ later2) := by
  obtain ⟨mem, later, mv', htrace, -, hmv', hloc, haddr, hsv1⟩ :=
    Materialize_location exe_ctx w sv struct_address err w1 err1 address hsv hlaid hsize hframe
      hrun
  refine ⟨mem, later, htrace, haddr, ?_, ?_⟩
  · rw [haddr]; exact alignLocation_eq_iff mem _ halign
  · intro hne
    have hrel : releasedBuffer w1 = [Call.deallocate address] := by
      simp [releasedBuffer, hmv', hloc, hne]
    constructor
    · simp [DidDematerialize, hmv', hloc, hne]
    · intro exe_ctx2 sa2 err2 b2 w2 err3 address2 hframe2 hrun2
      unfold Materialize at hrun2
      rw [hmv'] at hrun2
      simp only at hrun2
      split at hrun2
      · cases hrun2
      · rename_i result w3 err4 res hD
        obtain ⟨mem2, later2, htrace2, -⟩ :=
          DoMaterialize_allocation exe_ctx2 w1 sv mv' _ _ _ _ _ _ _ _ hsv1 hmv' hlaid hsize
            hframe2 hD
        have hw : w2 = w3 := by
          split at hrun2
          · split at hrun2
            · cases hrun2
            · cases hrun2; rfl
          · cases hrun2; rfl
        subst hw
        exact ⟨mem2, later2, by rw [htrace2, hrel]⟩

/-- Witness of C27: for the struct of `resultWorld` (alignment 8, size 8) the allocator
answers 1004; the struct is placed at 1008, and 1008 is the address that
`DidDematerialize` deallocates. -/
theorem transfer_buffer_release_address_witness :
    (DidDematerialize (afterMaterialize {} (afterLayout resultWorld))).process.trace
      = [Call.allocate 16 1004, Call.allocate 4 2048, Call.deallocate 1008] ∧
    ∃ mem later,
      (afterMaterialize {} (afterLayout resultWorld)).process.trace
        = (afterLayout resultWorld).process.trace ++ releasedBuffer (afterLayout resultWorld)
          ++ [Call.allocate (8 + 8) mem] ++ later ∧
      1008 = alignLocation mem 8 ∧
      (1008 = mem ↔ 8 ∣ mem) ∧
      (1008 ≠ 0 →
        (DidDematerialize (afterMaterialize {} (afterLayout resultWorld))).process.trace
          = (afterMaterialize {} (afterLayout resultWorld)).process.trace
            ++ [Call.deallocate 1008] ∧
        ∀ (exe_ctx2 : ExecutionContext) (struct_address2 : Nat) (err2 : Error) (b2 : Bool)
          (w2 : World) (err3 : Error) (address2 : Nat), exe_ctx2.frame = true →
          Materialize exe_ctx2 (afterMaterialize {} (afterLayout resultWorld)) struct_address2 err2
            = some (b2, w2, err3, address2) →
          ∃ mem2 later2, w2.process.trace
            = (afterMaterialize {} (afterLayout resultWorld)).process.trace
              ++ [Call.deallocate 1008] ++ [Call.allocate (8 + 8) mem2] ++ later2) :=
  ⟨rfl, transfer_buffer_release_address {} (afterLayout resultWorld)
    { m_struct_alignment := 8, m_struct_size := 8, m_struct_laid_out := true,
      m_result_name := "$result" } 0 none
    (afterMaterialize {} (afterLayout resultWorld)) none 1008 rfl rfl (by decide) (by decide) rfl
    rfl⟩

theorem layOutMembers_offsets_aligned (ms : List (Option Nat)) :
    ∀ (w : World) (sv : StructVars) (idx c : Nat) (w' : World) (sv' : StructVars) (c' : Nat),
      c + layoutExtent w ms < 2 ^ 63 →
      layOutMembers w sv ms idx c = some (true, w', sv', c') →
      ∀ v, some v ∈ ms ∨ OffsetAligned w v → OffsetAligned w' v := by
  induction ms with
  | nil =>
    intro w sv idx c w' sv' c' _ h v hv
    simp only [layOutMembers, Option.some.injEq, Prod.mk.injEq] at h
    obtain ⟨-, rfl, -, -⟩ := h
    rcases hv with hv | hv
    · cases hv
    · exact hv
  | cons m rest ih =>
    intro w sv idx c w' sv' c' hbound h v hv
    cases m with
    | none => simp [layOutMembers] at h
    | some u =>
      cases hj : (w.heap u).m_jit_vars with
      | none => simp [layOutMembers, hj] at h
      | some j =>
        by_cases hne : j.m_alignment = 0
        · simp [layOutMembers, hj, hne] at h
        · rw [layOutMembers_step w sv u j rest idx c hj hne hbound] at h
          have hle := roundUp_le c j.m_alignment
          rw [layoutExtent_cons w u j rest hj] at hbound
          apply ih _ _ _ _ _ _ _ (by rw [layoutExtent_setVar w u j _ hj]; omega) h v
          have hu : OffsetAligned
              (w.setVar u { w.heap u with m_jit_vars := some { j with m_offset :=
                if c % j.m_alignment ≠ 0 then c + (j.m_alignment - c % j.m_alignment) else c } })
              u := by
            refine ⟨_, by rw [setVar_heap_self], ?_⟩
            exact (roundUp_isLeast c j.m_alignment hne).1.2
          by_cases hvu : v = u
          · subst hvu; exact Or.inr hu
          · rcases hv with hv | hv
            · rcases List.mem_cons.mp hv with h1 | h1
              · exact absurd (Option.some.inj h1) hvu
              · exact Or.inl h1
            · right
              obtain ⟨j0, hj0, hd⟩ := hv
              exact ⟨j0, by rw [setVar_heap_ne _ _ _ _ hvu]; exact hj0, hd⟩

theorem pow2_dvd_word (k : Nat) (hk : k < 64) : ((2 ^ k : Nat) : Int) ∣ (2 : Int) ^ 64 := by
  have hsum : k + (64 - k) = 64 := by omega
  have : (2 : Int) ^ 64 = ((2 ^ k : Nat) : Int) * 2 ^ (64 - k) := by
    push_cast
    rw [← pow_add, hsum]
    norm_num
  exact Dvd.intro _ this.symm

theorem dvd_asOffT (k : Nat) (hk : k < 64) (x : Nat) :
    ((2 ^ k : Nat) : Int) ∣ asOffT x ↔ 2 ^ k ∣ x := by
  have hw := pow2_dvd_word k hk
  have hmod : ((2 ^ k : Nat) : Int) ∣ ((x % 2 ^ 64 : Nat) : Int) ↔ 2 ^ k ∣ x := by
    rw [Int.natCast_dvd_natCast]
    have h64 : (2 ^ k : Nat) ∣ 2 ^ 64 := pow_dvd_pow 2 (Nat.le_of_lt hk)
    exact (Nat.dvd_mod_iff h64)
  unfold asOffT
  split
  · exact hmod
  · rw [← hmod]
    exact (dvd_sub_left hw)

theorem asOffT_pow2 (k : Nat) (hk : k < 64) :
    asOffT (2 ^ k) = ((2 ^ k : Nat) : Int) ∨ asOffT (2 ^ k) = -((2 ^ k : Nat) : Int) := by
  have hlt : 2 ^ k < 2 ^ 64 := Nat.pow_lt_pow_right (by norm_num) hk
  have hmod : 2 ^ k % 2 ^ 64 = 2 ^ k := Nat.mod_eq_of_lt hlt
  unfold asOffT
  rw [hmod]
  split
  · exact Or.inl rfl
  · rename_i h
    right
    have hk63 : k = 63 := by
      by_contra hne
      have : k < 63 := by omega
      exact h (Nat.pow_lt_pow_right (by norm_num) this)
    subst hk63
    norm_num

theorem toWord_dvd (k : Nat) (hk : k < 64) (x : Int) (h : ((2 ^ k : Nat) : Int) ∣ x) :
    2 ^ k ∣ toWord x := by
  have hw := pow2_dvd_word k hk
  have h1 : ((2 ^ k : Nat) : Int) ∣ x % 2 ^ 64 := by
    rw [Int.emod_def]
    exact dvd_sub h (Dvd.dvd.mul_right hw _)
  have hnn : 0 ≤ x % 2 ^ 64 := Int.emod_nonneg _ (by norm_num)
  unfold toWord
  rw [← Int.natCast_dvd_natCast, Int.toNat_of_nonneg hnn]
  exact h1

theorem roundUp_word_dvd (k : Nat) (hk : k < 64) (c : Nat) :
    2 ^ k ∣ (if (asOffT c).tmod (asOffT (2 ^ k)) ≠ 0 then
        toWord (asOffT c + (asOffT (2 ^ k) - (asOffT c).tmod (asOffT (2 ^ k))))
      else c) := by
  have hsa : ((2 ^ k : Nat) : Int) ∣ asOffT (2 ^ k) := by
    rcases asOffT_pow2 k hk with h | h <;> rw [h]
    exact (dvd_neg).mpr (dvd_refl _)
  split
  · apply toWord_dvd k hk
    have hdecomp := Int.tmod_add_tdiv (asOffT c) (asOffT (2 ^ k))
    have : asOffT c + (asOffT (2 ^ k) - (asOffT c).tmod (asOffT (2 ^ k)))
        = asOffT (2 ^ k) * ((asOffT c).tdiv (asOffT (2 ^ k)) + 1) := by
      linarith
    rw [this]
    exact Dvd.dvd.mul_right hsa _
  · rename_i h
    have h0 : (asOffT c).tmod (asOffT (2 ^ k)) = 0 := by
      by_contra hne; exact h hne
    have hdvd : asOffT (2 ^ k) ∣ asOffT c := Int.dvd_of_tmod_eq_zero h0
    exact (dvd_asOffT k hk c).mp (dvd_trans hsa hdvd)

theorem setVar_offset_jit (w : World) (v : Nat) (j : JITVars) (off u : Nat) :
    ((w.setVar v { w.heap v with m_jit_vars := some { j with m_offset := off } }).heap
      u).m_jit_vars
    = if u = v then some { j with m_offset := off } else (w.heap u).m_jit_vars := by
  by_cases huv : u = v
  · subst huv; simp [World.setVar]
  · simp [World.setVar, huv]

theorem layOutMembers_cons_eq (w : World) (sv : StructVars) (v : Nat) (j : JITVars)
    (rest : List (Option Nat)) (idx c : Nat) (hj : (w.heap v).m_jit_vars = some j)
    (ha : j.m_alignment ≠ 0) (off : Nat)
    (hoff : off = if (asOffT c).tmod (asOffT j.m_alignment) ≠ 0 then
        toWord (asOffT c + (asOffT j.m_alignment - (asOffT c).tmod (asOffT j.m_alignment)))
      else c) :
    layOutMembers w sv (some v :: rest) idx c
      = layOutMembers
          (w.setVar v { w.heap v with m_jit_vars := some { j with m_offset := off } })
          (if idx = 0 then { sv with m_struct_alignment := j.m_alignment } else sv)
          rest (idx + 1) ((off + j.m_size) % 2 ^ 64) := by
  subst hoff
  simp only [layOutMembers, hj, ha, if_false]

theorem layOutMembers_offsets_pow2 (ms : List (Option Nat)) :
    ∀ (w : World) (sv : StructVars) (idx c : Nat) (w' : World) (sv' : StructVars) (c' : Nat),
      (∀ v j, some v ∈ ms → (w.heap v).m_jit_vars = some j →
        ∃ k, k < 64 ∧ j.m_alignment = 2 ^ k) →
      layOutMembers w sv ms idx c = some (true, w', sv', c') →
      ∀ v, some v ∈ ms ∨ OffsetAligned w v → OffsetAligned w' v := by
  induction ms with
  | nil =>
    intro w sv idx c w' sv' c' _ h v hv
    simp only [layOutMembers, Option.some.injEq, Prod.mk.injEq] at h
    obtain ⟨-, rfl, -, -⟩ := h
    rcases hv with hv | hv
    · cases hv
    · exact hv
  | cons m rest ih =>
    intro w sv idx c w' sv' c' hpow h v hv
    cases m with
    | none => simp [layOutMembers] at h
    | some u =>
      cases hj : (w.heap u).m_jit_vars with
      | none => simp [layOutMembers, hj] at h
      | some j =>
        obtain ⟨k, hk, hjk⟩ := hpow u j (List.mem_cons_self _ _) hj
        have hne : j.m_alignment ≠ 0 := by
          rw [hjk]; exact Nat.pos_iff_ne_zero.mp (Nat.pos_pow_of_pos k (by norm_num))
        rw [layOutMembers_cons_eq w sv u j rest idx c hj hne _ rfl] at h
        apply ih _ _ _ _ _ _ _ ?_ h v
        · have hu : OffsetAligned
              (w.setVar u { w.heap u with m_jit_vars := some { j with m_offset :=
                (if (asOffT c).tmod (asOffT j.m_alignment) ≠ 0 then
                  toWord (asOffT c
                    + (asOffT j.m_alignment - (asOffT c).tmod (asOffT j.m_alignment)))
                else c) } })
              u := by
            refine ⟨_, by rw [setVar_heap_self], ?_⟩
            show j.m_alignment ∣ _
            rw [hjk]
            exact roundUp_word_dvd k hk c
          by_cases hvu : v = u
          · subst hvu; exact Or.inr hu
          · rcases hv with hv | hv
            · rcases List.mem_cons.mp hv with h1 | h1
              · exact absurd (Option.some.inj h1) hvu
              · exact Or.inl h1
            · right
              obtain ⟨j0, hj0, hd⟩ := hv
              exact ⟨j0, by rw [setVar_heap_ne _ _ _ _ hvu]; exact hj0, hd⟩
        · intro x jx hx hjx
          rw [setVar_offset_jit] at hjx
          by_cases hxu : x = u
          · subst hxu
            simp only [↓reduceIte, Option.some.injEq] at hjx
            subst hjx
            exact ⟨k, hk, hjk⟩
          · simp only [hxu, ↓reduceIte] at hjx
            exact hpow x jx (List.mem_cons_of_mem _ hx) hjx

theorem DoMaterialize_static (exe_ctx : ExecutionContext) (w : World) (top bottom : Nat)
    (ptr : Option (Option Nat)) (err : Error) (b : Bool) (w' : World) (err' : Error)
    (res : Option Nat)
    (hrun : DoMaterialize false exe_ctx w top bottom ptr err = some (b, w', err', res)) :
    w'.m_struct_members = w.m_struct_members ∧
    ∀ id, staticPart (w'.heap id) = staticPart (w.heap id) := by
  simp only [DoMaterialize] at hrun
  split at hrun
  · cases hrun
  · split at hrun
    · cases hrun; exact ⟨rfl, fun _ => rfl⟩
    · split at hrun
      · cases hrun; exact ⟨rfl, fun _ => rfl⟩
      · split at hrun
        · cases hrun
        · split at hrun
          · cases hrun; exact ⟨rfl, fun _ => rfl⟩
          · simp only [Bool.not_false, ↓reduceIte] at hrun
            split at hrun
            · rename_i w1 e hA
              obtain ⟨p, m, rfl, -, -⟩ := allocateStruct_frame_inl _ _ _ _ _ hA
              cases hrun
              exact ⟨rfl, fun _ => rfl⟩
            · rename_i w1 mv1 e hA
              obtain ⟨p, rfl, -, -⟩ := allocateStruct_frame_inr _ _ _ _ _ _ hA
              split at hrun
              · cases hrun
              · have hext := materializeMembers_extends _ _ _ _ _ _ _ _ _ _ _ _ _ _ _ hrun
                exact ⟨hext.2.2.1, hext.2.2.2.2.2.2.2.1⟩

theorem Materialize_static (exe_ctx : ExecutionContext) (w : World) (struct_address : Nat)
    (err : Error) (b : Bool) (w' : World) (err' : Error) (address : Nat)
    (hrun : Materialize exe_ctx w struct_address err = some (b, w', err', address)) :
    w'.m_struct_members = w.m_struct_members ∧
    ∀ id, staticPart (w'.heap id) = staticPart (w.heap id) := by
  simp only [Materialize] at hrun
  split at hrun
  · cases hrun
  · rename_i result w1 err1 res hD
    have hw : w' = w1 := by
      split at hrun
      · split at hrun
        · cases hrun
        · cases hrun; rfl
      · cases hrun; rfl
    subst hw
    have h := DoMaterialize_static _ _ _ _ _ _ _ _ _ _ hD
    cases hmv : w.m_material_vars <;> rw [hmv] at h <;> exact h

/-- Counterexample to C28 as stated: both members of `overflowingPair` have alignment 3, the
first one has size `2 ^ 63 + 1`.  The cursor after it is a negative `off_t`, the remainder by
3 is -1, and the second member gets the offset `2 ^ 63 + 5`.  `Materialize` succeeds with
the struct at 1005, and the address `1005 + (2 ^ 63 + 5)` of the second member is not a
multiple of 3. -/
theorem member_addresses_are_aligned_counterexample :
    DoStructLayout overflowingPair = some (true, afterLayout overflowingPair) ∧
    GetStructInfo (afterLayout overflowingPair) = some (some (2, 2 ^ 63 + 13, 3)) ∧
    Materialize {} (afterLayout overflowingPair) 0 none
      = some (true, afterMaterialize {} (afterLayout overflowingPair), none, 1005) ∧
    ((afterMaterialize {} (afterLayout overflowingPair)).heap 1).m_jit_vars
      = some { m_alignment := 3, m_size := 8, m_offset := 2 ^ 63 + 5 } ∧
    ¬ (3 ∣ 1005 + (2 ^ 63 + 5)) :=
  ⟨rfl, by decide, rfl, by decide, by decide⟩

/-- C28 as amended: let `DoStructLayout` lay out a struct whose members all have a positive
alignment that divides the alignment of the first member, and let the struct have a
non-zero size.  Let either every alignment be a power of two (below `2 ^ 64`), or let the
alignments and sizes sum to less than `2 ^ 63` and the struct address plus that sum not
exceed `2 ^ 64` (no 64-bit number overflows).  After a `Materialize` (non-null frame) that
returns `true`, for every struct member the struct address plus the offset of the member is
a multiple of the alignment of the member; the members, their sizes and their alignments
are the ones given to the layout. -/
theorem member_addresses_are_aligned (exe_ctx : ExecutionContext) (w0 w : World)
    (sv0 sv : StructVars) (first : Nat) (rest : List (Option Nat)) (jf : JITVars)
    (struct_address : Nat) (err : Error) (w' : World) (err' : Error) (address : Nat)
    (hsv0 : w0.m_struct_vars = some sv0) (hfresh : sv0.m_struct_laid_out = false)
    (hmembers : w0.m_struct_members = some first :: rest)
    (hfirst : (w0.heap first).m_jit_vars = some jf)
    (hdiv : ∀ v j, some v ∈ w0.m_struct_members → (w0.heap v).m_jit_vars = some j →
      0 < j.m_alignment ∧ j.m_alignment ∣ jf.m_alignment)
    (hsafe : (∀ v j, some v ∈ w0.m_struct_members → (w0.heap v).m_jit_vars = some j →
        ∃ k, k < 64 ∧ j.m_alignment = 2 ^ k) ∨
      (layoutExtent w0 w0.m_struct_members < 2 ^ 63 ∧
        address + layoutExtent w0 w0.m_struct_members ≤ 2 ^ 64))
    (hlayout : DoStructLayout w0 = some (true, w))
    (hsv : w.m_struct_vars = some sv) (hsize : sv.m_struct_size ≠ 0)
    (hframe : exe_ctx.frame = true)
    (hrun : Materialize exe_ctx w struct_address err = some (true, w', err', address)) :
    w'.m_struct_members = w0.m_struct_members ∧
    ∀ v, some v ∈ w'.m_struct_members →
      ∃ j, (w'.heap v).m_jit_vars = some j ∧ jitShape (w'.heap v) = jitShape (w0.heap v) ∧
        j.m_alignment ∣ address + j.m_offset := by
  obtain ⟨w1, sv1, cursor, hloop, rfl⟩ := DoStructLayout_run w0 w sv0 hsv0 hfresh hlayout
  obtain ⟨⟨heap', rfl⟩, -, hshape⟩ := layOutMembers_frame _ _ _ _ _ _ _ _ _ hloop
  have haligned : ∀ v, some v ∈ w0.m_struct_members ∨ OffsetAligned w0 v →
      OffsetAligned { w0 with heap := heap' } v := by
    rcases hsafe with hpow | ⟨hbound, -⟩
    · exact layOutMembers_offsets_pow2 _ _ _ _ _ _ _ _ hpow hloop
    · exact layOutMembers_offsets_aligned _ _ _ _ _ _ _ _ (by omega) hloop
  have hsv1 : sv1.m_struct_alignment = jf.m_alignment := by
    have hloop' := hloop
    rw [hmembers] at hloop'
    simp only [layOutMembers, hfirst] at hloop'
    split at hloop'
    · exact absurd hloop' (by simp)
    · have h1 := layOutMembers_alignment _ _ _ _ _ _ _ _ _ hloop' (Nat.succ_pos _)
      rw [h1]
      simp
  simp only [Option.some.injEq] at hsv
  subst hsv
  have hpos : 0 < jf.m_alignment :=
    (hdiv first jf (by rw [hmembers]; exact List.mem_cons_self _ _) hfirst).1
  obtain ⟨mem, later, mv', -, -, -, -, haddr, -⟩ :=
    Materialize_location exe_ctx _ _ struct_address err w' err' address rfl rfl hsize hframe hrun
  obtain ⟨hms, hstatic⟩ := Materialize_static _ _ _ _ _ _ _ _ hrun
  have hstruct : jf.m_alignment ∣ address := by
    rw [haddr]
    show jf.m_alignment ∣ alignLocation mem sv1.m_struct_alignment
    rw [hsv1]
    exact (roundUp_isLeast mem jf.m_alignment (Nat.ne_of_gt hpos)).1.2
  refine ⟨hms, ?_⟩
  intro v hv
  rw [hms] at hv
  obtain ⟨j, hj, hoff⟩ := haligned v (Or.inl hv)
  have hjit : (w'.heap v).m_jit_vars = some j := by
    rw [staticPart_jit_vars _ _ (hstatic v)]; exact hj
  have hshape' : jitShape (w'.heap v) = jitShape (w0.heap v) := by
    rw [← hshape v]
    simp only [jitShape, hjit]
    exact congrArg _ hj.symm
  refine ⟨j, hjit, hshape', ?_⟩
  have hj0 : ∃ j0, (w0.heap v).m_jit_vars = some j0 ∧ j0.m_alignment = j.m_alignment := by
    have h2 := hshape v
    simp only [jitShape] at h2
    rw [show (World.heap { w0 with heap := heap' } v).m_jit_vars = some j from hj] at h2
    cases h0 : (w0.heap v).m_jit_vars with
    | none => rw [h0] at h2; simp at h2
    | some j0 =>
      rw [h0] at h2
      simp only [Option.map_some', Option.some.injEq, Prod.mk.injEq] at h2
      exact ⟨j0, rfl, h2.1.symm⟩
  obtain ⟨j0, hj0, heq⟩ := hj0
  have hd := (hdiv v j0 hv hj0).2
  rw [heq] at hd
  exact Dvd.dvd.add (Dvd.dvd.trans hd hstruct) hoff

/-- Witness of C28: the struct of `alignedPair` has members of alignment 8 and 4 at the
offsets 0 and 8; the allocator answers 1004, the struct is placed at 1008 and its members
at 1008 and 1016. -/
theorem member_addresses_are_aligned_witness :
    Materialize {} (afterLayout alignedPair) 0 none
      = some (true, afterMaterialize {} (afterLayout alignedPair), none, 1008) ∧
    (afterMaterialize {} (afterLayout alignedPair)).m_struct_members
      = alignedPair.m_struct_members ∧
    ∀ v, some v ∈ (afterMaterialize {} (afterLayout alignedPair)).m_struct_members →
      ∃ j, ((afterMaterialize {} (afterLayout alignedPair)).heap v).m_jit_vars = some j ∧
        jitShape ((afterMaterialize {} (afterLayout alignedPair)).heap v)
          = jitShape (alignedPair.heap v) ∧
        j.m_alignment ∣ 1008 + j.m_offset :=
  ⟨rfl, member_addresses_are_aligned {} alignedPair (afterLayout alignedPair)
    { m_result_name := "$result" }
    { m_struct_alignment := 8, m_struct_size := 16, m_struct_laid_out := true,
      m_result_name := "$result" }
    0 [some 1] { m_alignment := 8, m_size := 8 } 0 none
    (afterMaterialize {} (afterLayout alignedPair)) none 1008 rfl rfl rfl rfl
    (by
      intro v j hv hj
      have hv' : v = 0 ∨ v = 1 := by
        simpa [alignedPair] using hv
      rcases hv' with rfl | rfl
      · cases hj; decide
      · cases hj; decide)
    (Or.inr ⟨by decide, by decide⟩) rfl rfl (by decide) rfl rfl⟩

theorem byte_of_value (v i : Nat) :
    ((v &&& (0xff <<< (i * 8))) >>> (i * 8)) % 256 = (v / 2 ^ (8 * i)) % 256 := by
  have h1 : (v &&& (0xff <<< (i * 8))) >>> (i * 8) = (v >>> (i * 8)) &&& 0xff := by
    apply Nat.eq_of_testBit_eq
    intro j
    simp only [Nat.testBit_shiftRight, Nat.testBit_and, Nat.testBit_shiftLeft]
    have : i * 8 + j - i * 8 = j := by omega
    simp [this]
  rw [h1]
  have h2 : (0xff : Nat) = 2 ^ 8 - 1 := by norm_num
  rw [h2, Nat.and_pow_two_sub_one_eq_mod, Nat.shiftRight_eq_div_pow, Nat.mul_comm i 8]
  norm_num

theorem encodeLE_length (n : Nat) : ∀ v, (encodeLE v n).length = n := by
  induction n with
  | zero => intro v; rfl
  | succ k ih => intro v; simp [encodeLE, ih]

theorem decodeLE_encodeLE (n : Nat) : ∀ v, decodeLE (encodeLE v n) = v % 256 ^ n := by
  induction n with
  | zero => intro v; simp [encodeLE, decodeLE, Nat.mod_one]
  | succ k ih =>
    intro v
    simp only [encodeLE, decodeLE, ih]
    rw [pow_succ, Nat.mul_comm (256 ^ k) 256, Nat.mod_mul]

theorem storeIntegerBytes_little (v n : Nat) (count : Nat) :
    ∀ (idx : Nat) (data : List Nat), idx + count ≤ data.length →
      storeIntegerBytes ByteOrder.eByteOrderLittle v n count idx data
        = some (some (data.take idx ++ encodeLE (v / 2 ^ (8 * idx)) count
            ++ data.drop (idx + count))) := by
  induction count with
  | zero =>
    intro idx data _
    simp [storeIntegerBytes, encodeLE]
  | succ k ih =>
    intro idx data hlen
    have hidx : idx < data.length := by omega
    simp only [storeIntegerBytes, hidx, ↓reduceIte, byte_of_value]
    rw [ih (idx + 1) _ (by simp; omega)]
    have hset : data.set idx (v / 2 ^ (8 * idx) % 256)
        = data.take idx ++ (v / 2 ^ (8 * idx) % 256) :: data.drop (idx + 1) := by
      rw [List.set_eq_take_append_cons_drop, if_pos hidx]
    have htake : (data.set idx (v / 2 ^ (8 * idx) % 256)).take (idx + 1)
        = data.take idx ++ [v / 2 ^ (8 * idx) % 256] := by
      rw [hset, List.take_append_eq_append_take]
      simp [List.length_take, Nat.min_eq_left (Nat.le_of_lt hidx)]
    have hdrop : (data.set idx (v / 2 ^ (8 * idx) % 256)).drop (idx + 1 + k)
        = data.drop (idx + (k + 1)) := by
      rw [List.drop_set, if_pos (by omega)]
      congr 1
      omega
    have hdiv : v / 2 ^ (8 * (idx + 1)) = v / 2 ^ (8 * idx) / 256 := by
      rw [Nat.mul_add, pow_add, Nat.div_div_eq_div_mul]
      norm_num
    rw [htake, hdrop, hdiv]
    simp [encodeLE]

theorem storeIntegerBytes_big (v n : Nat) (count : Nat) :
    ∀ (idx : Nat) (data : List Nat), idx + count ≤ n → n ≤ data.length →
      storeIntegerBytes ByteOrder.eByteOrderBig v n count idx data
        = some (some (data.take (n - idx - count)
            ++ (encodeLE (v / 2 ^ (8 * idx)) count).reverse ++ data.drop (n - idx))) := by
  induction count with
  | zero =>
    intro idx data _ _
    simp [storeIntegerBytes, encodeLE]
  | succ k ih =>
    intro idx data hcount hlen
    have hpos : n - (1 + idx) < data.length := by omega
    simp only [storeIntegerBytes, hpos, ↓reduceIte, byte_of_value]
    rw [ih (idx + 1) _ (by omega) (by simp; omega)]
    have htake : (data.set (n - (1 + idx)) (v / 2 ^ (8 * idx) % 256)).take (n - (idx + 1) - k)
        = data.take (n - idx - (k + 1)) := by
      rw [List.set_take, List.set_eq_of_length_le (by simp [List.length_take]; omega)]
      congr 1
      omega
    have hdrop : (data.set (n - (1 + idx)) (v / 2 ^ (8 * idx) % 256)).drop (n - (idx + 1))
        = (v / 2 ^ (8 * idx) % 256) :: data.drop (n - idx) := by
      rw [List.set_eq_take_append_cons_drop, if_pos hpos]
      have h1 : n - (idx + 1) = (List.take (n - (1 + idx)) data).length := by
        simp [List.length_take]; omega
      rw [h1, List.drop_left]
      have h2 : n - (1 + idx) + 1 = n - idx := by omega
      rw [h2]
    have hdiv : v / 2 ^ (8 * (idx + 1)) = v / 2 ^ (8 * idx) / 256 := by
      rw [Nat.mul_add, pow_add, Nat.div_div_eq_div_mul]
      norm_num
    rw [htake, hdrop, hdiv]
    simp [encodeLE]

theorem BuildIntegerVariable_run (exe_ctx : ExecutionContext) (pv : DeclMapParserVars)
    (w : World) (name : String) (type : TaggedASTType) (value : Nat) (v : Nat)
    (buf data : List Nat)
    (hparse : w.m_parser_vars = true) (hscratch : exe_ctx.scratchASTContext = true)
    (hvar : GetVariableByName (persistentWorld exe_ctx pv w name type).heap name
      (persistentWorld exe_ctx pv w name type).persistent_vars = some v)
    (hbuf : ((persistentWorld exe_ctx pv w name type).heap v).m_value_bytes = some buf)
    (hvalue : value < 2 ^ 64)
    (hstore : storeIntegerBytes (persistentWorld exe_ctx pv w name type).process.byteOrder value
      ((persistentWorld exe_ctx pv w name type).heap v).m_byte_size
      (min ((persistentWorld exe_ctx pv w name type).heap v).m_byte_size 8) 0 buf
        = some (some data)) :
    ∃ w', BuildIntegerVariable exe_ctx pv w name type value = some (some v, w') ∧
      (w'.heap v).m_value_bytes = some data ∧
      (w'.heap v).m_flags = { ((persistentWorld exe_ctx pv w name type).heap v).m_flags with
        EVIsFreezeDried := true, EVIsLLDBAllocated := true, EVNeedsAllocation := true } := by
  have hcreated : (CreatePersistentVariable exe_ctx w name
      { ast := pv.scratch_ast, type := exe_ctx.CopyType pv.scratch_ast type }).1.isSome = true := by
    unfold CreatePersistentVariable
    split <;> rfl
  obtain ⟨c, hc⟩ := Option.isSome_iff_exists.mp hcreated
  have hmin : min value (2 ^ 64 - 1) = value := by omega
  have hnum : (if 8 > ((persistentWorld exe_ctx pv w name type).heap v).m_byte_size
      then ((persistentWorld exe_ctx pv w name type).heap v).m_byte_size else 8)
      = min ((persistentWorld exe_ctx pv w name type).heap v).m_byte_size 8 := by
    split <;> omega
  simp only [persistentWorld] at hvar hbuf hstore hnum ⊢
  simp only [BuildIntegerVariable, hparse, hscratch, Bool.not_true, Bool.false_eq_true,
    ↓reduceIte, hc, hvar, hbuf, hmin, hnum, hstore]
  exact ⟨_, rfl, by simp [World.setVar], by simp [World.setVar]⟩

/-- C29: when `BuildIntegerVariable` finds, under the name given, a variable of `n` bytes
(`n` at least 1) with a host-side buffer of `n` bytes, and the value fits 64 bits, it
returns that variable with the `min n 8` low bytes of the value stored in the byte order of
the target.  Little endian: they are the first bytes of the buffer, least significant
first, and the bytes from position 8 on are the old ones.  Big endian: they are the last
bytes of the buffer, most significant first, and the first `n - 8` bytes are the old ones.
For `n` up to 8 the whole buffer, read as an unsigned number in that byte order, is the
value modulo `2 ^ (8 * n)`. -/
theorem BuildIntegerVariable_stores_in_byte_order (exe_ctx : ExecutionContext)
    (pv : DeclMapParserVars) (w : World) (name : String) (type : TaggedASTType) (value : Nat)
    (v : Nat) (buf : List Nat) (n : Nat)
    (hparse : w.m_parser_vars = true) (hscratch : exe_ctx.scratchASTContext = true)
    (hvar : GetVariableByName (persistentWorld exe_ctx pv w name type).heap name
      (persistentWorld exe_ctx pv w name type).persistent_vars = some v)
    (hbuf : ((persistentWorld exe_ctx pv w name type).heap v).m_value_bytes = some buf)
    (hsize : ((persistentWorld exe_ctx pv w name type).heap v).m_byte_size = n)
    (hlen : buf.length = n) (hn : 1 ≤ n) (hvalue : value < 2 ^ 64) :
    (w.process.byteOrder = ByteOrder.eByteOrderLittle →
      ∃ w', BuildIntegerVariable exe_ctx pv w name type value = some (some v, w') ∧
        (w'.heap v).m_value_bytes = some (encodeLE value (min n 8) ++ buf.drop 8) ∧
        (encodeLE value (min n 8) ++ buf.drop 8).length = n ∧
        (n ≤ 8 → decodeLE (encodeLE value (min n 8) ++ buf.drop 8) = value % 2 ^ (8 * n))) ∧
    (w.process.byteOrder = ByteOrder.eByteOrderBig →
      ∃ w', BuildIntegerVariable exe_ctx pv w name type value = some (some v, w') ∧
        (w'.heap v).m_value_bytes
          = some (buf.take (n - 8) ++ (encodeLE value (min n 8)).reverse) ∧
        (buf.take (n - 8) ++ (encodeLE value (min n 8)).reverse).length = n ∧
        (n ≤ 8 → decodeLE (buf.take (n - 8) ++ (encodeLE value (min n 8)).reverse).reverse
          = value % 2 ^ (8 * n))) := by
  have horder : (persistentWorld exe_ctx pv w name type).process.byteOrder
      = w.process.byteOrder := by
    simp only [persistentWorld, CreatePersistentVariable]
    split <;> rfl
  have hpow : ∀ k, 256 ^ k = 2 ^ (8 * k) := by
    intro k
    rw [pow_mul]
    norm_num
  constructor
  · intro hlittle
    have hstore := storeIntegerBytes_little value n (min n 8) 0 buf (by omega)
    simp only [List.take_zero, List.nil_append, Nat.mul_zero, pow_zero, Nat.div_one,
      Nat.zero_add] at hstore
    have hdrop : buf.drop (min n 8) = buf.drop 8 := by
      by_cases h8 : 8 ≤ n
      · rw [Nat.min_eq_right h8]
      · rw [List.drop_of_length_le (by omega), List.drop_of_length_le (by omega)]
    rw [hdrop] at hstore
    obtain ⟨w', hrun, hbytes, -⟩ :=
      BuildIntegerVariable_run exe_ctx pv w name type value v buf _ hparse hscratch hvar hbuf
        hvalue (by rw [horder, hlittle, hsize]; exact hstore)
    refine ⟨w', hrun, hbytes, ?_, ?_⟩
    · simp only [List.length_append, encodeLE_length, List.length_drop]
      omega
    · intro h8
      rw [Nat.min_eq_left h8, List.drop_of_length_le (by omega), List.append_nil,
        decodeLE_encodeLE, hpow]
  · intro hbig
    have hstore := storeIntegerBytes_big value n (min n 8) 0 buf (by omega) (by omega)
    simp only [Nat.mul_zero, pow_zero, Nat.div_one, Nat.sub_zero] at hstore
    have htake : buf.take (n - min n 8) = buf.take (n - 8) := by
      congr 1
      omega
    rw [htake, List.drop_of_length_le (by omega), List.append_nil] at hstore
    obtain ⟨w', hrun, hbytes, -⟩ :=
      BuildIntegerVariable_run exe_ctx pv w name type value v buf _ hparse hscratch hvar hbuf
        hvalue (by rw [horder, hbig, hsize]; exact hstore)
    refine ⟨w', hrun, hbytes, ?_, ?_⟩
    · simp only [List.length_append, List.length_reverse, encodeLE_length, List.length_take]
      omega
    · intro h8
      have h0 : n - 8 = 0 := by omega
      rw [h0, List.take_zero, List.nil_append, List.reverse_reverse, Nat.min_eq_left h8,
        decodeLE_encodeLE, hpow]

/-- Witness of C29: a new four-byte variable `$x` takes the value `0x0102030405`; its buffer
becomes 5, 4, 3, 2 on a little-endian target and 2, 3, 4, 5 on a big-endian one. -/
theorem BuildIntegerVariable_stores_in_byte_order_witness :
    (BuildIntegerVariable wordTypes {} (parsingFor ByteOrder.eByteOrderLittle) "$x" ⟨1, 2⟩
        0x0102030405).map (fun r => (r.1, (r.2.heap 1).m_value_bytes))
      = some (some 1, some [5, 4, 3, 2]) ∧
    (BuildIntegerVariable wordTypes {} (parsingFor ByteOrder.eByteOrderBig) "$x" ⟨1, 2⟩
        0x0102030405).map (fun r => (r.1, (r.2.heap 1).m_value_bytes))
      = some (some 1, some [2, 3, 4, 5]) ∧
    ((parsingFor ByteOrder.eByteOrderLittle).process.byteOrder = ByteOrder.eByteOrderLittle →
      ∃ w', BuildIntegerVariable wordTypes {} (parsingFor ByteOrder.eByteOrderLittle) "$x"
          ⟨1, 2⟩ 0x0102030405 = some (some 1, w') ∧
        (w'.heap 1).m_value_bytes
          = some (encodeLE 0x0102030405 (min 4 8) ++ [0, 0, 0, 0].drop 8) ∧
        (encodeLE 0x0102030405 (min 4 8) ++ [0, 0, 0, 0].drop 8).length = 4 ∧
        (4 ≤ 8 → decodeLE (encodeLE 0x0102030405 (min 4 8) ++ [0, 0, 0, 0].drop 8)
          = 0x0102030405 % 2 ^ (8 * 4))) ∧
    ((parsingFor ByteOrder.eByteOrderLittle).process.byteOrder = ByteOrder.eByteOrderBig →
      ∃ w', BuildIntegerVariable wordTypes {} (parsingFor ByteOrder.eByteOrderLittle) "$x"
          ⟨1, 2⟩ 0x0102030405 = some (some 1, w') ∧
        (w'.heap 1).m_value_bytes
          = some ([0, 0, 0, 0].take (4 - 8) ++ (encodeLE 0x0102030405 (min 4 8)).reverse) ∧
        ([0, 0, 0, 0].take (4 - 8) ++ (encodeLE 0x0102030405 (min 4 8)).reverse).length = 4 ∧
        (4 ≤ 8 →
          decodeLE ([0, 0, 0, 0].take (4 - 8) ++ (encodeLE 0x0102030405 (min 4 8)).reverse).reverse
            = 0x0102030405 % 2 ^ (8 * 4))) :=
  ⟨rfl, rfl,
    BuildIntegerVariable_stores_in_byte_order wordTypes {}
      (parsingFor ByteOrder.eByteOrderLittle) "$x" ⟨1, 2⟩ 0x0102030405 1 [0, 0, 0, 0] 4
      rfl rfl rfl rfl rfl rfl (by decide) (by norm_num)⟩

theorem head_append (a b : String) (c : Char) (h : a.data.head? = some c) :
    (a ++ b).data.head? = some c := by
  rw [String.data_append]
  cases hd : a.data with
  | nil => rw [hd] at h; cases h
  | cons x xs => rw [hd] at h; simpa using h

theorem ne_unsupported (s : String) (c : Char) (h : s.data.head? = some c) (hc : c ≠ 'P') :
    (some s : Error) ≠ some unsupportedMessage := by
  intro heq
  simp only [Option.some.injEq] at heq
  rw [heq] at h
  have hp : unsupportedMessage.data.head? = some 'P' := rfl
  rw [hp] at h
  exact hc (Option.some.inj h).symm

theorem dematerializeLocate_supported (w : World) (v addr : Nat) (e : Error)
    (hok : storageFlagsOk (w.heap v).m_flags)
    (h : dematerializeLocate w v addr = Sum.inl e) : e ≠ some unsupportedMessage := by
  have hor : ((w.heap v).m_flags.EVIsLLDBAllocated || (w.heap v).m_flags.EVIsProgramReference)
      = true := by
    rcases hok.2 with h1 | h1 <;> simp [h1]
  simp only [dematerializeLocate, hor, ↓reduceIte] at h
  repeat' split at h
  all_goals first
    | (simp only [Sum.inl.injEq] at h
       subst h
       first
         | exact ne_unsupported _ 'C' (head_append _ _ _ (head_append _ _ _ rfl)) (by decide)
         | exact ne_unsupported _ 'C' (head_append _ _ _ rfl) (by decide)
         | exact ne_unsupported _ 'T' (head_append _ _ _ (head_append _ _ _ rfl)) (by decide))
    | cases h

theorem dematerializeLocate_flags (w : World) (v addr : Nat) (w1 : World) (mem : Nat)
    (h : dematerializeLocate w v addr = Sum.inr (w1, mem)) :
    ∀ u, (w1.heap u).m_flags = (w.heap u).m_flags := by
  obtain ⟨-, -, -, hw1, -⟩ := dematerializeLocate_spec _ _ _ _ _ h
  intro u
  rw [hw1]
  by_cases hu : u = v
  · subst hu; rw [setVar_heap_self]
  · rw [setVar_heap_ne _ _ _ _ hu]

theorem storageFlagsOk_update (w : World) (v : Nat) (x : ClangExpressionVariable)
    (hx : storageFlagsOk (w.heap v).m_flags → storageFlagsOk x.m_flags) (u : Nat)
    (hok : storageFlagsOk (w.heap u).m_flags) :
    storageFlagsOk ((w.setVar v x).heap u).m_flags := by
  by_cases hu : u = v
  · subst hu; rw [setVar_heap_self]; exact hx hok
  · rw [setVar_heap_ne _ _ _ _ hu]; exact hok

theorem dematerializeFreezeDry_storage (w : World) (v mem : Nat) (data : List Nat)
    (top bottom : Nat) (w2 : World) (mem1 : Nat)
    (h : dematerializeFreezeDry w v mem data top bottom = some (Sum.inr (w2, mem1))) :
    ∀ u, storageFlagsOk (w.heap u).m_flags → storageFlagsOk (w2.heap u).m_flags := by
  simp only [dematerializeFreezeDry] at h
  repeat' split at h
  all_goals first
    | (simp only [Option.some.injEq, Sum.inr.injEq, Prod.mk.injEq] at h
       obtain ⟨rfl, -⟩ := h
       intro u hok
       first
         | exact hok
         | (apply storageFlagsOk_update _ _ _ _ u hok
            intro hv
            simp only [storageFlagsOk] at hv ⊢
            simp_all))
    | cases h

theorem dematerializeFreezeDry_supported (w : World) (v mem : Nat) (data : List Nat)
    (top bottom : Nat) (e : Error)
    (h : dematerializeFreezeDry w v mem data top bottom = some (Sum.inl e)) :
    e ≠ some unsupportedMessage := by
  simp only [dematerializeFreezeDry] at h
  repeat' split at h
  all_goals first
    | (simp only [Option.some.injEq, Sum.inl.injEq] at h
       subst h
       exact ne_unsupported _ 'C' rfl (by decide))
    | cases h

theorem dematerializeRelease_storage (w : World) (v mem : Nat) (err : Error) :
    (∀ u, storageFlagsOk (w.heap u).m_flags →
      storageFlagsOk ((dematerializeRelease w v mem err).2.1.heap u).m_flags) ∧
    (err ≠ some unsupportedMessage →
      (dematerializeRelease w v mem err).2.2 ≠ some unsupportedMessage) := by
  simp only [dematerializeRelease]
  repeat' split
  all_goals constructor
  all_goals first
    | (intro u hok
       first
         | exact hok
         | (apply storageFlagsOk_update _ _ _ _ u hok
            intro hv
            simpa [storageFlagsOk] using hv))
    | (intro herr
       first
         | exact herr
         | exact ne_unsupported _ 'C'
             (head_append _ _ _ (head_append _ _ _ (head_append _ _ _ rfl))) (by decide))

theorem materializeAllocate_storage (w : World) (v : Nat) (data : List Nat) :
    (∀ w1 e, materializeAllocate w v data = Sum.inl (w1, e) →
      e ≠ some unsupportedMessage ∧
      ∀ u, storageFlagsOk (w.heap u).m_flags → storageFlagsOk (w1.heap u).m_flags) ∧
    (∀ w1, materializeAllocate w v data = Sum.inr w1 →
      ∀ u, storageFlagsOk (w.heap u).m_flags → storageFlagsOk (w1.heap u).m_flags) := by
  constructor
  · intro w1 e h
    simp only [materializeAllocate] at h
    repeat' split at h
    all_goals first
      | (simp only [Sum.inl.injEq, Prod.mk.injEq] at h
         obtain ⟨rfl, rfl⟩ := h
         refine ⟨?_, ?_⟩
         · exact ne_unsupported _ 'C' rfl (by decide)
         · intro u hok
           first
             | exact hok
             | (apply storageFlagsOk_update _ _ _ _ u hok
                intro hv
                simp only [storageFlagsOk] at hv ⊢
                simp_all))
      | cases h
  · intro w1 h
    simp only [materializeAllocate] at h
    repeat' split at h
    all_goals first
      | (simp only [Sum.inr.injEq] at h
         subst h
         intro u hok
         first
           | exact hok
           | (apply storageFlagsOk_update _ _ _ _ u hok
              intro hv
              simp only [storageFlagsOk] at hv ⊢
              simp_all))
      | cases h

theorem materializePersistent_storage (w : World) (v addr : Nat) (data : List Nat)
    (err : Error) (b : Bool) (w' : World) (err' : Error)
    (h : materializePersistent w v addr data err = some (b, w', err')) :
    (∀ u, storageFlagsOk (w.heap u).m_flags → storageFlagsOk (w'.heap u).m_flags) ∧
    (storageFlagsOk (w.heap v).m_flags → err ≠ some unsupportedMessage →
      err' ≠ some unsupportedMessage) := by
  obtain ⟨hinl, hinr⟩ := materializeAllocate_storage w v data
  simp only [materializePersistent] at h
  split at h
  · rename_i w1 e hA
    cases h
    exact ⟨(hinl _ _ hA).2, fun _ _ => (hinl _ _ hA).1⟩
  · rename_i w1 hA
    have hstep := hinr _ hA
    split at h
    · split at h
      · cases h
      · split at h
        · cases h
          exact ⟨hstep, fun _ _ => ne_unsupported _ 'C' rfl (by decide)⟩
        · cases h
          exact ⟨hstep, fun _ herr => herr⟩
    · rename_i hcond
      split at h
      · rename_i hnot
        cases h
        refine ⟨hstep, fun hok _ => ?_⟩
        exfalso
        have hok1 := (hstep v hok).2
        simp only [Bool.or_eq_true, Bool.and_eq_true, not_or, not_and, Bool.not_eq_true] at hcond
        simp only [Bool.not_eq_true', Bool.not_eq_true] at hnot
        rcases hok1 with h1 | h1
        · rw [hcond.2] at h1; cases h1
        · rw [h1] at hnot; cases hnot
      · cases h
        exact ⟨hstep, fun _ herr => herr⟩

theorem DoMaterializeOnePersistentVariable_storage (d : Bool) (w : World) (v addr top bottom : Nat)
    (err : Error) (b : Bool) (w' : World) (err' : Error)
    (h : DoMaterializeOnePersistentVariable d w (some v) addr top bottom err
      = some (b, w', err')) :
    (∀ u, storageFlagsOk (w.heap u).m_flags → storageFlagsOk (w'.heap u).m_flags) ∧
    (storageFlagsOk (w.heap v).m_flags → err ≠ some unsupportedMessage →
      err' ≠ some unsupportedMessage) := by
  simp only [DoMaterializeOnePersistentVariable] at h
  split at h
  · cases h
    exact ⟨fun _ hok => hok, fun _ herr => herr⟩
  · rename_i data hdata
    cases d with
    | false =>
      simp only [Bool.false_eq_true, ↓reduceIte] at h
      exact materializePersistent_storage _ _ _ _ _ _ _ _ h
    | true =>
      simp only [↓reduceIte] at h
      split at h
      · rename_i e hL
        cases h
        exact ⟨fun _ hok => hok, fun hok _ => dematerializeLocate_supported _ _ _ _ hok hL⟩
      · rename_i w1 mem hL
        have hflags := dematerializeLocate_flags _ _ _ _ _ hL
        have h1 : ∀ u, storageFlagsOk (w.heap u).m_flags → storageFlagsOk (w1.heap u).m_flags :=
          fun u hok => by rw [hflags u]; exact hok
        split at h
        · cases h
        · rename_i e hF
          cases h
          exact ⟨h1, fun _ _ => dematerializeFreezeDry_supported _ _ _ _ _ _ _ hF⟩
        · rename_i w2 mem1 hF
          have h2 := dematerializeFreezeDry_storage _ _ _ _ _ _ _ _ hF
          simp only [Option.some.injEq] at h
          obtain ⟨h3, h4⟩ := dematerializeRelease_storage w2 v mem1 err
          rw [h] at h3 h4
          exact ⟨fun u hok => h3 u (h2 u (h1 u hok)), fun _ herr => h4 herr⟩

theorem CreatePersistentVariable_isSome (exe_ctx : ExecutionContext) (w : World)
    (name : String) (user_type : TaggedASTType) :
    ∃ c, (CreatePersistentVariable exe_ctx w name user_type).1 = some c := by
  unfold CreatePersistentVariable
  split
  · exact ⟨_, rfl⟩
  · exact ⟨_, rfl⟩

theorem AddPersistentVariable_storage (exe_ctx : ExecutionContext) (pv : DeclMapParserVars)
    (w : World) (decl : Nat) (name : String) (parser_type : TaggedASTType)
    (is_result is_lvalue : Bool) (v : Nat)
    (hparse : w.m_parser_vars = true) (hscratch : exe_ctx.scratchASTContext = true)
    (hvar : GetVariableByName (persistentWorld exe_ctx pv w name parser_type).heap name
      (persistentWorld exe_ctx pv w name parser_type).persistent_vars = some v)
    (hflags : ((persistentWorld exe_ctx pv w name parser_type).heap v).m_flags = {}) :
    ∃ w', AddPersistentVariable exe_ctx pv w decl name parser_type is_result is_lvalue
        = some (true, w') ∧
      storageFlagsOk (w'.heap v).m_flags ∧
      (w'.heap v).m_flags.EVIsProgramReference = is_lvalue ∧
      (w'.heap v).m_flags.EVIsLLDBAllocated = !is_lvalue ∧
      (w'.heap v).m_flags.EVNeedsAllocation = !is_lvalue := by
  obtain ⟨c, hc⟩ := CreatePersistentVariable_isSome exe_ctx w name
    { ast := pv.scratch_ast, type := exe_ctx.CopyType pv.scratch_ast parser_type }
  simp only [persistentWorld] at hvar hflags
  simp only [AddPersistentVariable, hparse, hscratch, Bool.not_true, Bool.false_eq_true,
    ↓reduceIte, hc, hvar, hflags]
  refine ⟨_, rfl, ?_⟩
  rw [setVar_heap_self]
  cases is_result <;> cases is_lvalue <;> simp [storageFlagsOk]

theorem BuildIntegerVariable_storage (exe_ctx : ExecutionContext) (pv : DeclMapParserVars)
    (w : World) (name : String) (type : TaggedASTType) (value : Nat) (v : Nat) (w' : World)
    (h : BuildIntegerVariable exe_ctx pv w name type value = some (some v, w')) :
    storageFlagsOk (w'.heap v).m_flags := by
  simp only [BuildIntegerVariable] at h
  repeat' split at h
  all_goals first
    | (simp only [Option.some.injEq, Prod.mk.injEq] at h
       obtain ⟨rfl, rfl⟩ := h
       rw [setVar_heap_self]
       simp [storageFlagsOk])
    | cases h

/-- C30: the storage-flag predicate (`EVNeedsAllocation` implies `EVIsLLDBAllocated`, and
`EVIsLLDBAllocated` or `EVIsProgramReference`) holds for the variable that
`AddPersistentVariable` sets up from a variable without flags, for whatever it is called
with, and for the variable that `BuildIntegerVariable` returns; every call of
`DoMaterializeOnePersistentVariable` that returns, with `true` or with `false`,
materializing or dematerializing, leaves the predicate true of every variable of which it
was true; and for a variable of which it is true the call does not produce the error for a
variable without separate allocation: the error it returns is that message only if the
error it was given was. -/
theorem storage_flags_invariant :
    (∀ (exe_ctx : ExecutionContext) (pv : DeclMapParserVars) (w : World) (decl : Nat)
      (name : String) (parser_type : TaggedASTType) (is_result is_lvalue : Bool) (v : Nat),
      w.m_parser_vars = true → exe_ctx.scratchASTContext = true →
      GetVariableByName (persistentWorld exe_ctx pv w name parser_type).heap name
        (persistentWorld exe_ctx pv w name parser_type).persistent_vars = some v →
      ((persistentWorld exe_ctx pv w name parser_type).heap v).m_flags = {} →
      ∃ w', AddPersistentVariable exe_ctx pv w decl name parser_type is_result is_lvalue
          = some (true, w') ∧ storageFlagsOk (w'.heap v).m_flags) ∧
    (∀ (exe_ctx : ExecutionContext) (pv : DeclMapParserVars) (w : World) (name : String)
      (type : TaggedASTType) (value : Nat) (v : Nat) (w' : World),
      BuildIntegerVariable exe_ctx pv w name type value = some (some v, w') →
      storageFlagsOk (w'.heap v).m_flags) ∧
    (∀ (d : Bool) (w : World) (v addr top bottom : Nat) (err : Error) (b : Bool) (w' : World)
      (err' : Error),
      DoMaterializeOnePersistentVariable d w (some v) addr top bottom err = some (b, w', err') →
      (∀ u, storageFlagsOk (w.heap u).m_flags → storageFlagsOk (w'.heap u).m_flags) ∧
      (storageFlagsOk (w.heap v).m_flags → err ≠ some unsupportedMessage →
        err' ≠ some unsupportedMessage)) := by
  refine ⟨?_, ?_, ?_⟩
  · intro exe_ctx pv w decl name parser_type is_result is_lvalue v hparse hscratch hvar hflags
    obtain ⟨w', hrun, hok, -⟩ := AddPersistentVariable_storage exe_ctx pv w decl name parser_type
      is_result is_lvalue v hparse hscratch hvar hflags
    exact ⟨w', hrun, hok⟩
  · intro exe_ctx pv w name type value v w' h
    exact BuildIntegerVariable_storage exe_ctx pv w name type value v w' h
  · intro d w v addr top bottom err b w' err' h
    exact DoMaterializeOnePersistentVariable_storage d w v addr top bottom err b w' err' h

/-- Witness of C30: the result variable `$r` added by `AddPersistentVariable` to the decl
map of `parsing` satisfies the predicate, so does the variable `$x` built by
`BuildIntegerVariable`, and the dematerialization of the result variable of
`resultComputed`, which satisfies it, keeps it and reports no error. -/
theorem storage_flags_invariant_witness :
    (∃ w', AddPersistentVariable wordTypes {} parsing 7 "$r" ⟨1, 2⟩ true false = some (true, w') ∧
      storageFlagsOk (w'.heap 1).m_flags) ∧
    (∃ w', BuildIntegerVariable wordTypes {} parsing "$x" ⟨1, 2⟩ 5 = some (some 1, w') ∧
      storageFlagsOk (w'.heap 1).m_flags) ∧
    storageFlagsOk (resultComputed.heap 0).m_flags ∧
    DoMaterializeOnePersistentVariable true resultComputed (some 0) 1008 LLDB_INVALID_ADDRESS
        LLDB_INVALID_ADDRESS none
      = some (true, afterPersistentVariable true resultComputed 0 1008 LLDB_INVALID_ADDRESS
          LLDB_INVALID_ADDRESS none, none) ∧
    storageFlagsOk ((afterPersistentVariable true resultComputed 0 1008 LLDB_INVALID_ADDRESS
      LLDB_INVALID_ADDRESS none).heap 0).m_flags :=
  ⟨storage_flags_invariant.1 wordTypes {} parsing 7 "$r" ⟨1, 2⟩ true false 1 rfl rfl rfl rfl,
    ⟨_, rfl, storage_flags_invariant.2.1 wordTypes {} parsing "$x" ⟨1, 2⟩ 5 1 _ rfl⟩,
    by decide, rfl,
    (storage_flags_invariant.2.2 true resultComputed 0 1008 LLDB_INVALID_ADDRESS
      LLDB_INVALID_ADDRESS none true _ none rfl).1 0 (by decide)⟩

end lldb_private
